import Mathlib

/-!
# Wallet analyzer: pagination, normalization and aggregation

A shallow embedding of `analyze/struct.go` and `analyze/transactionanalyzer.go`.

* Go `int`, `int64` and `time.Duration` values are integers (`Int`), read in
  64 bits where Go computes with them: the `int` sums of `PrintStatistics` and
  the `int64` seconds of package `time` wrap modulo `2^64` as they do in Go.
* `float64` is a type parameter `F` of the data model.  The aggregation needs
  `0` and `+` on it and the normalizer needs `fmt.Sprintf("%.2f", _)`; the
  concrete type `Float64` below gives the IEEE-754 meaning of these.
* `time.Time` is a wall-clock instant without monotonic reading: `int64`
  seconds from the zero instant `time.Time{}` (January 1, year 1, 00:00:00 UTC)
  and the nanoseconds within the second.
* The HTTP transport is a function from the number of the call and the request
  to what `client.Do` and the JSON decoder deliver.  A run of the fetch returns
  the Go result together with the transcript of its transport calls.
* Go strings are Lean strings, compared by code point (the order of their
  UTF-8 bytes). `sort.Strings` and `sort.Slice` are computed by insertion; the
  lists they sort have no two equal keys.
-/

set_option autoImplicit false

/-! ## float64 -/

/-- Formatting of a `float64` by `fmt.Sprintf("%.2f", x)`. -/
class Float64Format (F : Type) where
  /-- The text of `fmt.Sprintf("%.2f", x)`. -/
  sprintf2 : F → String

/-- IEEE-754 binary64 values. A finite value is `m * 2^e`, with `finite 0 0` for
the zero `+0`; `negZero` is the zero `-0`. -/
inductive Float64 where
  | finite (m : Int) (e : Int)
  | negZero
  | inf (negative : Bool)
  | nan
deriving DecidableEq, Repr

namespace Float64

/-- Lowest terms of `m * 2^e`: the mantissa is odd, or the value is `0 * 2^0`. -/
def normalize : Nat → Int → Int → Float64
  | 0, m, e => finite m e
  | k + 1, m, e =>
    if m = 0 then finite 0 0
    else if m % 2 = 0 then normalize k (m / 2) (e + 1)
    else finite m e

/-- The number of binary digits of `n` (at most `fuel` of them are counted). -/
def bits : Nat → Nat → Nat
  | 0, _ => 0
  | fuel + 1, n => if n = 0 then 0 else bits fuel (n / 2) + 1

/-- Round the exact value `M * 2^E` to the nearest binary64 value, ties to the
even mantissa (53 bits of precision, overflow to infinity at `2^1024`). -/
def round (M : Int) (E : Int) : Float64 :=
  let n := M.natAbs
  let k := bits n n - 53
  let q := n / 2 ^ k
  let r := n % 2 ^ k
  let up := decide (2 ^ k < 2 * r) || (decide (2 * r = 2 ^ k) && decide (q % 2 = 1))
  let q1 := if up then q + 1 else q
  if 1024 < (bits q1 q1 : Int) + (E + k) then inf (decide (M < 0))
  else normalize 64 (if M < 0 then -(q1 : Int) else (q1 : Int)) (E + k)

/-- The float64 sum `x + y`. The sum of two zeros is `-0` only when both are
`-0`; an exact sum zero of non-zero values is `+0`. -/
def add : Float64 → Float64 → Float64
  | nan, _ => nan
  | _, nan => nan
  | negZero, negZero => negZero
  | negZero, y => y
  | x, negZero => x
  | inf a, inf b => if a = b then inf a else nan
  | inf a, finite _ _ => inf a
  | finite _ _, inf b => inf b
  | finite m1 e1, finite m2 e2 =>
    let E := min e1 e2
    round (m1 * 2 ^ (e1 - E).toNat + m2 * 2 ^ (e2 - E).toNat) E

/-- Round the exact value `M * 2^E` to the nearest binary64 value as `round`
does, with gradual underflow: nothing below the exponent `-1074` is kept. -/
def roundUnderflow (M : Int) (E : Int) : Float64 :=
  let n := M.natAbs
  let k := max (bits n n - 53) (-1074 - E).toNat
  let q := n / 2 ^ k
  let r := n % 2 ^ k
  let up := decide (2 ^ k < 2 * r) || (decide (2 * r = 2 ^ k) && decide (q % 2 = 1))
  let q1 := if up then q + 1 else q
  if 1024 < (bits q1 q1 : Int) + (E + k) then inf (decide (M < 0))
  else normalize 64 (if M < 0 then -(q1 : Int) else (q1 : Int)) (E + k)

/-- The conversion `float64(n)` of a Go `int`. -/
def ofInt (n : Int) : Float64 := round n 0

/-- The float64 negation `-x`. -/
def neg : Float64 → Float64
  | nan => nan
  | inf a => inf (!a)
  | negZero => finite 0 0
  | finite m e => if m = 0 then negZero else finite (-m) e

/-- The sign bit of a value. -/
def signBit : Float64 → Bool
  | finite m _ => decide (m < 0)
  | negZero => true
  | inf a => a
  | nan => false

/-- Whether a value is `+0` or `-0`. -/
def isZero : Float64 → Bool
  | finite m _ => decide (m = 0)
  | negZero => true
  | _ => false

/-- The magnitude `|m|` and the exponent `e` of a finite value `m * 2^e`. -/
def magnitude : Float64 → Nat × Int
  | finite m e => (m.natAbs, e)
  | _ => (0, 0)

/-- A non-negative value with the given sign bit. -/
def withSign (negative : Bool) (x : Float64) : Float64 :=
  if negative then neg x else x

/-- The float64 product `x * y`: the rounded product of the magnitudes with
the exclusive or of the sign bits. -/
def mul : Float64 → Float64 → Float64
  | nan, _ => nan
  | _, nan => nan
  | inf a, inf b => inf (a != b)
  | inf a, y => if isZero y then nan else inf (a != signBit y)
  | x, inf b => if isZero x then nan else inf (signBit x != b)
  | x, y =>
    withSign (signBit x != signBit y)
      (roundUnderflow ((magnitude x).1 * (magnitude y).1) ((magnitude x).2 + (magnitude y).2))

/-- The float64 quotient `x / y`: the exact quotient of the magnitudes is taken
to more than 55 binary digits, with one more digit that records a non-zero
remainder, and rounded; the sign bit is the exclusive or of the sign bits. -/
def div : Float64 → Float64 → Float64
  | nan, _ => nan
  | _, nan => nan
  | inf _, inf _ => nan
  | inf a, y => inf (a != signBit y)
  | x, inf b => withSign (signBit x != b) (finite 0 0)
  | x, y =>
    if isZero y then (if isZero x then nan else inf (signBit x != signBit y))
    else
      let a := (magnitude x).1
      let b := (magnitude y).1
      let s := 56 + bits b b - bits a a
      let q := a * 2 ^ s / b
      let r := a * 2 ^ s % b
      let M : Int := 2 * q + (if r = 0 then 0 else 1)
      withSign (signBit x != signBit y)
        (roundUnderflow M ((magnitude x).2 - (magnitude y).2 - s - 1))

/-- Two decimal digits, zero padded. -/
def pad2 (n : Nat) : String :=
  if n < 10 then "0" ++ toString n else toString n

/-- The text of `fmt.Sprintf("%.2f", x)`: the exact value rounded to two
fractional digits, ties to even, after the sign. -/
def sprintf2 : Float64 → String
  | nan => "NaN"
  | inf a => if a then "-Inf" else "+Inf"
  | negZero => "-0.00"
  | finite m e =>
    let a := m.natAbs * 100
    let d := 2 ^ (-e).toNat
    let q := a * 2 ^ e.toNat / d
    let r := a * 2 ^ e.toNat % d
    let n := if d < 2 * r ∨ (2 * r = d ∧ q % 2 = 1) then q + 1 else q
    (if m < 0 then "-" else "") ++ toString (n / 100) ++ "." ++ pad2 (n % 100)

/-- The real value of a finite float64 in units of `2^-k`, where that is an
integer: `m * 2^(e + k)` for `m * 2^e`. -/
def scaled (k : Nat) : Float64 → Int
  | finite m e => m * 2 ^ (e + k).toNat
  | _ => 0

/-- Whether a float64 is the conversion of an integer of magnitude below
`2^53`. -/
def smallInteger (x : Float64) : Prop :=
  ∃ n : Int, n.natAbs < 9007199254740992 ∧ x = ofInt n

instance : Zero Float64 := ⟨finite 0 0⟩
instance : Add Float64 := ⟨add⟩
instance : Neg Float64 := ⟨neg⟩
instance : Sub Float64 := ⟨fun x y => add x (neg y)⟩
instance : Float64Format Float64 := ⟨sprintf2⟩

end Float64

/-! ## time -/

namespace time

/-- Seconds from January 1, year 1 to January 1, 1970 (`unixToInternal`). -/
def unixToInternal : Int := 62135596800

/-- Whether `x` is a value of Go's `int64`. -/
def int64 (x : Int) : Prop := -9223372036854775808 ≤ x ∧ x ≤ 9223372036854775807

instance (x : Int) : Decidable (int64 x) :=
  inferInstanceAs (Decidable (-9223372036854775808 ≤ x ∧ x ≤ 9223372036854775807))

/-- The `int64` with the low 64 bits of `x`: the result of Go's `int64`
arithmetic, which wraps around on overflow. -/
def wrap64 (x : Int) : Int :=
  (x + 9223372036854775808) % 18446744073709551616 - 9223372036854775808

/-- Go's quotient `a / b`, truncated toward zero, for a positive `b`. -/
def quo (a b : Int) : Int := if 0 ≤ a then a / b else -((-a) / b)

/-- Go's remainder `a % b`, with the sign of `a`, for a positive `b`. -/
def rem (a b : Int) : Int := if 0 ≤ a then a % b else -((-a) % b)

/-- A `time.Time` without a monotonic clock reading: `ext` is the `int64`
count of seconds since January 1, year 1, 00:00:00 UTC, and `nsec` the
nanoseconds within the second, in `[0, 999999999]`. -/
structure Time where
  ext : Int
  nsec : Int
deriving DecidableEq, Repr

/-- The zero value `time.Time{}`. -/
def Time.zero : Time := ⟨0, 0⟩

/-- The instant `unixTime(sec, nsec)`: the seconds are `sec + unixToInternal`,
added in `int64`. -/
def unixTime (sec nsec : Int) : Time := ⟨wrap64 (sec + unixToInternal), nsec⟩

/-- The instant `time.Unix(sec, nsec)`: a `nsec` outside `[0, 999999999]` is
first carried into `sec`. -/
def Unix (sec nsec : Int) : Time :=
  if nsec < 0 ∨ 1000000000 ≤ nsec then
    let n := quo nsec 1000000000
    let sec1 := wrap64 (sec + n)
    let nsec1 := nsec - n * 1000000000
    if nsec1 < 0 then unixTime (wrap64 (sec1 - 1)) (nsec1 + 1000000000)
    else unixTime sec1 nsec1
  else unixTime sec nsec

/-- The seconds after `addSec(d)`: the sum `ext + d` in `int64`, or the largest
or smallest instant when the sum overflows. -/
def addSec (ext d : Int) : Int :=
  let sum := wrap64 (ext + d)
  if decide (ext < sum) = decide (0 < d) then sum
  else if 0 < d then 9223372036854775807
  else -9223372036854775807

/-- The instant `t.Add(d)` for a `time.Duration` `d`, an `int64` count of
nanoseconds: `d` is read in `int64`, so that `t.Add (-d)` is Go's `t.Add(-d)`
also where the negation overflows. -/
def Time.Add (t : Time) (d : Int) : Time :=
  let d64 := wrap64 d
  let dsec := quo d64 1000000000
  let nsec := t.nsec + rem d64 1000000000
  if 1000000000 ≤ nsec then ⟨addSec t.ext (dsec + 1), nsec - 1000000000⟩
  else if nsec < 0 then ⟨addSec t.ext (dsec - 1), nsec + 1000000000⟩
  else ⟨addSec t.ext dsec, nsec⟩

/-- Whether `t` is the zero instant: `t.IsZero()`. -/
def Time.IsZero (t : Time) : Bool := decide (t.ext = 0 ∧ t.nsec = 0)

/-- Whether `t` is before `u`: `t.Before(u)`. -/
def Time.Before (t u : Time) : Bool :=
  decide (t.ext < u.ext ∨ (t.ext = u.ext ∧ t.nsec < u.nsec))

/-- Whether `t` is after `u`: `t.After(u)`. -/
def Time.After (t u : Time) : Bool :=
  decide (u.ext < t.ext ∨ (t.ext = u.ext ∧ u.nsec < t.nsec))

/-- Whether `sec` is a Unix time that `time.Unix` takes to an instant without
wrapping around: `sec` and `sec + unixToInternal` are both values of `int64`. -/
def unixInRange (sec : Int) : Prop :=
  -9223372036854775808 ≤ sec ∧ sec ≤ 9223371974719179007

instance (sec : Int) : Decidable (unixInRange sec) :=
  inferInstanceAs (Decidable (-9223372036854775808 ≤ sec ∧ sec ≤ 9223371974719179007))

/-- Digits of `n`, zero padded on the left to `width`. -/
def padLeft (width : Nat) (n : Nat) : String :=
  let s := toString n
  String.mk (List.replicate (width - s.length) '0') ++ s

/-- The civil date `(year, month, day)` of a day number counted from 1970-01-01
in the proleptic Gregorian calendar. -/
def civil (days : Int) : Int × Int × Int :=
  let z := days + 719468
  let era := z / 146097
  let doe := z % 146097
  let yoe := (doe - doe / 1460 + doe / 36524 - doe / 146096) / 365
  let doy := doe - (365 * yoe + yoe / 4 - yoe / 100)
  let mp := (5 * doy + 2) / 153
  let d := doy - (153 * mp + 2) / 5 + 1
  let m := if mp < 10 then mp + 3 else mp - 9
  (if m ≤ 2 then yoe + era * 400 + 1 else yoe + era * 400, m, d)

/-- The text of `t.UTC().Format("2006-01-02 15:04:05")`. The date and the
clock are read from the absolute time, the `uint64` count of seconds since
January 1 of the year -292277022399, which wraps around for instants before
that year. -/
def Time.FormatUTC (t : Time) : String :=
  let abs := (t.ext + 9223371966579724800) % 18446744073709551616
  let ymd := civil (abs / 86400 - 106751991073094)
  let r := (abs % 86400).toNat
  (if ymd.1 < 0 then "-" else "") ++ padLeft 4 ymd.1.natAbs ++ "-" ++
    padLeft 2 ymd.2.1.toNat ++ "-" ++ padLeft 2 ymd.2.2.toNat ++ " " ++
    padLeft 2 (r / 3600) ++ ":" ++ padLeft 2 (r % 3600 / 60) ++ ":" ++ padLeft 2 (r % 60)

end time

/-! ## Data model (`analyze/struct.go`) -/

namespace analyze

/-- A Go `interface{}` field of the decoded JSON, kept as its JSON text. The
program never inspects these fields. -/
abbrev AnyJson := String

/-- The JSON value held by a `json.RawMessage` field, by kind. `absent` is the
nil message of a missing field; `string s` is a JSON string literal whose
decoded value is `s`; the other kinds keep their JSON text. -/
inductive RawMessage where
  | absent
  | null
  | string (s : String)
  | number (text : String)
  | bool (b : Bool)
  | array (text : String)
  | object (text : String)
deriving DecidableEq, Repr

structure Token (F : Type) where
  TokenAddress : String
  Name : String
  Symbol : String
  ImageURI : String
  Amount : F
  AmountRaw : Int
deriving DecidableEq, Repr

structure TokensSwapped (F : Type) where
  In : Token F
  Out : Token F
deriving DecidableEq, Repr

structure Swap (F : Type) where
  LiquidityPoolAddress : String
  Name : String
  Source : String
  In : Token F
  Out : Token F
deriving DecidableEq, Repr

structure Protocol where
  Address : String
  Name : String
deriving DecidableEq, Repr

structure ActionInfo (F : Type) where
  Sender : String
  Receiver : String
  Amount : F
  AmountRaw : F
  Message : String
  Swapper : String
  TokensSwapped : TokensSwapped F
  Swaps : List (Swap F)
deriving DecidableEq, Repr

structure Action (F : Type) where
  Info : ActionInfo F
  SourceProtocol : Protocol
  Type_ : String
  IxIndex : Int
deriving DecidableEq, Repr

structure Event where
deriving DecidableEq, Repr

structure MetaStatus where
  Ok : AnyJson
deriving DecidableEq, Repr

structure Meta (F : Type) where
  ComputeUnitsConsumed : Int
  Err : AnyJson
  Fee : F
  InnerInstructions : List AnyJson
  LogMessages : List String
  PostBalances : List Int
  PostTokenBalances : List AnyJson
  PreBalances : List Int
  PreTokenBalances : List AnyJson
  Rewards : List AnyJson
  Status : MetaStatus
deriving DecidableEq, Repr

structure AccountKey where
  Pubkey : String
  Signer : Bool
  Source : String
  Writable : Bool
deriving DecidableEq, Repr

structure Instruction where
  Parsed : RawMessage
  Program : String
  ProgramId : String
  StackHeight : AnyJson
deriving DecidableEq, Repr

structure RawMessageBody where
  AccountKeys : List AccountKey
  AddressTableLookups : List AnyJson
  Instructions : List Instruction
  RecentBlockhash : String
deriving DecidableEq, Repr

structure RawTransaction where
  Message : RawMessageBody
  Signatures : List String
deriving DecidableEq, Repr

structure RawData (F : Type) where
  BlockTime : Int
  Meta : Meta F
  Slot : Int
  Transaction : RawTransaction
  Version : AnyJson
deriving DecidableEq, Repr

structure ParsedTranction (F : Type) where
  BlocktimeUTC : String
  Status : String
  SlotStr : String
  FeeStr : String
  ComputeUnit : String
  TokenIn : Token F
  TokenOut : Token F
  Memo : String
  Signature : String
deriving DecidableEq, Repr

structure Transaction (F : Type) where
  Timestamp : String
  Fee : F
  FeePayer : String
  Signers : List String
  Signatures : List String
  Protocol : Protocol
  Type_ : String
  Status : String
  Actions : List (Action F)
  Events : List Event
  Raw : RawData F
  ParsedTranction : ParsedTranction F
deriving DecidableEq, Repr

structure Response (F : Type) where
  Success : Bool
  Message : String
  Result : List (Transaction F)
deriving DecidableEq, Repr

/-- The zero value `Token{}`. -/
def Token.empty (F : Type) [Zero F] : Token F := ⟨"", "", "", "", 0, 0⟩

/-! ## Normalizer (`ParseTransaction`) -/

/-- The call `json.Unmarshal(raw, &parsedString)` into an empty Go string: the decoded
string when there is no error (JSON `null` leaves the string empty), the error
otherwise. -/
def unmarshalString : RawMessage → Except String String
  | .absent => .error "unexpected end of JSON input"
  | .null => .ok ""
  | .string s => .ok s
  | .number _ => .error "json: cannot unmarshal number into Go value of type string"
  | .bool _ => .error "json: cannot unmarshal bool into Go value of type string"
  | .array _ => .error "json: cannot unmarshal array into Go value of type string"
  | .object _ => .error "json: cannot unmarshal object into Go value of type string"

/-- The memo loop of `ParseTransaction`: `memo` is overwritten by the first
instruction whose `parsed` unmarshals without error into a non-empty string, and
the loop breaks there. -/
def memoLoop : List Instruction → String → String
  | [], memo => memo
  | instruction :: rest, memo =>
    match unmarshalString instruction.Parsed with
    | .ok parsedString => if parsedString ≠ "" then parsedString else memoLoop rest memo
    | .error _ => memoLoop rest memo

/-- The normalizer `ParseTransaction`. -/
def ParseTransaction {F : Type} [Zero F] [Float64Format F] (tx : Transaction F) :
    Transaction F :=
  let blockTime := tx.Raw.BlockTime
  let blocktimeUTC := (time.Unix blockTime 0).FormatUTC
  let signature := match tx.Signatures with
    | [] => "N/A"
    | s :: _ => s
  let slot := tx.Raw.Slot
  let status := tx.Status
  let computeUnit := toString tx.Raw.Meta.ComputeUnitsConsumed
  let fee := tx.Raw.Meta.Fee
  let tokens : Token F × Token F := match tx.Actions with
    | [] => (Token.empty F, Token.empty F)
    | action :: _ => (action.Info.TokensSwapped.In, action.Info.TokensSwapped.Out)
  let memo := memoLoop tx.Raw.Transaction.Message.Instructions "N/A"
  let slotStr := toString slot
  let feeStr := Float64Format.sprintf2 fee
  { tx with
    ParsedTranction :=
      { tx.ParsedTranction with
        BlocktimeUTC := blocktimeUTC
        SlotStr := slotStr
        Status := status
        FeeStr := feeStr
        ComputeUnit := computeUnit
        TokenIn := tokens.1
        TokenOut := tokens.2
        Memo := memo
        Signature := signature } }

/-! ## Transport and pager (`getLatestTransactionSignature`, `FetchAndParseTransactions`) -/

/-- How a Go call ends: with a value and a nil error, with a non-nil error, or
in a run-time panic. -/
inductive Outcome (α : Type) where
  | ok (value : α)
  | error (msg : String)
  | panic (msg : String)
deriving DecidableEq, Repr

/-- What decoding the body of an HTTP response as JSON into a `Response` gives. -/
inductive Decoded (F : Type) where
  | invalid (err : String)
  | value (data : Response F)
deriving DecidableEq, Repr

/-- What sending a request gives: an error of `http.NewRequest` or `client.Do`,
or a response with its status code and the decoding of its body. -/
inductive HttpResult (F : Type) where
  | failed (err : String)
  | response (StatusCode : Int) (Body : Decoded F)
deriving DecidableEq, Repr

/-- A request to the history endpoint: the query parameters that vary. -/
structure Request where
  apiURL : String
  network : String
  account : String
  tx_num : Nat
  before_tx_signature : Option String
deriving DecidableEq, Repr

/-- The transport: the answer to the `n`-th call of a run (counted from 0) as a
function of the request sent. -/
abbrev Transport (F : Type) := Nat → Request → HttpResult F

/-- A finished run of the fetch: what the Go function returns, and the
transport calls it made, in order, each with the answer it received. -/
structure Run (F : Type) where
  result : Outcome (List (Transaction F))
  calls : List (Request × HttpResult F)
deriving DecidableEq, Repr

/-- The anchor call `getLatestTransactionSignature`: signature and block time
of the latest transaction, with the one transport call made. -/
def getLatestTransactionSignature {F : Type} (transport : Transport F)
    (apiURL network account : String) :
    Outcome (String × Int) × List (Request × HttpResult F) :=
  let req : Request := ⟨apiURL, network, account, 1, none⟩
  let answer := transport 0 req
  let out : Outcome (String × Int) :=
    match answer with
    | .failed err => .error err
    | .response StatusCode Body =>
      if StatusCode ≠ 200 then .error ("error in API request: " ++ toString StatusCode)
      else match Body with
        | .invalid err => .error ("error decoding JSON: " ++ err)
        | .value data =>
          if !data.Success then .error ("failed to fetch transactions: " ++ data.Message)
          else match data.Result with
            | first :: _ =>
              match first.Signatures with
              | signature :: _ => .ok (signature, first.Raw.BlockTime)
              | [] => .panic "index out of range [0] with length 0"
            | [] => .error "failed to fetch the latest transaction"
  (out, [(req, answer)])

/-- The `for _, tx := range batch` loop of the pager: returns `continueFetching`
and the accumulated transactions. -/
def processBatch {F : Type} [Zero F] [Float64Format F] (startTime endTime : time.Time) :
    List (Transaction F) → List (Transaction F) → Bool × List (Transaction F)
  | [], transactions => (true, transactions)
  | tx :: rest, transactions =>
    let txTime := time.Unix tx.Raw.BlockTime 0
    if !startTime.IsZero && txTime.Before startTime then (false, transactions)
    else if txTime.After endTime then processBatch startTime endTime rest transactions
    else processBatch startTime endTime rest (transactions ++ [ParseTransaction tx])

/-- The `for continueFetching` loop of `FetchAndParseTransactions`, run for at
most `fuel` iterations (`none`: still fetching when the fuel ran out). The state
is `apiCalls`, `beforeTxSignature`, the accumulated `transactions` and the
transcript; a finished loop yields the accumulated transactions, not yet
reversed. -/
def pagerLoop {F : Type} [Zero F] [Float64Format F] (transport : Transport F)
    (apiURL network account : String) (startTime endTime : time.Time) :
    Nat → Nat → String → List (Transaction F) → List (Request × HttpResult F) →
      Option (Run F)
  | 0, _, _, _, _ => none
  | fuel + 1, apiCalls, beforeTxSignature, transactions, calls =>
    let apiCalls := apiCalls + 1
    let req : Request := ⟨apiURL, network, account, 100, some beforeTxSignature⟩
    let answer := transport apiCalls req
    let calls := calls ++ [(req, answer)]
    match answer with
    | .failed err => some ⟨.error err, calls⟩
    | .response StatusCode Body =>
      if StatusCode ≠ 200 then
        some ⟨.error ("error in API request: " ++ toString StatusCode), calls⟩
      else match Body with
        | .invalid err => some ⟨.error ("error decoding JSON: " ++ err), calls⟩
        | .value data =>
          let batch := data.Result
          if batch.length = 0 then some ⟨.ok transactions, calls⟩
          else
            let scanned := processBatch startTime endTime batch transactions
            if scanned.1 && decide (batch.length > 0) then
              match (batch.getLast?.map (fun tx => tx.Signatures)).getD [] with
              | signature :: _ =>
                pagerLoop transport apiURL network account startTime endTime
                  fuel apiCalls signature scanned.2 calls
              | [] => some ⟨.panic "index out of range [0] with length 0", calls⟩
            else some ⟨.ok scanned.2, calls⟩

/-- The fetch `FetchAndParseTransactions`, with `timeDelta` in nanoseconds and
at most `fuel` iterations of the pager loop. -/
def FetchAndParseTransactions {F : Type} [Zero F] [Float64Format F] (fuel : Nat)
    (transport : Transport F) (apiURL network account : String) (timeDelta : Int) :
    Option (Run F) :=
  match getLatestTransactionSignature transport apiURL network account with
  | (.error err, calls) => some ⟨.error err, calls⟩
  | (.panic msg, calls) => some ⟨.panic msg, calls⟩
  | (.ok (signature, blockTime), calls) =>
    let endTime := time.Unix blockTime 0
    let startTime := if timeDelta = 0 then time.Time.zero else endTime.Add (-timeDelta)
    match pagerLoop transport apiURL network account startTime endTime
        fuel 0 signature [] calls with
    | none => none
    | some run =>
      match run.result with
      | .ok transactions => some ⟨.ok transactions.reverse, run.calls⟩
      | .error err => some ⟨.error err, run.calls⟩
      | .panic msg => some ⟨.panic msg, run.calls⟩

/-! ## Concrete inputs -/

/-- An envelope with the given signatures, block time and status, and every
other field at its Go zero value. -/
def envelope {F : Type} [Zero F] (signatures : List String) (blockTime : Int)
    (status : String) : Transaction F :=
  { Timestamp := "", Fee := 0, FeePayer := "", Signers := [], Signatures := signatures,
    Protocol := ⟨"", ""⟩, Type_ := "", Status := status, Actions := [], Events := [],
    Raw :=
      { BlockTime := blockTime,
        Meta :=
          { ComputeUnitsConsumed := 0, Err := "", Fee := 0, InnerInstructions := [],
            LogMessages := [], PostBalances := [], PostTokenBalances := [],
            PreBalances := [], PreTokenBalances := [], Rewards := [], Status := ⟨""⟩ },
        Slot := 0,
        Transaction := { Message := ⟨[], [], [], ""⟩, Signatures := [] },
        Version := "" },
    ParsedTranction := ⟨"", "", "", "", "", Token.empty F, Token.empty F, "", ""⟩ }

/-- A successful answer carrying the batch `result`. -/
def batchAnswer (result : List (Transaction Float64)) : HttpResult Float64 :=
  .response 200 (.value ⟨true, "", result⟩)

/-- A transport that answers the `n`-th call with the `n`-th entry of a script,
whatever the request, and with an empty batch once the script is over. -/
def scripted (script : List (HttpResult Float64)) : Transport Float64 :=
  fun n _ => script.getD n (batchAnswer [])

/-- The block times of the transactions a run returned, if it returned any. -/
def returnedBlockTimes {F : Type} : Option (Run F) → Option (List Int)
  | some ⟨.ok transactions, _⟩ => some (transactions.map (fun tx => tx.Raw.BlockTime))
  | _ => none

/-! ## Reading a run -/

/-- The batch an answer carries: `data.Result` of a decoded body, nothing
otherwise. -/
def batchOf {F : Type} : HttpResult F → List (Transaction F)
  | .response _ (.value data) => data.Result
  | _ => []

/-- The batches the pager received in a run: those of all calls after the
anchor call, in order. -/
def fetchedBatches {F : Type} (run : Run F) : List (List (Transaction F)) :=
  run.calls.tail.map (fun call => batchOf call.2)

/-- What one pass of the batch loop appends: the normalized transactions of the
batch up to the first one older than a non-zero `startTime`, without those
newer than `endTime`. -/
def retained {F : Type} [Zero F] [Float64Format F] (startTime endTime : time.Time)
    (batch : List (Transaction F)) : List (Transaction F) :=
  ((batch.takeWhile
      (fun tx => !(!startTime.IsZero && (time.Unix tx.Raw.BlockTime 0).Before startTime))).filter
      (fun tx => !(time.Unix tx.Raw.BlockTime 0).After endTime)).map ParseTransaction

/-- Scenario S2: the anchor is at block time 1000 and the paged batch holds
transactions at block times 1000, 900, 600, 499 and 300. -/
def scenarioS2 : Transport Float64 :=
  scripted
    [batchAnswer [envelope ["s1000"] 1000 "Success"],
     batchAnswer
      [envelope ["s1000"] 1000 "Success", envelope ["s900"] 900 "Success",
       envelope ["s600"] 600 "Success", envelope ["s499"] 499 "Success",
       envelope ["s300"] 300 "Success"]]

/-- An anchor one second after the zero instant (block time `-62135596799`),
and one paged batch with a transaction 100 seconds before the zero instant. -/
def yearOneTransport : Transport Float64 :=
  scripted
    [batchAnswer [envelope ["anchor"] (-62135596799) "Success"],
     batchAnswer [envelope ["older"] (-62135596900) "Success"]]

/-- An anchor at block time 1000 and one paged batch with a single transaction
at block time 500. -/
def boundaryTransport : Transport Float64 :=
  scripted
    [batchAnswer [envelope ["s1000"] 1000 "Success"],
     batchAnswer [envelope ["s500"] 500 "Success"]]

/-- A failed envelope `\x7bsuccess: false, message: "rate limited"\x7d`. -/
def rateLimited : HttpResult Float64 :=
  .response 200 (.value ⟨false, "rate limited", []⟩)

/-- An anchor at block time 1000, a first paged batch with one transaction at
block time 900, and a failed envelope as the answer to the second paged call. -/
def midFailureTransport : Transport Float64 :=
  scripted
    [batchAnswer [envelope ["s1000"] 1000 "Success"],
     batchAnswer [envelope ["s900"] 900 "Success"],
     rateLimited]

/-- A successful anchor answer with an empty result list, then a batch that
would be served to a paged call. -/
def emptyAnchorTransport : Transport Float64 :=
  scripted [batchAnswer [], batchAnswer [envelope ["s900"] 900 "Success"]]

/-- An instruction with the given `parsed` field. -/
def instructionWith (parsed : RawMessage) : Instruction :=
  ⟨parsed, "", "", ""⟩

/-- Scenario S5: an envelope whose instructions have the parsed values
`\x7b"type":"transfer"\x7d` and `"trade-tag"`. -/
def scenarioS5 : Transaction Float64 :=
  let tx := envelope ["s5"] 100 "Success"
  { tx with
    Raw :=
      { tx.Raw with
        Transaction :=
          { tx.Raw.Transaction with
            Message :=
              { tx.Raw.Transaction.Message with
                Instructions :=
                  [instructionWith (.object "\x7b\"type\":\"transfer\"\x7d"),
                   instructionWith (.string "trade-tag")] } } } }

/-! ## Aggregator (`PrintStatistics`) -/

/-- A Go `int` (64 bits) after an arithmetic operation: the value modulo `2^64`,
in the signed range. -/
def wrapInt (x : Int) : Int :=
  (x + 9223372036854775808) % 18446744073709551616 - 9223372036854775808

structure TrackTokenStats (F : Type) where
  TotalBoughtSOL : F
  TotalSoldSOL : F
deriving DecidableEq, Repr

/-- The map `tokenStats`, as the list of its entries (one per key). -/
abbrev TokenStats (F : Type) := List (String × TrackTokenStats F)

/-- The map index `stats, exists := tokenStats[key]`. -/
def ledgerEntry {F : Type} : TokenStats F → String → Option (TrackTokenStats F)
  | [], _ => none
  | (k, stats) :: rest, key => if k = key then some stats else ledgerEntry rest key

/-- The first branch on `tokenStats[key]`: add `amount` to `TotalBoughtSOL` of an
existing entry, or insert `&TrackTokenStats\x7bTotalBoughtSOL: amount\x7d`. -/
def creditBought {F : Type} [Zero F] [Add F] :
    TokenStats F → String → F → TokenStats F
  | [], key, amount => [(key, ⟨amount, 0⟩)]
  | (k, stats) :: rest, key, amount =>
    if k = key then (k, { stats with TotalBoughtSOL := stats.TotalBoughtSOL + amount }) :: rest
    else (k, stats) :: creditBought rest key amount

/-- The second branch on `tokenStats[key]`: add `amount` to `TotalSoldSOL` of an
existing entry, or insert `&TrackTokenStats\x7bTotalSoldSOL: amount\x7d`. -/
def creditSold {F : Type} [Zero F] [Add F] :
    TokenStats F → String → F → TokenStats F
  | [], key, amount => [(key, ⟨0, amount⟩)]
  | (k, stats) :: rest, key, amount =>
    if k = key then (k, { stats with TotalSoldSOL := stats.TotalSoldSOL + amount }) :: rest
    else (k, stats) :: creditSold rest key amount

/-- The variables of `PrintStatistics` after its loop: what it prints. -/
structure Statistics (F : Type) where
  totalTxs : Int
  totalFee : F
  totalComputeUnits : Int
  count : Int
  tokenStats : TokenStats F
deriving DecidableEq, Repr

/-- The two ledger branches of the loop of `PrintStatistics` for one record. -/
def creditLedger {F : Type} [Zero F] [Add F] (tokenStats : TokenStats F) (tx : Transaction F) :
    TokenStats F :=
  let tokenIn := tx.ParsedTranction.TokenIn
  let tokenOut := tx.ParsedTranction.TokenOut
  let tokenStats :=
    if tokenIn.Symbol = "SOL" ∧ tokenOut.Symbol ≠ "SOL" then
      creditBought tokenStats tokenOut.Symbol tokenIn.Amount
    else tokenStats
  if tokenIn.Symbol ≠ "SOL" ∧ tokenOut.Symbol = "SOL" then
    creditSold tokenStats tokenIn.Symbol tokenOut.Amount
  else tokenStats

/-- One iteration of the loop of `PrintStatistics`. -/
def accumulate {F : Type} [Zero F] [Add F] (st : Statistics F) (tx : Transaction F) :
    Statistics F :=
  { st with
    totalFee := st.totalFee + tx.Raw.Meta.Fee
    totalComputeUnits := wrapInt (st.totalComputeUnits + tx.Raw.Meta.ComputeUnitsConsumed)
    count :=
      if tx.ParsedTranction.TokenIn.TokenAddress ≠ "" then wrapInt (st.count + 1) else st.count
    tokenStats := creditLedger st.tokenStats tx }

/-- The aggregation of `PrintStatistics`: the counters and the ledger it prints. -/
def PrintStatistics {F : Type} [Zero F] [Add F] (transactions : List (Transaction F)) :
    Statistics F :=
  transactions.foldl accumulate
    { totalTxs := transactions.length, totalFee := 0, totalComputeUnits := 0, count := 0,
      tokenStats := [] }

/-- The printed `profit := stats.TotalSoldSOL - stats.TotalBoughtSOL`. -/
def profit {F : Type} [Sub F] (stats : TrackTokenStats F) : F :=
  stats.TotalSoldSOL - stats.TotalBoughtSOL

/-- The records that buy `symbol` with SOL: `in.symbol == "SOL"` and
`out.symbol == symbol != "SOL"`. -/
def buysOf {F : Type} (symbol : String) (transactions : List (Transaction F)) :
    List (Transaction F) :=
  transactions.filter (fun tx =>
    decide (tx.ParsedTranction.TokenIn.Symbol = "SOL" ∧ tx.ParsedTranction.TokenOut.Symbol = symbol
      ∧ symbol ≠ "SOL"))

/-- The records that sell `symbol` for SOL: `out.symbol == "SOL"` and
`in.symbol == symbol != "SOL"`. -/
def sellsOf {F : Type} (symbol : String) (transactions : List (Transaction F)) :
    List (Transaction F) :=
  transactions.filter (fun tx =>
    decide (tx.ParsedTranction.TokenOut.Symbol = "SOL" ∧ tx.ParsedTranction.TokenIn.Symbol = symbol
      ∧ symbol ≠ "SOL"))

/-- The sum of a list of amounts, added up from the left starting at 0. -/
def sumInOrder {F : Type} [Zero F] [Add F] (amounts : List F) : F :=
  amounts.foldl (fun total amount => total + amount) 0

/-- Whether a record is a swap with exactly one SOL leg. -/
def oneSolLeg {F : Type} (tx : Transaction F) : Bool :=
  decide ((tx.ParsedTranction.TokenIn.Symbol = "SOL" ∧ tx.ParsedTranction.TokenOut.Symbol ≠ "SOL") ∨
    (tx.ParsedTranction.TokenIn.Symbol ≠ "SOL" ∧ tx.ParsedTranction.TokenOut.Symbol = "SOL"))

/-- A token with the given symbol and amount. -/
def token (symbol : String) (amount : Float64) : Token Float64 :=
  ⟨"", "", symbol, "", amount, 0⟩

/-- An envelope of a swap of `tokenIn` for `tokenOut` with the given fee and
compute units. -/
def swapEnvelope (signature : String) (blockTime : Int) (fee : Float64) (computeUnits : Int)
    (tokenIn tokenOut : Token Float64) : Transaction Float64 :=
  let tx := envelope [signature] blockTime "Success"
  { tx with
    Actions :=
      [{ Info :=
          { Sender := "", Receiver := "", Amount := 0, AmountRaw := 0, Message := "",
            Swapper := "", TokensSwapped := ⟨tokenIn, tokenOut⟩, Swaps := [] },
         SourceProtocol := ⟨"", ""⟩, Type_ := "SWAP", IxIndex := 0 }]
    Raw := { tx.Raw with Meta := { tx.Raw.Meta with Fee := fee, ComputeUnitsConsumed := computeUnits } } }

/-- Scenario S1: SOL 1.0 for FOO 100.0 at t = 100, then FOO 100.0 for SOL 1.5 at
t = 200, normalized. The fees are `2^-11` (0.00048828125) each. -/
def scenarioS1 : List (Transaction Float64) :=
  [ParseTransaction (swapEnvelope "s1" 100 (.finite 1 (-11)) 1000
      (token "SOL" (.finite 1 0)) (token "FOO" (.finite 25 2))),
   ParseTransaction (swapEnvelope "s2" 200 (.finite 1 (-11)) 2000
      (token "FOO" (.finite 25 2)) (token "SOL" (.finite 3 (-1))))]

/-- An envelope with the given fee (`raw.meta.fee`) and no swap. -/
def feeEnvelope (signature : String) (fee : Float64) : Transaction Float64 :=
  swapEnvelope signature 100 fee 0 (Token.empty Float64) (Token.empty Float64)

/-- The float64 nearest to 0.1: `3602879701896397 * 2^-55`. -/
def tenth : Float64 := .finite 3602879701896397 (-55)

/-- The float64 nearest to 0.2: `3602879701896397 * 2^-54`. -/
def fifth : Float64 := .finite 3602879701896397 (-54)

/-- The float64 nearest to 0.3: `5404319552844595 * 2^-54`. -/
def threeTenths : Float64 := .finite 5404319552844595 (-54)

/-- Three records with the fees 0.1, 0.2 and 0.3. -/
def feesAscending : List (Transaction Float64) :=
  [feeEnvelope "f1" tenth, feeEnvelope "f2" fifth, feeEnvelope "f3" threeTenths]

/-- The same three records in the opposite order. -/
def feesDescending : List (Transaction Float64) :=
  [feeEnvelope "f3" threeTenths, feeEnvelope "f2" fifth, feeEnvelope "f1" tenth]

/-- The amount of the SOL leg of a swap with exactly one SOL leg: `in.amount`
when the in-token is SOL, `out.amount` otherwise. -/
def solLegAmount {F : Type} (tx : Transaction F) : F :=
  if tx.ParsedTranction.TokenIn.Symbol = "SOL" then tx.ParsedTranction.TokenIn.Amount
  else tx.ParsedTranction.TokenOut.Amount

/-- Exact additions: on the values that satisfy `P`, which include 0, `value`
reads each value as an integer without confusing two of them, and the sum
`a + b` of two such values whose magnitudes add up to at most `bound` is again
such a value, the one that `value` reads as `value a + value b`. For float64
this says that no addition within the bound rounds: `value` is the real value
in a fixed unit. -/
structure ExactSums {F : Type} [Zero F] [Add F] (P : F → Prop) (value : F → Int) (bound : Nat) :
    Prop where
  zero : P 0 ∧ value 0 = 0
  add : ∀ a, P a → ∀ b, P b → (value a).natAbs + (value b).natAbs ≤ bound →
    P (a + b) ∧ value (a + b) = value a + value b
  injective : ∀ a, P a → ∀ b, P b → value a = value b → a = b

/-- The sum of what `value` reads in the bought and sold totals of a ledger. -/
def ledgerValue {F : Type} (value : F → Int) (tokenStats : TokenStats F) : Int :=
  (tokenStats.map (fun e => value e.2.TotalBoughtSOL + value e.2.TotalSoldSOL)).sum

/-- The sum of the magnitudes of what `value` reads in the bought and sold
totals of a ledger. -/
def ledgerWeight {F : Type} (value : F → Int) (tokenStats : TokenStats F) : Nat :=
  (tokenStats.map
    (fun e => (value e.2.TotalBoughtSOL).natAbs + (value e.2.TotalSoldSOL).natAbs)).sum

/-- The float64 values 0, 0.5, 1, 1.5, 2, 2.5 and 3. -/
def halves : List Float64 :=
  [.finite 0 0, .finite 1 (-1), .finite 1 0, .finite 3 (-1), .finite 1 1, .finite 5 (-1),
    .finite 3 0]

/-- Three swaps, normalized: SOL 1.0 for FOO 100.0, FOO 100.0 for SOL 1.5 and
SOL 0.5 for FOO 50.0, with the fees 5000, 10000 and 5000 and the compute units
1000, 2000 and 500. -/
def exactSwaps : List (Transaction Float64) :=
  [ParseTransaction (swapEnvelope "e1" 100 (.finite 625 3) 1000
      (token "SOL" (.finite 1 0)) (token "FOO" (.finite 25 2))),
   ParseTransaction (swapEnvelope "e2" 200 (.finite 625 4) 2000
      (token "FOO" (.finite 25 2)) (token "SOL" (.finite 3 (-1)))),
   ParseTransaction (swapEnvelope "e3" 300 (.finite 625 3) 500
      (token "SOL" (.finite 1 (-1))) (token "FOO" (.finite 25 1)))]

/-- The three swaps of `exactSwaps` in the opposite order. -/
def exactSwapsReversed : List (Transaction Float64) :=
  [ParseTransaction (swapEnvelope "e3" 300 (.finite 625 3) 500
      (token "SOL" (.finite 1 (-1))) (token "FOO" (.finite 25 1))),
   ParseTransaction (swapEnvelope "e2" 200 (.finite 625 4) 2000
      (token "FOO" (.finite 25 2)) (token "SOL" (.finite 3 (-1)))),
   ParseTransaction (swapEnvelope "e1" 100 (.finite 625 3) 1000
      (token "SOL" (.finite 1 0)) (token "FOO" (.finite 25 2)))]

/-- Three swaps, normalized: SOL 0.3 for AAA, BBB for SOL 0.2 and SOL 0.1 for
AAA. -/
def roundingSwaps : List (Transaction Float64) :=
  [ParseTransaction (swapEnvelope "r1" 100 0 0
      (token "SOL" threeTenths) (token "AAA" (.finite 1 0))),
   ParseTransaction (swapEnvelope "r2" 200 0 0
      (token "BBB" (.finite 1 0)) (token "SOL" fifth)),
   ParseTransaction (swapEnvelope "r3" 300 0 0
      (token "SOL" tenth) (token "AAA" (.finite 1 0)))]

/-- An anchor answer whose only envelope has an empty signatures list. -/
def unsignedAnchorTransport : Transport Float64 :=
  scripted [batchAnswer [envelope [] 1000 "Success"]]

/-- An anchor at block time 1000, and a paged batch inside the window whose
last envelope has an empty signatures list. -/
def unsignedBatchTransport : Transport Float64 :=
  scripted
    [batchAnswer [envelope ["s1000"] 1000 "Success"],
     batchAnswer [envelope ["s900"] 900 "Success", envelope [] 800 "Success"]]

/-- The envelopes the pager took its later cursors from: the last envelope of
every batch received, except the batch of the final call. -/
def cursorEnvelopes {F : Type} (run : Run F) : List (Transaction F) :=
  run.calls.tail.dropLast.filterMap (fun call => (batchOf call.2).getLast?)

/-- The cursor values of the paged calls of a run, in order. -/
def cursorsUsed {F : Type} (run : Run F) : List (Option String) :=
  run.calls.tail.map (fun call => call.1.before_tx_signature)

/-- An anchor at block time 1000 and a server that answers two successive paged
calls with the same one-envelope batch. -/
def repeatingTransport : Transport Float64 :=
  scripted
    [batchAnswer [envelope ["s1000"] 1000 "Success"],
     batchAnswer [envelope ["s900"] 900 "Success"],
     batchAnswer [envelope ["s900"] 900 "Success"]]

/-- An anchor at block time 1000 and two batches whose last envelopes, with
different signatures, are in the same second. -/
def sameSecondTransport : Transport Float64 :=
  scripted
    [batchAnswer [envelope ["s1000"] 1000 "Success"],
     batchAnswer [envelope ["a"] 950 "Success", envelope ["b"] 900 "Success"],
     batchAnswer [envelope ["c"] 900 "Success", envelope ["d"] 900 "Success"]]

/-- An anchor at block time 1000 and a paged batch holding one transaction at
block time 1001. -/
def newerTransport : Transport Float64 :=
  scripted
    [batchAnswer [envelope ["s1000"] 1000 "Success"],
     batchAnswer [envelope ["s1001"] 1001 "Success"]]

/-- An anchor at block time `-9223372036854775708`, 100 seconds after the
smallest `int64`, and one paged batch with a single transaction at the largest
`int64` block time, `9223372036854775807`. -/
def wrappedBatchTransport : Transport Float64 :=
  scripted
    [batchAnswer [envelope ["anchor"] (-9223372036854775708) "Success"],
     batchAnswer [envelope ["newest"] 9223372036854775807 "Success"]]

/-- An anchor at block time 1000 and one paged batch with a single transaction
at the largest `int64` block time, `9223372036854775807`. -/
def wrappedNewerTransport : Transport Float64 :=
  scripted
    [batchAnswer [envelope ["s1000"] 1000 "Success"],
     batchAnswer [envelope ["newest"] 9223372036854775807 "Success"]]

/-- An anchor at the largest `int64` block time, `9223372036854775807`, and one
paged batch with a single transaction at block time 1000. -/
def wrappedAnchorTransport : Transport Float64 :=
  scripted
    [batchAnswer [envelope ["anchor"] 9223372036854775807 "Success"],
     batchAnswer [envelope ["s1000"] 1000 "Success"]]

/-- An anchor at block time `9223371974719179008`, the smallest whose instant
wraps around, and one paged batch with a single transaction one second before
it. -/
def wrappedEndTransport : Transport Float64 :=
  scripted
    [batchAnswer [envelope ["anchor"] 9223371974719179008 "Success"],
     batchAnswer [envelope ["older"] 9223371974719179007 "Success"]]

/-- A batch of 100 envelopes at the block times `newest`, `newest - 1`, ...,
`newest - 99`, newest first. -/
def batchOfHundred (newest : Int) : List (Transaction Float64) :=
  (List.range 100).map
    (fun i : Nat => envelope ["s" ++ toString (newest - (i : Int))] (newest - (i : Int)) "Success")

/-- Scenario S6: an anchor at block time 1000, then three batches of 100
envelopes each, then empty batches. -/
def scenarioS6 : Transport Float64 :=
  scripted
    [batchAnswer [envelope ["s1000"] 1000 "Success"],
     batchAnswer (batchOfHundred 999), batchAnswer (batchOfHundred 899),
     batchAnswer (batchOfHundred 799)]

/-! ## Memo-type breakdown (`AnalyzeMemoType`, `GenerateStats`) -/

/-- White space in the sense of `unicode.IsSpace`. -/
def isSpace (c : Char) : Bool :=
  decide (c.toNat ∈ [9, 10, 11, 12, 13, 32, 0x85, 0xA0, 0x1680, 0x2028, 0x2029, 0x202F, 0x205F,
    0x3000]) || (decide (0x2000 ≤ c.toNat) && decide (c.toNat ≤ 0x200A))

/-- The string without its leading and trailing white space: `strings.TrimSpace(s)`. -/
def TrimSpace (s : String) : String :=
  ⟨((s.data.dropWhile isSpace).reverse.dropWhile isSpace).reverse⟩

/-- Whether `sub` occurs in `s` as a block of consecutive characters. -/
def hasInfix : List Char → List Char → Bool
  | [], sub => sub.isEmpty
  | c :: cs, sub => sub.isPrefixOf (c :: cs) || hasInfix cs sub

/-- Whether `substr` is within `s`: `strings.Contains(s, substr)`. -/
def Contains (s substr : String) : Bool :=
  hasInfix s.data substr.data

/-- The counters `total`, `success` and `fail` of `AnalyzeMemoType`. A slice has
fewer than `2^63` elements, so the increments do not overflow. -/
structure MemoCounts where
  total : Int
  success : Int
  fail : Int
deriving DecidableEq, Repr

/-- The block `total++; if record.Status == "Success" ... else if ... "Fail" ...`
that each of the three branches of the loop of `AnalyzeMemoType` runs. -/
def tally (status : String) (counts : MemoCounts) : MemoCounts :=
  { total := counts.total + 1
    success := if status = "Success" then counts.success + 1 else counts.success
    fail :=
      if status = "Success" then counts.fail
      else if status = "Fail" then counts.fail + 1
      else counts.fail }

/-- One iteration of the loop of `AnalyzeMemoType`. -/
def countRecord {F : Type} (memoType : String) (counts : MemoCounts) (record : Transaction F) :
    MemoCounts :=
  let memo := TrimSpace record.ParsedTranction.Memo
  if memoType = "TOTAL" then tally record.Status counts
  else if memoType = "N/A" then
    if memo = "" ∨ memo = "N/A" then tally record.Status counts else counts
  else if memo = memoType then tally record.Status counts
  else counts

/-- The counters of `AnalyzeMemoType` after its loop. -/
def countMemoType {F : Type} (records : List (Transaction F)) (memoType : String) : MemoCounts :=
  records.foldl (countRecord memoType) ⟨0, 0, 0⟩

/-- The text of `fmt.Sprintf("%.2f%%", rate)` for the rate of `count` in `total`:
`float64(count) / float64(total) * 100` when `total > 0`, and 0.0 otherwise. -/
def formatRate (count total : Int) : String :=
  let rate : Float64 :=
    if total > 0 then Float64.mul (Float64.div (Float64.ofInt count) (Float64.ofInt total))
      (Float64.ofInt 100)
    else 0
  Float64.sprintf2 rate ++ "%"

/-- The display name of a memo type in `AnalyzeMemoType`. -/
def displayName (memoType : String) : String :=
  if memoType ≠ "TOTAL" ∧ memoType ≠ "N/A" ∧ !Contains memoType "RPC" then memoType ++ " (jito)"
  else memoType

/-- The row `AnalyzeMemoType` computes for a memo type. -/
def AnalyzeMemoType {F : Type} (records : List (Transaction F)) (memoType : String) :
    List String :=
  let counts := countMemoType records memoType
  [displayName memoType, toString counts.total, toString counts.success, toString counts.fail,
    formatRate counts.success counts.total, formatRate counts.fail counts.total]

/-- Lexicographic order on character sequences by code point. -/
def ltChars : List Char → List Char → Bool
  | _, [] => false
  | [], _ :: _ => true
  | a :: as, b :: bs => decide (a.toNat < b.toNat) || (decide (a = b) && ltChars as bs)

/-- The Go comparison `a < b` of two strings: lexicographic by bytes, which for
UTF-8 text is lexicographic by code points. -/
def stringLess (a b : String) : Bool :=
  ltChars a.data b.data

/-- The comparison function given to `sort.Slice` in `GenerateStats`, on the
display names `a` and `b` of two rows. -/
def less (a b : String) : Bool :=
  if Contains a "jito" && !Contains b "jito" then false
  else if !Contains a "jito" && Contains b "jito" then true
  else stringLess a b

/-- The keys of `memoSet`, sorted by `sort.Strings`: the distinct trimmed memos
other than "" and "N/A", in ascending order. -/
def memoTypesOf {F : Type} (records : List (Transaction F)) : List String :=
  (((records.map (fun record => TrimSpace record.ParsedTranction.Memo)).filter
    (fun memo => decide (memo ≠ "" ∧ memo ≠ "N/A"))).dedup).insertionSort
    (fun a b => stringLess b a = false)

/-- The table `GenerateStats` computes: the TOTAL row, the N/A row, and the rows
of the memo types sorted by `less` on their display names. Distinct memo types
have distinct display names and `less` is a strict total order on display
names, so the sorted order does not depend on the sorting algorithm; it is
computed here by insertion. -/
def GenerateStats {F : Type} (records : List (Transaction F)) : List (List String) :=
  let results :=
    [AnalyzeMemoType records "TOTAL", AnalyzeMemoType records "N/A"] ++
      (memoTypesOf records).map (AnalyzeMemoType records)
  results.take 2 ++
    (results.drop 2).insertionSort (fun x y => less (y.headD "") (x.headD "") = false)

/-- The membership test of the loop of `AnalyzeMemoType`: whether a record is in
the bucket of a memo type. -/
def inBucket {F : Type} (memoType : String) (record : Transaction F) : Bool :=
  decide (memoType = "TOTAL" ∨
    (memoType = "N/A" ∧
      (TrimSpace record.ParsedTranction.Memo = "" ∨ TrimSpace record.ParsedTranction.Memo = "N/A")) ∨
    (memoType ≠ "TOTAL" ∧ memoType ≠ "N/A" ∧ TrimSpace record.ParsedTranction.Memo = memoType))

/-- A parsed record with the given memo and status. -/
def memoRecord (memo status : String) : Transaction Float64 :=
  let tx : Transaction Float64 := envelope ["sig"] 100 status
  { tx with ParsedTranction := { tx.ParsedTranction with Memo := memo, Status := status } }

/-- Two records: a memo with "RPC" that also has "jito" in it, and a memo
without "RPC". -/
def jitoNamedRecords : List (Transaction Float64) :=
  [memoRecord "jito RPC" "Success", memoRecord "alpha" "Fail"]

/-- Two records, one of them with the memo "TOTAL". -/
def totalNamedRecords : List (Transaction Float64) :=
  [memoRecord "TOTAL" "Success", memoRecord "x" "Fail"]

/-- Records with the memos " RPC-1 ", "bundle", "", "N/A", "RPC-1" and the
statuses Success, Fail, Success, Pending, Fail. -/
def mixedRecords : List (Transaction Float64) :=
  [memoRecord " RPC-1 " "Success", memoRecord "bundle" "Fail", memoRecord "" "Success",
   memoRecord "N/A" "Pending", memoRecord "RPC-1" "Fail"]

/-! ## Lemmas on the batch loop and the pager loop -/

theorem ParseTransaction_Raw {F : Type} [Zero F] [Float64Format F] (tx : Transaction F) :
    (ParseTransaction tx).Raw = tx.Raw := rfl

theorem processBatch_snd {F : Type} [Zero F] [Float64Format F] (startTime endTime : time.Time)
    (batch acc : List (Transaction F)) :
    (processBatch startTime endTime batch acc).2 = acc ++ retained startTime endTime batch := by
  induction batch generalizing acc with
  | nil => simp [processBatch, retained]
  | cons tx rest ih =>
    unfold processBatch
    by_cases h1 : (!startTime.IsZero && (time.Unix tx.Raw.BlockTime 0).Before startTime) = true
    · simp [h1, retained, List.takeWhile]
    · by_cases h2 : (time.Unix tx.Raw.BlockTime 0).After endTime = true
      · rw [if_neg h1, if_pos h2, ih]
        simp [retained, List.takeWhile, h1, h2, List.filter]
      · rw [if_neg h1, if_neg h2, ih]
        simp [retained, List.takeWhile, h1, h2, List.filter]

theorem pagerLoop_ok {F : Type} [Zero F] [Float64Format F] (transport : Transport F)
    (apiURL network account : String) (startTime endTime : time.Time) :
    ∀ (fuel apiCalls : Nat) (signature : String) (acc : List (Transaction F))
      (calls : List (Request × HttpResult F)) (run : Run F) (transactions : List (Transaction F)),
      pagerLoop transport apiURL network account startTime endTime fuel apiCalls signature acc calls
        = some run →
      run.result = .ok transactions →
      ∃ more : List (Request × HttpResult F), run.calls = calls ++ more ∧
        transactions = acc ++
          (more.map (fun call => retained startTime endTime (batchOf call.2))).flatten := by
  intro fuel
  induction fuel with
  | zero => intro _ _ _ _ _ _ h; simp [pagerLoop] at h
  | succ fuel ih =>
    intro apiCalls signature acc calls run transactions h hok
    unfold pagerLoop at h
    simp only at h
    split at h
    · simp at h; subst h; simp at hok
    · rename_i StatusCode Body hans
      split at h
      · simp at h; subst h; simp at hok
      · split at h
        · simp at h; subst h; simp at hok
        · rename_i data
          split at h
          · rename_i hlen
            simp at h; subst h
            simp at hok; subst hok
            refine ⟨[(_, _)], rfl, ?_⟩
            have : data.Result = [] := List.length_eq_zero.mp hlen
            simp [hans, batchOf, this, retained]
          · split at h
            · split at h
              · obtain ⟨more, hc, ht⟩ := ih _ _ _ _ _ _ h hok
                refine ⟨(_, _) :: more, by simpa using hc, ?_⟩
                rw [ht, processBatch_snd]
                simp [hans, batchOf]
              · simp at h; subst h; simp at hok
            · simp at h; subst h
              simp at hok; subst hok
              refine ⟨[(_, _)], rfl, ?_⟩
              rw [processBatch_snd]
              simp [hans, batchOf]

theorem getLatestTransactionSignature_calls {F : Type} (transport : Transport F)
    (apiURL network account : String) :
    (getLatestTransactionSignature transport apiURL network account).2 =
      [(⟨apiURL, network, account, 1, none⟩, transport 0 ⟨apiURL, network, account, 1, none⟩)] :=
  rfl

theorem FetchAndParseTransactions_ok {F : Type} [Zero F] [Float64Format F] (fuel : Nat)
    (transport : Transport F) (apiURL network account : String) (timeDelta : Int)
    (signature : String) (blockTime : Int) (run : Run F) (transactions : List (Transaction F))
    (hanchor : (getLatestTransactionSignature transport apiURL network account).1
      = .ok (signature, blockTime))
    (hrun : FetchAndParseTransactions fuel transport apiURL network account timeDelta = some run)
    (hok : run.result = .ok transactions) :
    ∃ accumulated : List (Transaction F),
      pagerLoop transport apiURL network account
        (if timeDelta = 0 then time.Time.zero else (time.Unix blockTime 0).Add (-timeDelta))
        (time.Unix blockTime 0) fuel 0 signature []
        (getLatestTransactionSignature transport apiURL network account).2
        = some ⟨.ok accumulated, run.calls⟩ ∧
      transactions = accumulated.reverse ∧
      accumulated = ((fetchedBatches run).map
        (retained (if timeDelta = 0 then time.Time.zero else (time.Unix blockTime 0).Add (-timeDelta))
          (time.Unix blockTime 0))).flatten := by
  unfold FetchAndParseTransactions at hrun
  generalize hg : getLatestTransactionSignature transport apiURL network account = g at hrun hanchor
  obtain ⟨out, calls⟩ := g
  simp only at hanchor
  subst hanchor
  simp only at hrun
  have hcalls : calls = [(⟨apiURL, network, account, 1, none⟩,
      transport 0 ⟨apiURL, network, account, 1, none⟩)] := by
    have := getLatestTransactionSignature_calls transport apiURL network account
    rw [hg] at this
    exact this
  split at hrun
  · simp at hrun
  · rename_i inner hinner
    obtain ⟨res, cs⟩ := inner
    cases res with
    | ok acc =>
      simp only [Option.some.injEq] at hrun
      subst hrun
      simp only [Outcome.ok.injEq] at hok
      obtain ⟨more, hc, ht⟩ := pagerLoop_ok _ _ _ _ _ _ _ _ _ _ _ _ _ hinner rfl
      simp only at hc
      refine ⟨acc, hinner, hok.symm, ?_⟩
      rw [ht]
      simp [fetchedBatches, hc, hcalls, List.map_map, Function.comp_def]
    | error err => simp at hrun; subst hrun; simp at hok
    | panic msg => simp at hrun; subst hrun; simp at hok

/-! ## Lemmas on instants -/

theorem Unix_seconds (sec : Int) :
    time.Unix sec 0 = ⟨time.wrap64 (sec + 62135596800), 0⟩ := by
  simp [time.Unix, time.unixTime, time.unixToInternal]

theorem Unix_inRange (sec : Int) (h : time.unixInRange sec) :
    time.Unix sec 0 = ⟨sec + 62135596800, 0⟩ := by
  rw [Unix_seconds]
  unfold time.unixInRange at h
  unfold time.wrap64
  congr 1
  omega

theorem not_After_anchor (t blockTime : Int) (ht : time.unixInRange t)
    (hanchor : time.int64 blockTime)
    (h : (time.Unix t 0).After (time.Unix blockTime 0) = false) :
    t ≤ blockTime ∧ time.unixInRange blockTime := by
  rw [Unix_inRange t ht, Unix_seconds] at h
  unfold time.unixInRange at ht ⊢
  unfold time.int64 at hanchor
  simp only [time.Time.After, time.wrap64, decide_eq_false_iff_not] at h
  omega

theorem After_inRange (t blockTime : Int) (ht : time.unixInRange t)
    (hanchor : time.unixInRange blockTime) :
    (time.Unix t 0).After (time.Unix blockTime 0) = decide (blockTime < t) := by
  rw [Unix_inRange t ht, Unix_inRange blockTime hanchor]
  simp only [time.Time.After]
  apply decide_eq_decide.mpr
  omega

theorem addSec_exact (ext d : Int) (hlow : -9223372036854775808 ≤ ext + d)
    (hhigh : ext + d ≤ 9223372036854775807) : time.addSec ext d = ext + d := by
  unfold time.addSec time.wrap64
  have hsum : (ext + d + 9223372036854775808) % 18446744073709551616 - 9223372036854775808
      = ext + d := by
    omega
  simp only [hsum]
  by_cases hd : 0 < d
  · have hlt : ext < ext + d := by omega
    simp [hd, hlt]
  · have hlt : ¬ ext < ext + d := by omega
    simp [hd, hlt]

theorem start_instant (blockTime timeDelta : Int) (hanchor : time.unixInRange blockTime)
    (hdelta : 0 < timeDelta) (hint : timeDelta ≤ 9223372036854775807) :
    0 ≤ ((time.Unix blockTime 0).Add (-timeDelta)).nsec ∧
      ((time.Unix blockTime 0).Add (-timeDelta)).nsec < 1000000000 ∧
      ((time.Unix blockTime 0).Add (-timeDelta)).ext * 1000000000
          + ((time.Unix blockTime 0).Add (-timeDelta)).nsec
        = (blockTime + 62135596800) * 1000000000 - timeDelta := by
  rw [Unix_inRange blockTime hanchor]
  unfold time.unixInRange at hanchor
  have hw : time.wrap64 (-timeDelta) = -timeDelta := by
    unfold time.wrap64
    omega
  simp only [time.Time.Add, hw, time.quo, time.rem]
  have hneg : ¬ (0 ≤ -timeDelta) := by omega
  simp only [if_neg hneg, neg_neg, zero_add]
  have hq := Int.emod_add_ediv timeDelta 1000000000
  have hr0 := Int.emod_nonneg timeDelta (by decide : (1000000000 : Int) ≠ 0)
  have hr1 := Int.emod_lt_of_pos timeDelta (by decide : (0 : Int) < 1000000000)
  generalize timeDelta % 1000000000 = r at *
  generalize timeDelta / 1000000000 = q at *
  have hnot : ¬ (1000000000 ≤ -r) := by omega
  simp only [if_neg hnot]
  by_cases hr : -r < 0
  · simp only [if_pos hr]
    rw [addSec_exact _ _ (by omega) (by omega)]
    omega
  · simp only [if_neg hr]
    rw [addSec_exact _ _ (by omega) (by omega)]
    omega

theorem Before_start (t blockTime timeDelta : Int) (ht : time.unixInRange t)
    (hanchor : time.unixInRange blockTime)
    (hdelta : 0 < timeDelta) (hint : timeDelta ≤ 9223372036854775807) :
    (time.Unix t 0).Before ((time.Unix blockTime 0).Add (-timeDelta))
      = decide (t * 1000000000 < blockTime * 1000000000 - timeDelta) := by
  obtain ⟨h0, h1, h2⟩ := start_instant blockTime timeDelta hanchor hdelta hint
  rw [Unix_inRange t ht]
  generalize (time.Unix blockTime 0).Add (-timeDelta) = s at *
  simp only [time.Time.Before]
  apply decide_eq_decide.mpr
  omega

/-! ## Lemmas on what a batch retains -/

theorem mem_retained {F : Type} [Zero F] [Float64Format F] (startTime endTime : time.Time)
    (batch : List (Transaction F)) (tx : Transaction F) (h : tx ∈ retained startTime endTime batch) :
    ∃ t ∈ batch, tx = ParseTransaction t ∧
      (startTime.IsZero = true ∨ (time.Unix t.Raw.BlockTime 0).Before startTime = false) ∧
      (time.Unix t.Raw.BlockTime 0).After endTime = false := by
  unfold retained at h
  obtain ⟨t, ht, rfl⟩ := List.mem_map.mp h
  obtain ⟨ht1, ht2⟩ := List.mem_filter.mp ht
  have h3 := List.mem_takeWhile_imp ht1
  refine ⟨t, (List.takeWhile_sublist _).subset ht1, rfl, ?_, ?_⟩
  · cases hz : startTime.IsZero
    · cases hb : (time.Unix t.Raw.BlockTime 0).Before startTime
      · exact Or.inr rfl
      · simp [hz, hb] at h3
    · exact Or.inl rfl
  · simpa using ht2

theorem retained_of_mem {F : Type} [Zero F] [Float64Format F] (startTime endTime : time.Time)
    (batch : List (Transaction F))
    (hsorted : batch.Pairwise (fun a b => b.Raw.BlockTime ≤ a.Raw.BlockTime))
    (t : Transaction F) (ht : t ∈ batch)
    (hlow : ∀ a ∈ batch, t.Raw.BlockTime ≤ a.Raw.BlockTime →
      startTime.IsZero = true ∨ (time.Unix a.Raw.BlockTime 0).Before startTime = false)
    (hhigh : (time.Unix t.Raw.BlockTime 0).After endTime = false) :
    ParseTransaction t ∈ retained startTime endTime batch := by
  unfold retained
  refine List.mem_map.mpr ⟨t, List.mem_filter.mpr ⟨?_, ?_⟩, rfl⟩
  · induction batch with
    | nil => simp at ht
    | cons a rest ih =>
      have hle : t.Raw.BlockTime ≤ a.Raw.BlockTime := by
        rcases List.mem_cons.mp ht with h | h
        · rw [h]
        · exact (List.pairwise_cons.mp hsorted).1 t h
      have hpa : (!(!startTime.IsZero && (time.Unix a.Raw.BlockTime 0).Before startTime))
          = true := by
        rcases hlow a (List.mem_cons_self _ _) hle with h | h
        · simp [h]
        · simp [h]
      rw [List.takeWhile_cons, if_pos hpa]
      rcases List.mem_cons.mp ht with h | h
      · subst h; exact List.mem_cons_self _ _
      · exact List.mem_cons_of_mem _
          (ih (List.pairwise_cons.mp hsorted).2 h
            (fun b hb => hlow b (List.mem_cons_of_mem _ hb)))
  · simp [hhigh]

/-! ## C1: windowing -/

/-- C1 (as amended): for every anchor and every time delta `Δ > 0` for which
`start_time = end_time − Δ` is not the zero instant, every transaction the fetch
returns whose block time `t` is one that `time.Unix` does not wrap around (`t`
is at most `9223371974719179007`, so that `t + 62135596800` is an `int64`) has
`start_time ≤ t ≤ end_time`, where `end_time` is the anchor's block time (`Δ`
an `int64` count of nanoseconds, block times `int64` counts of seconds). -/
theorem windowing {F : Type} [Zero F] [Float64Format F] (fuel : Nat)
    (transport : Transport F) (apiURL network account : String) (timeDelta : Int)
    (signature : String) (blockTime : Int) (run : Run F) (transactions : List (Transaction F))
    (hdelta : 0 < timeDelta)
    (hduration : time.int64 timeDelta)
    (hanchor : (getLatestTransactionSignature transport apiURL network account).1
      = .ok (signature, blockTime))
    (hblockTime : time.int64 blockTime)
    (hstart : ((time.Unix blockTime 0).Add (-timeDelta)).IsZero = false)
    (hrun : FetchAndParseTransactions fuel transport apiURL network account timeDelta = some run)
    (hok : run.result = .ok transactions) :
    ∀ tx ∈ transactions, time.unixInRange tx.Raw.BlockTime →
      blockTime * 1000000000 - timeDelta ≤ tx.Raw.BlockTime * 1000000000 ∧
        tx.Raw.BlockTime ≤ blockTime := by
  obtain ⟨acc, -, hrev, hacc⟩ :=
    FetchAndParseTransactions_ok fuel transport apiURL network account timeDelta signature
      blockTime run transactions hanchor hrun hok
  intro tx htx
  rw [hrev, List.mem_reverse, hacc, List.mem_flatten] at htx
  obtain ⟨l, hl, htxl⟩ := htx
  obtain ⟨batch, -, rfl⟩ := List.mem_map.mp hl
  obtain ⟨t, -, rfl, hlow, hhigh⟩ := mem_retained _ _ _ _ htxl
  rw [ParseTransaction_Raw]
  intro hrange
  have hne : timeDelta ≠ 0 := by omega
  simp only [if_neg hne] at hlow
  obtain ⟨hle, hend⟩ := not_After_anchor _ _ hrange hblockTime hhigh
  refine ⟨?_, hle⟩
  rcases hlow with h | h
  · rw [hstart] at h
    exact absurd h (by decide)
  · rw [Before_start _ _ _ hrange hend hdelta hduration.2, decide_eq_false_iff_not] at h
    omega

/-- C1 (witness): the amended windowing property at scenario S2 with
`Δ = 500 s`, where the fetch returns the transactions at 600, 900 and 1000. -/
theorem windowing_witness :
    ∃ (run : Run Float64) (transactions : List (Transaction Float64)),
      FetchAndParseTransactions 5 scenarioS2 "url" "net" "acct" 500000000000 = some run ∧
      run.result = .ok transactions ∧
      transactions.map (fun tx => tx.Raw.BlockTime) = [600, 900, 1000] ∧
      ∀ tx ∈ transactions, time.unixInRange tx.Raw.BlockTime →
        (1000 : Int) * 1000000000 - 500000000000 ≤ tx.Raw.BlockTime * 1000000000 ∧
          tx.Raw.BlockTime ≤ 1000 :=
  ⟨_, _, rfl, rfl, by decide,
    windowing 5 scenarioS2 "url" "net" "acct" 500000000000 "s1000" 1000 _ _
      (by decide) (by decide) (by decide) (by decide) (by decide) rfl rfl⟩

/-- C1 (counterexamples): first, with the anchor one second after the zero
instant and `Δ = 1 s`, `start_time` is the zero instant, which the batch loop
reads as "no lower bound": the fetch returns a transaction 100 seconds older
than `start_time`. Second, with the anchor at block time
`-9223372036854775708` and `Δ = 500 s`, `start_time` is not the zero instant,
and the fetch returns a transaction at block time `9223372036854775807`, far
after `end_time`: `time.Unix` wraps its instant around to 101 seconds before
`end_time`. -/
theorem windowing_fails :
    ((getLatestTransactionSignature yearOneTransport "url" "net" "acct").1
        = .ok ("anchor", -62135596799) ∧
      returnedBlockTimes
        (FetchAndParseTransactions 5 yearOneTransport "url" "net" "acct" 1000000000)
        = some [-62135596900] ∧
      ¬ ((-62135596799 : Int) * 1000000000 - 1000000000 ≤ (-62135596900) * 1000000000)) ∧
    ((getLatestTransactionSignature wrappedBatchTransport "url" "net" "acct").1
        = .ok ("anchor", -9223372036854775708) ∧
      ((time.Unix (-9223372036854775708) 0).Add (-500000000000)).IsZero = false ∧
      returnedBlockTimes
        (FetchAndParseTransactions 5 wrappedBatchTransport "url" "net" "acct" 500000000000)
        = some [9223372036854775807] ∧
      ¬ ((9223372036854775807 : Int) ≤ -9223372036854775708)) := by
  refine ⟨⟨by decide, by decide, by decide⟩, by decide, by decide, by decide, by decide⟩

/-! ## C2: ascending order -/

theorem FetchAndParseTransactions_anchor {F : Type} [Zero F] [Float64Format F] (fuel : Nat)
    (transport : Transport F) (apiURL network account : String) (timeDelta : Int)
    (run : Run F) (transactions : List (Transaction F))
    (hrun : FetchAndParseTransactions fuel transport apiURL network account timeDelta = some run)
    (hok : run.result = .ok transactions) :
    ∃ (signature : String) (blockTime : Int),
      (getLatestTransactionSignature transport apiURL network account).1
        = .ok (signature, blockTime) := by
  unfold FetchAndParseTransactions at hrun
  generalize getLatestTransactionSignature transport apiURL network account = g at hrun
  obtain ⟨out, calls⟩ := g
  cases out with
  | ok v => exact ⟨v.1, v.2, rfl⟩
  | error err => simp at hrun; subst hrun; simp at hok
  | panic msg => simp at hrun; subst hrun; simp at hok

theorem retained_pairwise {F : Type} [Zero F] [Float64Format F] (startTime endTime : time.Time)
    (batches : List (List (Transaction F)))
    (h : batches.flatten.Pairwise (fun a b => b.Raw.BlockTime ≤ a.Raw.BlockTime)) :
    ((batches.map (retained startTime endTime)).flatten).Pairwise
      (fun a b => b.Raw.BlockTime ≤ a.Raw.BlockTime) := by
  rw [List.pairwise_flatten] at h ⊢
  obtain ⟨h1, h2⟩ := h
  constructor
  · intro l hl
    obtain ⟨batch, hb, rfl⟩ := List.mem_map.mp hl
    unfold retained
    rw [List.pairwise_map]
    exact ((h1 batch hb).sublist
      ((List.filter_sublist _).trans (List.takeWhile_sublist _))).imp (fun h => h)
  · rw [List.pairwise_map]
    refine h2.imp ?_
    intro l1 l2 hl x hx y hy
    obtain ⟨t1, ht1, rfl, -, -⟩ := mem_retained _ _ _ _ hx
    obtain ⟨t2, ht2, rfl, -, -⟩ := mem_retained _ _ _ _ hy
    exact hl t1 ht1 t2 ht2

/-- C2: when the batches the pager received are newest-first (their
concatenation, in the order received, is non-increasing in block time), the
returned sequence is sorted ascending by block time, and it is the reverse of
the sequence the pager loop accumulated. -/
theorem sorted_ascending {F : Type} [Zero F] [Float64Format F] (fuel : Nat)
    (transport : Transport F) (apiURL network account : String) (timeDelta : Int)
    (run : Run F) (transactions : List (Transaction F))
    (hrun : FetchAndParseTransactions fuel transport apiURL network account timeDelta = some run)
    (hok : run.result = .ok transactions)
    (hnewest : (fetchedBatches run).flatten.Pairwise
      (fun a b => b.Raw.BlockTime ≤ a.Raw.BlockTime)) :
    transactions.Pairwise (fun a b => a.Raw.BlockTime ≤ b.Raw.BlockTime) ∧
      ∃ (signature : String) (blockTime : Int) (accumulated : List (Transaction F)),
        (getLatestTransactionSignature transport apiURL network account).1
          = .ok (signature, blockTime) ∧
        pagerLoop transport apiURL network account
          (if timeDelta = 0 then time.Time.zero else (time.Unix blockTime 0).Add (-timeDelta))
          (time.Unix blockTime 0) fuel 0 signature []
          (getLatestTransactionSignature transport apiURL network account).2
          = some ⟨.ok accumulated, run.calls⟩ ∧
        transactions = accumulated.reverse := by
  obtain ⟨signature, blockTime, hanchor⟩ :=
    FetchAndParseTransactions_anchor fuel transport apiURL network account timeDelta run
      transactions hrun hok
  obtain ⟨acc, hloop, hrev, hacc⟩ :=
    FetchAndParseTransactions_ok fuel transport apiURL network account timeDelta signature
      blockTime run transactions hanchor hrun hok
  refine ⟨?_, signature, blockTime, acc, hanchor, hloop, hrev⟩
  rw [hrev, List.pairwise_reverse, hacc]
  exact retained_pairwise _ _ _ hnewest

/-- C2 (witness): scenario S2 delivers its batch newest-first, and the fetch
returns it in ascending order. -/
theorem sorted_ascending_witness :
    ∃ (run : Run Float64) (transactions : List (Transaction Float64)),
      FetchAndParseTransactions 5 scenarioS2 "url" "net" "acct" 500000000000 = some run ∧
      run.result = .ok transactions ∧
      (fetchedBatches run).flatten.Pairwise (fun a b => b.Raw.BlockTime ≤ a.Raw.BlockTime) ∧
      transactions.Pairwise (fun a b => a.Raw.BlockTime ≤ b.Raw.BlockTime) :=
  ⟨_, _, rfl, rfl, by decide,
    (sorted_ascending 5 scenarioS2 "url" "net" "acct" 500000000000 _ _ rfl rfl (by decide)).1⟩

/-! ## C3: retention -/

/-- C3 (as amended): for every `Δ > 0` for which `start_time = end_time − Δ` is
not the zero instant, and every run in which the block times of the anchor and
of every transaction the pager received are ones that `time.Unix` does not wrap
around (at most `9223371974719179007`) and each received batch is newest-first,
a transaction of a received batch is (in normalized form) in the returned
sequence if and only if its block time `t` lies in the closed window
`start_time ≤ t ≤ end_time`. -/
theorem retained_iff_in_window {F : Type} [Zero F] [Float64Format F] (fuel : Nat)
    (transport : Transport F) (apiURL network account : String) (timeDelta : Int)
    (signature : String) (blockTime : Int) (run : Run F) (transactions : List (Transaction F))
    (hdelta : 0 < timeDelta)
    (hduration : time.int64 timeDelta)
    (hanchor : (getLatestTransactionSignature transport apiURL network account).1
      = .ok (signature, blockTime))
    (hblockTime : time.unixInRange blockTime)
    (hstart : ((time.Unix blockTime 0).Add (-timeDelta)).IsZero = false)
    (hrun : FetchAndParseTransactions fuel transport apiURL network account timeDelta = some run)
    (hok : run.result = .ok transactions)
    (hrange : ∀ batch ∈ fetchedBatches run, ∀ tx ∈ batch, time.unixInRange tx.Raw.BlockTime)
    (hsorted : ∀ batch ∈ fetchedBatches run,
      batch.Pairwise (fun a b => b.Raw.BlockTime ≤ a.Raw.BlockTime)) :
    ∀ batch ∈ fetchedBatches run, ∀ tx ∈ batch,
      (ParseTransaction tx ∈ transactions ↔
        blockTime * 1000000000 - timeDelta ≤ tx.Raw.BlockTime * 1000000000 ∧
          tx.Raw.BlockTime ≤ blockTime) := by
  obtain ⟨acc, -, hrev, hacc⟩ :=
    FetchAndParseTransactions_ok fuel transport apiURL network account timeDelta signature
      blockTime run transactions hanchor hrun hok
  have hne : timeDelta ≠ 0 := by omega
  simp only [if_neg hne] at hacc
  intro batch hbatch tx htx
  have htxrange := hrange batch hbatch tx htx
  rw [hrev, List.mem_reverse, hacc, List.mem_flatten]
  constructor
  · rintro ⟨l, hl, hmem⟩
    obtain ⟨batch1, -, rfl⟩ := List.mem_map.mp hl
    obtain ⟨t, -, heq, hlow, hhigh⟩ := mem_retained _ _ _ _ hmem
    have hraw : tx.Raw = t.Raw := by
      rw [← ParseTransaction_Raw tx, heq, ParseTransaction_Raw]
    rw [← hraw] at hlow hhigh
    rw [After_inRange _ _ htxrange hblockTime, decide_eq_false_iff_not] at hhigh
    refine ⟨?_, by omega⟩
    rcases hlow with h | h
    · rw [hstart] at h
      exact absurd h (by decide)
    · rw [Before_start _ _ _ htxrange hblockTime hdelta hduration.2,
        decide_eq_false_iff_not] at h
      omega
  · rintro ⟨hlow, hhigh⟩
    refine ⟨_, List.mem_map.mpr ⟨batch, hbatch, rfl⟩, ?_⟩
    apply retained_of_mem _ _ _ (hsorted batch hbatch) tx htx
    · intro a ha hle
      right
      rw [Before_start _ _ _ (hrange batch hbatch a ha) hblockTime hdelta hduration.2,
        decide_eq_false_iff_not]
      omega
    · rw [After_inRange _ _ htxrange hblockTime, decide_eq_false_iff_not]
      omega

/-- C3 (witness): the amended retention property at scenario S2 with
`Δ = 500 s`. -/
theorem retained_iff_in_window_witness :
    ∃ (run : Run Float64) (transactions : List (Transaction Float64)),
      FetchAndParseTransactions 5 scenarioS2 "url" "net" "acct" 500000000000 = some run ∧
      run.result = .ok transactions ∧
      ∀ batch ∈ fetchedBatches run, ∀ tx ∈ batch,
        (ParseTransaction tx ∈ transactions ↔
          (1000 : Int) * 1000000000 - 500000000000 ≤ tx.Raw.BlockTime * 1000000000 ∧
            tx.Raw.BlockTime ≤ 1000) :=
  ⟨_, _, rfl, rfl,
    retained_iff_in_window 5 scenarioS2 "url" "net" "acct" 500000000000 "s1000" 1000 _ _
      (by decide) (by decide) (by decide) (by decide) (by decide) rfl rfl (by decide)
      (by decide)⟩

/-- C3 (counterexamples): first, with the anchor at block time 1000 and
`Δ = 500 s`, a transaction at block time 500 of the received batch is returned,
although 500 is not in the half-open window `(500, 1000]`. Second, with the
anchor at block time `-9223372036854775708` and `Δ = 500 s`, the received
transaction at block time `9223372036854775807` is returned although it is
after `end_time`: `time.Unix` wraps its instant around. Third, with the anchor
at block time `9223371974719179008` and `Δ = 1 s`, the received transaction one
second before the anchor is not returned although it is in the window: the
anchor's instant wraps around. -/
theorem half_open_window_fails :
    ((getLatestTransactionSignature boundaryTransport "url" "net" "acct").1
        = .ok ("s1000", 1000) ∧
      (Option.map (fun run => fetchedBatches run)
          (FetchAndParseTransactions 5 boundaryTransport "url" "net" "acct" 500000000000))
        = some [[envelope ["s500"] 500 "Success"], []] ∧
      (Option.map (fun run => run.result)
          (FetchAndParseTransactions 5 boundaryTransport "url" "net" "acct" 500000000000))
        = some (.ok [ParseTransaction (envelope ["s500"] 500 "Success")]) ∧
      ¬ ((1000 : Int) * 1000000000 - 500000000000 < 500 * 1000000000)) ∧
    ((getLatestTransactionSignature wrappedBatchTransport "url" "net" "acct").1
        = .ok ("anchor", -9223372036854775708) ∧
      ((time.Unix (-9223372036854775708) 0).Add (-500000000000)).IsZero = false ∧
      (Option.map (fun run => fetchedBatches run)
          (FetchAndParseTransactions 5 wrappedBatchTransport "url" "net" "acct" 500000000000))
        = some [[envelope ["newest"] 9223372036854775807 "Success"], []] ∧
      (Option.map (fun run => run.result)
          (FetchAndParseTransactions 5 wrappedBatchTransport "url" "net" "acct" 500000000000))
        = some (.ok [ParseTransaction (envelope ["newest"] 9223372036854775807 "Success")]) ∧
      ¬ ((9223372036854775807 : Int) ≤ -9223372036854775708)) ∧
    ((getLatestTransactionSignature wrappedEndTransport "url" "net" "acct").1
        = .ok ("anchor", 9223371974719179008) ∧
      ((time.Unix 9223371974719179008 0).Add (-1000000000)).IsZero = false ∧
      (Option.map (fun run => fetchedBatches run)
          (FetchAndParseTransactions 5 wrappedEndTransport "url" "net" "acct" 1000000000))
        = some [[envelope ["older"] 9223371974719179007 "Success"], []] ∧
      (Option.map (fun run => run.result)
          (FetchAndParseTransactions 5 wrappedEndTransport "url" "net" "acct" 1000000000))
        = some (.ok []) ∧
      ((9223371974719179008 : Int) * 1000000000 - 1000000000
          ≤ 9223371974719179007 * 1000000000 ∧
        (9223371974719179007 : Int) ≤ 9223371974719179008)) := by
  refine ⟨⟨by decide, by decide, by decide, by decide⟩,
    ⟨by decide, by decide, by decide, by decide, by decide⟩,
    ⟨by decide, by decide, by decide, by decide, by decide⟩⟩

/-! ## C4: failed envelopes -/

theorem anchor_failure_reported {F : Type} [Zero F] [Float64Format F] (fuel : Nat)
    (transport : Transport F) (apiURL network account : String) (timeDelta : Int)
    (message : String) (result : List (Transaction F))
    (hfail : transport 0 ⟨apiURL, network, account, 1, none⟩
      = .response 200 (.value ⟨false, message, result⟩)) :
    FetchAndParseTransactions fuel transport apiURL network account timeDelta =
      some ⟨.error ("failed to fetch transactions: " ++ message),
        [(⟨apiURL, network, account, 1, none⟩,
          .response 200 (.value ⟨false, message, result⟩))]⟩ := by
  simp [FetchAndParseTransactions, getLatestTransactionSignature, hfail]

/-- C4 (the code at the failing input): the second paged call is answered with
a failed envelope (`success == false`, message "rate limited"), and the fetch
returns the transaction of the first batch with a nil error. -/
theorem paged_failure_returns_partial :
    (Option.map (fun run => run.calls.map (fun call => call.2))
        (FetchAndParseTransactions 5 midFailureTransport "url" "net" "acct" 500000000000))
      = some [batchAnswer [envelope ["s1000"] 1000 "Success"],
          batchAnswer [envelope ["s900"] 900 "Success"], rateLimited] ∧
    (Option.map (fun run => run.result)
        (FetchAndParseTransactions 5 midFailureTransport "url" "net" "acct" 500000000000))
      = some (.ok [ParseTransaction (envelope ["s900"] 900 "Success")]) := by
  refine ⟨by decide, by decide⟩

/-! ## C5: empty anchor -/

/-- C5: when the anchor call (the first transport call, `tx_num = 1`, no
cursor) is answered with a successful envelope whose result list is empty, the
fetch fails with an error, and the anchor call is the only transport call it
makes. -/
theorem empty_anchor_fails {F : Type} [Zero F] [Float64Format F] (fuel : Nat)
    (transport : Transport F) (apiURL network account : String) (timeDelta : Int)
    (message : String)
    (hempty : transport 0 ⟨apiURL, network, account, 1, none⟩
      = .response 200 (.value ⟨true, message, []⟩)) :
    FetchAndParseTransactions fuel transport apiURL network account timeDelta =
      some ⟨.error "failed to fetch the latest transaction",
        [(⟨apiURL, network, account, 1, none⟩, .response 200 (.value ⟨true, message, []⟩))]⟩ := by
  simp [FetchAndParseTransactions, getLatestTransactionSignature, hempty]

/-- C5 (witness): scenario S3, for any amount of fuel. -/
theorem empty_anchor_fails_witness :
    emptyAnchorTransport 0 ⟨"url", "net", "acct", 1, none⟩
        = .response 200 (.value ⟨true, "", []⟩) ∧
      FetchAndParseTransactions 7 emptyAnchorTransport "url" "net" "acct" 500000000000 =
        some ⟨.error "failed to fetch the latest transaction",
          [(⟨"url", "net", "acct", 1, none⟩, .response 200 (.value ⟨true, "", []⟩))]⟩ :=
  ⟨rfl, empty_anchor_fails 7 emptyAnchorTransport "url" "net" "acct" 500000000000 "" rfl⟩

/-! ## C6: memo selection -/

theorem memoLoop_skip (before rest : List Instruction) (memo : String)
    (hskip : ∀ i ∈ before, ∀ s, i.Parsed = .string s → s = "") :
    memoLoop (before ++ rest) memo = memoLoop rest memo := by
  induction before with
  | nil => rfl
  | cons i before ih =>
    have hi := hskip i (List.mem_cons_self _ _)
    have ih1 := ih (fun j hj => hskip j (List.mem_cons_of_mem _ hj))
    rw [List.cons_append, memoLoop]
    cases hp : i.Parsed with
    | string s =>
      have hs := hi s hp
      subst hs
      simpa [unmarshalString] using ih1
    | absent => simpa [unmarshalString] using ih1
    | null => simpa [unmarshalString] using ih1
    | number t => simpa [unmarshalString] using ih1
    | bool b => simpa [unmarshalString] using ih1
    | array t => simpa [unmarshalString] using ih1
    | object t => simpa [unmarshalString] using ih1

/-- C6: the memo of the parsed record is the payload of the first instruction,
in list order, whose `parsed` field is a non-empty JSON string: instructions
before it whose `parsed` is anything else (an object, an empty string, absent,
...) are skipped; when no instruction has such a field the memo is "N/A". -/
theorem memo_selection {F : Type} [Zero F] [Float64Format F] (tx : Transaction F) :
    (∀ (before after : List Instruction) (instruction : Instruction) (s : String),
        tx.Raw.Transaction.Message.Instructions = before ++ instruction :: after →
        (∀ i ∈ before, ∀ t, i.Parsed = .string t → t = "") →
        instruction.Parsed = .string s → s ≠ "" →
        (ParseTransaction tx).ParsedTranction.Memo = s) ∧
      ((∀ i ∈ tx.Raw.Transaction.Message.Instructions, ∀ t, i.Parsed = .string t → t = "") →
        (ParseTransaction tx).ParsedTranction.Memo = "N/A") := by
  constructor
  · intro before after instruction s hsplit hskip hparsed hs
    show memoLoop tx.Raw.Transaction.Message.Instructions "N/A" = s
    rw [hsplit, memoLoop_skip before _ _ hskip, memoLoop]
    simp [hparsed, unmarshalString, hs]
  · intro hskip
    show memoLoop tx.Raw.Transaction.Message.Instructions "N/A" = "N/A"
    have := memoLoop_skip tx.Raw.Transaction.Message.Instructions [] "N/A" hskip
    rw [List.append_nil] at this
    rw [this, memoLoop]

/-- C6 (witness): scenario S5, parsed values `\x7b"type":"transfer"\x7d` then
`"trade-tag"`, gives the memo "trade-tag"; an envelope without instructions
gives "N/A". -/
theorem memo_selection_witness :
    (ParseTransaction scenarioS5).ParsedTranction.Memo = "trade-tag" ∧
      (ParseTransaction (envelope ["s"] 100 "Success" : Transaction Float64)).ParsedTranction.Memo
        = "N/A" :=
  ⟨(memo_selection scenarioS5).1
      [instructionWith (.object "\x7b\"type\":\"transfer\"\x7d")] []
      (instructionWith (.string "trade-tag")) "trade-tag" rfl
      (by
        intro i hi t ht
        rw [List.mem_singleton] at hi
        subst hi
        simp [instructionWith] at ht)
      rfl (by decide),
    (memo_selection (envelope ["s"] 100 "Success" : Transaction Float64)).2
      (by
        intro i hi
        simp [envelope] at hi)⟩

/-! ## C10: scenario S2 -/

/-- C10 (as amended): in scenario S2 (anchor at block time 1000, `Δ = 500 s`,
one paged batch at block times 1000, 900, 600, 499, 300) the fetch makes the
anchor call and one paged call, retains the transactions at 1000, 900 and 600
and returns them in the order [600, 900, 1000]. -/
theorem scenarioS2_returns :
    (getLatestTransactionSignature scenarioS2 "url" "net" "acct").1 = .ok ("s1000", 1000) ∧
      (Option.map (fun run => run.calls.map (fun call => call.1))
          (FetchAndParseTransactions 5 scenarioS2 "url" "net" "acct" 500000000000))
        = some [⟨"url", "net", "acct", 1, none⟩, ⟨"url", "net", "acct", 100, some "s1000"⟩] ∧
      returnedBlockTimes
          (FetchAndParseTransactions 5 scenarioS2 "url" "net" "acct" 500000000000)
        = some [600, 900, 1000] := by
  refine ⟨by decide, by decide, by decide⟩

/-- C10 (counterexample): in scenario S2 the returned block times are not
[600, 900]: the batch's transaction at block time 1000 is not newer than
`end_time` and is retained. -/
theorem scenarioS2_not_two :
    returnedBlockTimes
        (FetchAndParseTransactions 5 scenarioS2 "url" "net" "acct" 500000000000)
      ≠ some [600, 900] := by
  decide

/-! ## Lemmas on the aggregation -/

theorem foldl_accumulate_tokenStats {F : Type} [Zero F] [Add F] (txs : List (Transaction F))
    (st : Statistics F) :
    (txs.foldl accumulate st).tokenStats = txs.foldl creditLedger st.tokenStats := by
  induction txs generalizing st with
  | nil => rfl
  | cons tx rest ih => rw [List.foldl_cons, ih, List.foldl_cons]; rfl

theorem PrintStatistics_tokenStats {F : Type} [Zero F] [Add F] (txs : List (Transaction F)) :
    (PrintStatistics txs).tokenStats = txs.foldl creditLedger [] := by
  unfold PrintStatistics
  rw [foldl_accumulate_tokenStats]

theorem ledgerEntry_creditBought {F : Type} [Zero F] [Add F] (m : TokenStats F) (key : String)
    (amount : F) (s : String) :
    ledgerEntry (creditBought m key amount) s =
      if s = key then
        some (match ledgerEntry m key with
          | some e => ⟨e.TotalBoughtSOL + amount, e.TotalSoldSOL⟩
          | none => ⟨amount, 0⟩)
      else ledgerEntry m s := by
  induction m with
  | nil =>
    by_cases h : s = key
    · subst h; simp [creditBought, ledgerEntry]
    · have h1 : ¬ key = s := fun e => h e.symm
      simp [creditBought, ledgerEntry, h, h1]
  | cons head rest ih =>
    obtain ⟨k, stats⟩ := head
    unfold creditBought
    by_cases hk : k = key
    · subst hk
      by_cases h : s = k
      · subst h; simp [ledgerEntry]
      · have h1 : ¬ k = s := fun e => h e.symm
        simp [ledgerEntry, h, h1]
    · rw [if_neg hk]
      by_cases h : s = key
      · subst h
        simp [ledgerEntry, hk, ih]
      · by_cases h2 : k = s
        · subst h2; simp [ledgerEntry, h]
        · simp [ledgerEntry, h, h2, hk, ih]

theorem ledgerEntry_creditSold {F : Type} [Zero F] [Add F] (m : TokenStats F) (key : String)
    (amount : F) (s : String) :
    ledgerEntry (creditSold m key amount) s =
      if s = key then
        some (match ledgerEntry m key with
          | some e => ⟨e.TotalBoughtSOL, e.TotalSoldSOL + amount⟩
          | none => ⟨0, amount⟩)
      else ledgerEntry m s := by
  induction m with
  | nil =>
    by_cases h : s = key
    · subst h; simp [creditSold, ledgerEntry]
    · have h1 : ¬ key = s := fun e => h e.symm
      simp [creditSold, ledgerEntry, h, h1]
  | cons head rest ih =>
    obtain ⟨k, stats⟩ := head
    unfold creditSold
    by_cases hk : k = key
    · subst hk
      by_cases h : s = k
      · subst h; simp [ledgerEntry]
      · have h1 : ¬ k = s := fun e => h e.symm
        simp [ledgerEntry, h, h1]
    · rw [if_neg hk]
      by_cases h : s = key
      · subst h
        simp [ledgerEntry, hk, ih]
      · by_cases h2 : k = s
        · subst h2; simp [ledgerEntry, h]
        · simp [ledgerEntry, h, h2, hk, ih]

theorem sumInOrder_append {F : Type} [Zero F] [Add F] (l : List F) (a : F) :
    sumInOrder (l ++ [a]) = sumInOrder l + a := by
  simp [sumInOrder, List.foldl_append]

theorem creditLedger_buy {F : Type} [Zero F] [Add F] (m : TokenStats F) (tx : Transaction F)
    (hbuy : tx.ParsedTranction.TokenIn.Symbol = "SOL" ∧ tx.ParsedTranction.TokenOut.Symbol ≠ "SOL") :
    creditLedger m tx =
      creditBought m tx.ParsedTranction.TokenOut.Symbol tx.ParsedTranction.TokenIn.Amount := by
  have hsell : ¬ (tx.ParsedTranction.TokenIn.Symbol ≠ "SOL" ∧
      tx.ParsedTranction.TokenOut.Symbol = "SOL") := fun h => h.1 hbuy.1
  unfold creditLedger
  simp only
  rw [if_pos hbuy, if_neg hsell]

theorem creditLedger_sell {F : Type} [Zero F] [Add F] (m : TokenStats F) (tx : Transaction F)
    (hsell : tx.ParsedTranction.TokenIn.Symbol ≠ "SOL" ∧ tx.ParsedTranction.TokenOut.Symbol = "SOL") :
    creditLedger m tx =
      creditSold m tx.ParsedTranction.TokenIn.Symbol tx.ParsedTranction.TokenOut.Amount := by
  have hbuy : ¬ (tx.ParsedTranction.TokenIn.Symbol = "SOL" ∧
      tx.ParsedTranction.TokenOut.Symbol ≠ "SOL") := fun h => hsell.1 h.1
  unfold creditLedger
  simp only
  rw [if_neg hbuy, if_pos hsell]

theorem creditLedger_other {F : Type} [Zero F] [Add F] (m : TokenStats F) (tx : Transaction F)
    (hbuy : ¬ (tx.ParsedTranction.TokenIn.Symbol = "SOL" ∧
      tx.ParsedTranction.TokenOut.Symbol ≠ "SOL"))
    (hsell : ¬ (tx.ParsedTranction.TokenIn.Symbol ≠ "SOL" ∧
      tx.ParsedTranction.TokenOut.Symbol = "SOL")) :
    creditLedger m tx = m := by
  unfold creditLedger
  simp only
  rw [if_neg hbuy, if_neg hsell]

theorem ledgerEntry_foldl {F : Type} [Zero F] [Add F] (txs : List (Transaction F))
    (hzero : ∀ tx ∈ txs,
      (tx.ParsedTranction.TokenIn.Symbol = "SOL" ∧ tx.ParsedTranction.TokenOut.Symbol ≠ "SOL" →
        0 + tx.ParsedTranction.TokenIn.Amount = tx.ParsedTranction.TokenIn.Amount) ∧
      (tx.ParsedTranction.TokenIn.Symbol ≠ "SOL" ∧ tx.ParsedTranction.TokenOut.Symbol = "SOL" →
        0 + tx.ParsedTranction.TokenOut.Amount = tx.ParsedTranction.TokenOut.Amount))
    (s : String) :
    ledgerEntry (txs.foldl creditLedger []) s =
      if (buysOf s txs).isEmpty && (sellsOf s txs).isEmpty then none
      else some
        ⟨sumInOrder ((buysOf s txs).map (fun tx => tx.ParsedTranction.TokenIn.Amount)),
          sumInOrder ((sellsOf s txs).map (fun tx => tx.ParsedTranction.TokenOut.Amount))⟩ := by
  induction txs using List.reverseRecOn with
  | nil => simp [ledgerEntry, buysOf, sellsOf]
  | append_singleton txs tx ih =>
    have ih1 := ih (fun t ht => hzero t (List.mem_append_left _ ht))
    have hz := hzero tx (by simp)
    rw [List.foldl_append, List.foldl_cons, List.foldl_nil]
    by_cases hbuy : tx.ParsedTranction.TokenIn.Symbol = "SOL" ∧
        tx.ParsedTranction.TokenOut.Symbol ≠ "SOL"
    · have hsell : ¬ (tx.ParsedTranction.TokenIn.Symbol ≠ "SOL" ∧
          tx.ParsedTranction.TokenOut.Symbol = "SOL") := fun h => h.1 hbuy.1
      rw [creditLedger_buy _ _ hbuy, ledgerEntry_creditBought]
      have hs2 : sellsOf s (txs ++ [tx]) = sellsOf s txs := by
        simp [sellsOf, List.filter_append, List.filter_cons, hbuy.2]
      by_cases hs : s = tx.ParsedTranction.TokenOut.Symbol
      · have hb2 : buysOf s (txs ++ [tx]) = buysOf s txs ++ [tx] := by
          have hne : ¬ s = "SOL" := fun e => hbuy.2 (hs ▸ e)
          simp [buysOf, List.filter_append, List.filter_cons, hbuy.1, hs.symm, hne]
        rw [if_pos hs, hb2, hs2, ← hs, ih1]
        by_cases hnil : ((buysOf s txs).isEmpty && (sellsOf s txs).isEmpty) = true
        · have hn := hnil
          simp only [Bool.and_eq_true, List.isEmpty_iff] at hn
          simp [hnil, hn.1, hn.2, sumInOrder, hz.1 hbuy]
        · simp [hnil, sumInOrder_append]
      · have hb2 : buysOf s (txs ++ [tx]) = buysOf s txs := by
          have hs1 : ¬ tx.ParsedTranction.TokenOut.Symbol = s := fun e => hs e.symm
          simp [buysOf, List.filter_append, List.filter_cons, hs1]
        rw [if_neg hs, hb2, hs2, ih1]
    · by_cases hsell : tx.ParsedTranction.TokenIn.Symbol ≠ "SOL" ∧
          tx.ParsedTranction.TokenOut.Symbol = "SOL"
      · rw [creditLedger_sell _ _ hsell, ledgerEntry_creditSold]
        have hb2 : buysOf s (txs ++ [tx]) = buysOf s txs := by
          simp [buysOf, List.filter_append, List.filter_cons, hsell.1]
        by_cases hs : s = tx.ParsedTranction.TokenIn.Symbol
        · have hs2 : sellsOf s (txs ++ [tx]) = sellsOf s txs ++ [tx] := by
            have hne : ¬ s = "SOL" := fun e => hsell.1 (hs ▸ e)
            simp [sellsOf, List.filter_append, List.filter_cons, hsell.2, hs.symm, hne]
          rw [if_pos hs, hb2, hs2, ← hs, ih1]
          by_cases hnil : ((buysOf s txs).isEmpty && (sellsOf s txs).isEmpty) = true
          · have hn := hnil
            simp only [Bool.and_eq_true, List.isEmpty_iff] at hn
            simp [hnil, hn.1, hn.2, sumInOrder, hz.2 hsell]
          · simp [hnil, sumInOrder_append]
        · have hs2 : sellsOf s (txs ++ [tx]) = sellsOf s txs := by
            have hs1 : ¬ tx.ParsedTranction.TokenIn.Symbol = s := fun e => hs e.symm
            simp [sellsOf, List.filter_append, List.filter_cons, hs1]
          rw [if_neg hs, hb2, hs2, ih1]
      · rw [creditLedger_other _ _ hbuy hsell]
        have hb2 : buysOf s (txs ++ [tx]) = buysOf s txs := by
          simp only [buysOf, List.filter_append, List.filter_cons, List.filter_nil]
          rw [if_neg]
          · simp
          · simp only [decide_eq_true_eq]
            rintro ⟨h1, h2, h3⟩
            exact hbuy ⟨h1, fun e => h3 (h2 ▸ e)⟩
        have hs2 : sellsOf s (txs ++ [tx]) = sellsOf s txs := by
          simp only [sellsOf, List.filter_append, List.filter_cons, List.filter_nil]
          rw [if_neg]
          · simp
          · simp only [decide_eq_true_eq]
            rintro ⟨h1, h2, h3⟩
            exact hsell ⟨fun e => h3 (h2 ▸ e), h1⟩
        rw [hb2, hs2, ih1]

theorem ledgerEntry_isSome_foldl {F : Type} [Zero F] [Add F] (txs : List (Transaction F))
    (s : String) :
    (ledgerEntry (txs.foldl creditLedger []) s).isSome =
      !((buysOf s txs).isEmpty && (sellsOf s txs).isEmpty) := by
  induction txs using List.reverseRecOn with
  | nil => simp [ledgerEntry, buysOf, sellsOf]
  | append_singleton txs tx ih =>
    rw [List.foldl_append, List.foldl_cons, List.foldl_nil]
    by_cases hbuy : tx.ParsedTranction.TokenIn.Symbol = "SOL" ∧
        tx.ParsedTranction.TokenOut.Symbol ≠ "SOL"
    · rw [creditLedger_buy _ _ hbuy, ledgerEntry_creditBought]
      have hs2 : sellsOf s (txs ++ [tx]) = sellsOf s txs := by
        simp [sellsOf, List.filter_append, List.filter_cons, hbuy.2]
      by_cases hs : s = tx.ParsedTranction.TokenOut.Symbol
      · have hb2 : buysOf s (txs ++ [tx]) = buysOf s txs ++ [tx] := by
          have hne : ¬ s = "SOL" := fun e => hbuy.2 (hs ▸ e)
          simp [buysOf, List.filter_append, List.filter_cons, hbuy.1, hs.symm, hne]
        rw [if_pos hs, hb2, hs2]
        simp
      · have hb2 : buysOf s (txs ++ [tx]) = buysOf s txs := by
          have hs1 : ¬ tx.ParsedTranction.TokenOut.Symbol = s := fun e => hs e.symm
          simp [buysOf, List.filter_append, List.filter_cons, hs1]
        rw [if_neg hs, hb2, hs2, ih]
    · by_cases hsell : tx.ParsedTranction.TokenIn.Symbol ≠ "SOL" ∧
          tx.ParsedTranction.TokenOut.Symbol = "SOL"
      · rw [creditLedger_sell _ _ hsell, ledgerEntry_creditSold]
        have hb2 : buysOf s (txs ++ [tx]) = buysOf s txs := by
          simp [buysOf, List.filter_append, List.filter_cons, hsell.1]
        by_cases hs : s = tx.ParsedTranction.TokenIn.Symbol
        · have hs2 : sellsOf s (txs ++ [tx]) = sellsOf s txs ++ [tx] := by
            have hne : ¬ s = "SOL" := fun e => hsell.1 (hs ▸ e)
            simp [sellsOf, List.filter_append, List.filter_cons, hsell.2, hs.symm, hne]
          rw [if_pos hs, hb2, hs2]
          simp
        · have hs2 : sellsOf s (txs ++ [tx]) = sellsOf s txs := by
            have hs1 : ¬ tx.ParsedTranction.TokenIn.Symbol = s := fun e => hs e.symm
            simp [sellsOf, List.filter_append, List.filter_cons, hs1]
          rw [if_neg hs, hb2, hs2, ih]
      · rw [creditLedger_other _ _ hbuy hsell]
        have hb2 : buysOf s (txs ++ [tx]) = buysOf s txs := by
          simp only [buysOf, List.filter_append, List.filter_cons, List.filter_nil]
          rw [if_neg]
          · simp
          · simp only [decide_eq_true_eq]
            rintro ⟨h1, h2, h3⟩
            exact hbuy ⟨h1, fun e => h3 (h2 ▸ e)⟩
        have hs2 : sellsOf s (txs ++ [tx]) = sellsOf s txs := by
          simp only [sellsOf, List.filter_append, List.filter_cons, List.filter_nil]
          rw [if_neg]
          · simp
          · simp only [decide_eq_true_eq]
            rintro ⟨h1, h2, h3⟩
            exact hsell ⟨fun e => h3 (h2 ▸ e), h1⟩
        rw [hb2, hs2, ih]

theorem not_both_empty_iff {F : Type} (txs : List (Transaction F)) (s : String) :
    (!((buysOf s txs).isEmpty && (sellsOf s txs).isEmpty)) = true ↔
      ∃ tx ∈ txs,
        (tx.ParsedTranction.TokenIn.Symbol = "SOL" ∧ tx.ParsedTranction.TokenOut.Symbol = s ∧
            s ≠ "SOL") ∨
          (tx.ParsedTranction.TokenOut.Symbol = "SOL" ∧ tx.ParsedTranction.TokenIn.Symbol = s ∧
            s ≠ "SOL") := by
  constructor
  · intro h
    simp only [Bool.not_eq_true', Bool.and_eq_false_iff] at h
    rcases h with h | h
    · cases hb : buysOf s txs with
      | nil => rw [hb] at h; simp at h
      | cons tx rest =>
        have hmem : tx ∈ buysOf s txs := by rw [hb]; exact List.mem_cons_self _ _
        unfold buysOf at hmem
        obtain ⟨h1, h2⟩ := List.mem_filter.mp hmem
        exact ⟨tx, h1, Or.inl (by simpa using h2)⟩
    · cases hb : sellsOf s txs with
      | nil => rw [hb] at h; simp at h
      | cons tx rest =>
        have hmem : tx ∈ sellsOf s txs := by rw [hb]; exact List.mem_cons_self _ _
        unfold sellsOf at hmem
        obtain ⟨h1, h2⟩ := List.mem_filter.mp hmem
        exact ⟨tx, h1, Or.inr (by simpa using h2)⟩
  · rintro ⟨tx, hmem, h | h⟩
    · have : tx ∈ buysOf s txs := List.mem_filter.mpr ⟨hmem, by simpa using h⟩
      cases hb : buysOf s txs with
      | nil => rw [hb] at this; simp at this
      | cons a rest => simp
    · have : tx ∈ sellsOf s txs := List.mem_filter.mpr ⟨hmem, by simpa using h⟩
      cases hb : sellsOf s txs with
      | nil => rw [hb] at this; simp at this
      | cons a rest => simp

/-! ## C7: the ledger -/

/-- C7: the ledger built by `PrintStatistics` has an entry for symbol `s` exactly
when some record has (`in.symbol == "SOL"` and `out.symbol == s != "SOL"`) or
(`out.symbol == "SOL"` and `in.symbol == s != "SOL"`); in that entry the bought
total is the sum of `in.amount` over the records of the first kind and the sold
total is the sum of `out.amount` over the records of the second kind, added up
in record order; a record that is not a swap with exactly one SOL leg changes
no entry. (The hypothesis says that adding an amount to 0.0 gives the amount.) -/
theorem ledger_entries {F : Type} [Zero F] [Add F] (transactions : List (Transaction F))
    (hzero : ∀ tx ∈ transactions,
      0 + tx.ParsedTranction.TokenIn.Amount = tx.ParsedTranction.TokenIn.Amount ∧
        0 + tx.ParsedTranction.TokenOut.Amount = tx.ParsedTranction.TokenOut.Amount)
    (s : String) :
    ((ledgerEntry (PrintStatistics transactions).tokenStats s).isSome = true ↔
        ∃ tx ∈ transactions,
          (tx.ParsedTranction.TokenIn.Symbol = "SOL" ∧ tx.ParsedTranction.TokenOut.Symbol = s ∧
              s ≠ "SOL") ∨
            (tx.ParsedTranction.TokenOut.Symbol = "SOL" ∧ tx.ParsedTranction.TokenIn.Symbol = s ∧
              s ≠ "SOL")) ∧
      (∀ entry, ledgerEntry (PrintStatistics transactions).tokenStats s = some entry →
        entry.TotalBoughtSOL =
            sumInOrder ((buysOf s transactions).map (fun tx => tx.ParsedTranction.TokenIn.Amount)) ∧
          entry.TotalSoldSOL =
            sumInOrder
              ((sellsOf s transactions).map (fun tx => tx.ParsedTranction.TokenOut.Amount))) ∧
      (∀ (tokenStats : TokenStats F) (tx : Transaction F), oneSolLeg tx = false →
        creditLedger tokenStats tx = tokenStats) := by
  refine ⟨?_, ?_, ?_⟩
  · rw [PrintStatistics_tokenStats, ledgerEntry_isSome_foldl, not_both_empty_iff]
  · intro entry hentry
    rw [PrintStatistics_tokenStats, ledgerEntry_foldl transactions
      (fun tx htx => ⟨fun _ => (hzero tx htx).1, fun _ => (hzero tx htx).2⟩) s] at hentry
    split at hentry
    · simp at hentry
    · simp only [Option.some.injEq] at hentry
      subst hentry
      exact ⟨rfl, rfl⟩
  · intro tokenStats tx hone
    simp only [oneSolLeg, decide_eq_false_iff_not, not_or] at hone
    exact creditLedger_other _ _ hone.1 hone.2

/-- C7 (witness): scenario S1 gives `ledger["FOO"]` = (bought 1.0, sold 1.5), with
profit 0.5. -/
theorem ledger_entries_witness :
    ledgerEntry (PrintStatistics scenarioS1).tokenStats "FOO"
        = some ⟨.finite 1 0, .finite 3 (-1)⟩ ∧
      profit (⟨.finite 1 0, .finite 3 (-1)⟩ : TrackTokenStats Float64) = .finite 1 (-1) ∧
      (∀ entry, ledgerEntry (PrintStatistics scenarioS1).tokenStats "FOO" = some entry →
        entry.TotalBoughtSOL =
            sumInOrder ((buysOf "FOO" scenarioS1).map (fun tx => tx.ParsedTranction.TokenIn.Amount)) ∧
          entry.TotalSoldSOL =
            sumInOrder
              ((sellsOf "FOO" scenarioS1).map (fun tx => tx.ParsedTranction.TokenOut.Amount))) :=
  ⟨by decide, by decide, (ledger_entries scenarioS1 (by decide) "FOO").2.1⟩

/-! ## Lemmas on exact sums -/

theorem exact_foldl {F : Type} [Zero F] [Add F] (P : F → Prop) (value : F → Int) (bound : Nat)
    (hexact : ExactSums P value bound) (l : List F) :
    ∀ x : F, P x → (∀ a ∈ l, P a) →
      (value x).natAbs + (l.map (fun a => (value a).natAbs)).sum ≤ bound →
      P (l.foldl (fun total amount => total + amount) x) ∧
        value (l.foldl (fun total amount => total + amount) x) = value x + (l.map value).sum := by
  induction l with
  | nil =>
    intro x hx _ _
    simp [hx]
  | cons a rest ih =>
    intro x hx hl hb
    simp only [List.map_cons, List.sum_cons] at hb
    obtain ⟨hp, hv⟩ := hexact.add x hx a (hl a (List.mem_cons_self _ _)) (by omega)
    have hrest := ih (x + a) hp (fun b hb => hl b (List.mem_cons_of_mem _ hb))
      (by rw [hv]; omega)
    rw [List.foldl_cons]
    refine ⟨hrest.1, ?_⟩
    rw [hrest.2, hv, List.map_cons, List.sum_cons, add_assoc]

theorem exact_sumInOrder {F : Type} [Zero F] [Add F] (P : F → Prop) (value : F → Int)
    (bound : Nat) (hexact : ExactSums P value bound) (l : List F) (hl : ∀ a ∈ l, P a)
    (hb : (l.map (fun a => (value a).natAbs)).sum ≤ bound) :
    P (sumInOrder l) ∧ value (sumInOrder l) = (l.map value).sum := by
  have h := exact_foldl P value bound hexact l 0 hexact.zero.1 hl
    (by rw [hexact.zero.2]; simpa using hb)
  rw [hexact.zero.2, zero_add] at h
  exact h

theorem exact_sumInOrder_perm {F : Type} [Zero F] [Add F] (P : F → Prop) (value : F → Int)
    (bound : Nat) (hexact : ExactSums P value bound) (l₁ l₂ : List F) (hperm : l₁.Perm l₂)
    (hl : ∀ a ∈ l₁, P a) (hb : (l₁.map (fun a => (value a).natAbs)).sum ≤ bound) :
    sumInOrder l₁ = sumInOrder l₂ := by
  obtain ⟨hp1, hv1⟩ := exact_sumInOrder P value bound hexact l₁ hl hb
  obtain ⟨hp2, hv2⟩ := exact_sumInOrder P value bound hexact l₂
    (fun a ha => hl a (hperm.mem_iff.mpr ha))
    (by rw [← (hperm.map (fun a => (value a).natAbs)).sum_eq]; exact hb)
  apply hexact.injective _ hp1 _ hp2
  rw [hv1, hv2, (hperm.map value).sum_eq]

theorem exact_zero_add {F : Type} [Zero F] [Add F] (P : F → Prop) (value : F → Int)
    (bound : Nat) (hexact : ExactSums P value bound) (a : F) (ha : P a)
    (hb : (value a).natAbs ≤ bound) : 0 + a = a := by
  obtain ⟨hp, hv⟩ := hexact.add 0 hexact.zero.1 a ha (by rw [hexact.zero.2]; simpa using hb)
  apply hexact.injective _ hp _ ha
  rw [hv, hexact.zero.2, zero_add]

theorem natAbs_sum_le (l : List Int) : l.sum.natAbs ≤ (l.map Int.natAbs).sum := by
  induction l with
  | nil => simp
  | cons a rest ih =>
    simp only [List.sum_cons, List.map_cons]
    omega

theorem weight_filter_le {α : Type} (l : List α) (p q : α → Bool) (f g : α → Nat)
    (h : ∀ a ∈ l, p a = true → q a = true ∧ f a = g a) :
    ((l.filter p).map f).sum ≤ ((l.filter q).map g).sum := by
  induction l with
  | nil => simp
  | cons a rest ih =>
    have ih1 := ih (fun b hb => h b (List.mem_cons_of_mem _ hb))
    by_cases hp : p a = true
    · obtain ⟨hq, hfg⟩ := h a (List.mem_cons_self _ _) hp
      rw [List.filter_cons, if_pos hp, List.filter_cons, if_pos hq]
      simp only [List.map_cons, List.sum_cons]
      omega
    · rw [List.filter_cons, if_neg hp]
      by_cases hq : q a = true
      · rw [List.filter_cons, if_pos hq]
        simp only [List.map_cons, List.sum_cons]
        omega
      · rw [List.filter_cons, if_neg hq]
        exact ih1

theorem weight_mem_le {α : Type} (l : List α) (f : α → Nat) (a : α) (ha : a ∈ l) :
    f a ≤ (l.map f).sum := by
  induction l with
  | nil => simp at ha
  | cons b rest ih =>
    simp only [List.map_cons, List.sum_cons]
    rcases List.mem_cons.mp ha with h | h
    · subst h; omega
    · have := ih h
      omega

theorem exact_creditBought {F : Type} [Zero F] [Add F] (P : F → Prop) (value : F → Int)
    (bound : Nat) (hexact : ExactSums P value bound) (m : TokenStats F) (key : String)
    (amount : F) (hm : ∀ e ∈ m, P e.2.TotalBoughtSOL ∧ P e.2.TotalSoldSOL) (ha : P amount)
    (hb : ledgerWeight value m + (value amount).natAbs ≤ bound) :
    (∀ e ∈ creditBought m key amount, P e.2.TotalBoughtSOL ∧ P e.2.TotalSoldSOL) ∧
      ledgerValue value (creditBought m key amount) = ledgerValue value m + value amount ∧
      ledgerWeight value (creditBought m key amount)
        ≤ ledgerWeight value m + (value amount).natAbs := by
  induction m with
  | nil =>
    refine ⟨?_, ?_, ?_⟩
    · intro e he
      simp only [creditBought, List.mem_singleton] at he
      subst he
      exact ⟨ha, hexact.zero.1⟩
    · simp [creditBought, ledgerValue, hexact.zero.2]
    · simp [creditBought, ledgerWeight, hexact.zero.2]
  | cons head rest ih =>
    obtain ⟨k, stats⟩ := head
    have hhead := hm (k, stats) (List.mem_cons_self _ _)
    simp only [ledgerWeight, List.map_cons, List.sum_cons] at hb
    unfold creditBought
    by_cases hk : k = key
    · rw [if_pos hk]
      obtain ⟨hp, hv⟩ := hexact.add stats.TotalBoughtSOL hhead.1 amount ha (by omega)
      refine ⟨?_, ?_, ?_⟩
      · intro e he
        rcases List.mem_cons.mp he with h | h
        · subst h
          exact ⟨hp, hhead.2⟩
        · exact hm e (List.mem_cons_of_mem _ h)
      · simp only [ledgerValue, List.map_cons, List.sum_cons, hv]
        omega
      · simp only [ledgerWeight, List.map_cons, List.sum_cons, hv]
        omega
    · rw [if_neg hk]
      obtain ⟨ih1, ih2, ih3⟩ := ih (fun e he => hm e (List.mem_cons_of_mem _ he))
        (by simp only [ledgerWeight]; omega)
      simp only [ledgerValue, ledgerWeight] at ih2 ih3
      refine ⟨?_, ?_, ?_⟩
      · intro e he
        rcases List.mem_cons.mp he with h | h
        · subst h
          exact hhead
        · exact ih1 e h
      · simp only [ledgerValue, List.map_cons, List.sum_cons, ih2]
        omega
      · simp only [ledgerWeight, List.map_cons, List.sum_cons]
        omega

theorem exact_creditSold {F : Type} [Zero F] [Add F] (P : F → Prop) (value : F → Int)
    (bound : Nat) (hexact : ExactSums P value bound) (m : TokenStats F) (key : String)
    (amount : F) (hm : ∀ e ∈ m, P e.2.TotalBoughtSOL ∧ P e.2.TotalSoldSOL) (ha : P amount)
    (hb : ledgerWeight value m + (value amount).natAbs ≤ bound) :
    (∀ e ∈ creditSold m key amount, P e.2.TotalBoughtSOL ∧ P e.2.TotalSoldSOL) ∧
      ledgerValue value (creditSold m key amount) = ledgerValue value m + value amount ∧
      ledgerWeight value (creditSold m key amount)
        ≤ ledgerWeight value m + (value amount).natAbs := by
  induction m with
  | nil =>
    refine ⟨?_, ?_, ?_⟩
    · intro e he
      simp only [creditSold, List.mem_singleton] at he
      subst he
      exact ⟨hexact.zero.1, ha⟩
    · simp [creditSold, ledgerValue, hexact.zero.2]
    · simp [creditSold, ledgerWeight, hexact.zero.2]
  | cons head rest ih =>
    obtain ⟨k, stats⟩ := head
    have hhead := hm (k, stats) (List.mem_cons_self _ _)
    simp only [ledgerWeight, List.map_cons, List.sum_cons] at hb
    unfold creditSold
    by_cases hk : k = key
    · rw [if_pos hk]
      obtain ⟨hp, hv⟩ := hexact.add stats.TotalSoldSOL hhead.2 amount ha (by omega)
      refine ⟨?_, ?_, ?_⟩
      · intro e he
        rcases List.mem_cons.mp he with h | h
        · subst h
          exact ⟨hhead.1, hp⟩
        · exact hm e (List.mem_cons_of_mem _ h)
      · simp only [ledgerValue, List.map_cons, List.sum_cons, hv]
        omega
      · simp only [ledgerWeight, List.map_cons, List.sum_cons, hv]
        omega
    · rw [if_neg hk]
      obtain ⟨ih1, ih2, ih3⟩ := ih (fun e he => hm e (List.mem_cons_of_mem _ he))
        (by simp only [ledgerWeight]; omega)
      simp only [ledgerValue, ledgerWeight] at ih2 ih3
      refine ⟨?_, ?_, ?_⟩
      · intro e he
        rcases List.mem_cons.mp he with h | h
        · subst h
          exact hhead
        · exact ih1 e h
      · simp only [ledgerValue, List.map_cons, List.sum_cons, ih2]
        omega
      · simp only [ledgerWeight, List.map_cons, List.sum_cons]
        omega

theorem solLegAmount_buy {F : Type} (tx : Transaction F)
    (hbuy : tx.ParsedTranction.TokenIn.Symbol = "SOL" ∧ tx.ParsedTranction.TokenOut.Symbol ≠ "SOL") :
    oneSolLeg tx = true ∧ solLegAmount tx = tx.ParsedTranction.TokenIn.Amount := by
  constructor
  · simp [oneSolLeg, hbuy.1, hbuy.2]
  · simp [solLegAmount, hbuy.1]

theorem solLegAmount_sell {F : Type} (tx : Transaction F)
    (hsell : tx.ParsedTranction.TokenIn.Symbol ≠ "SOL" ∧ tx.ParsedTranction.TokenOut.Symbol = "SOL") :
    oneSolLeg tx = true ∧ solLegAmount tx = tx.ParsedTranction.TokenOut.Amount := by
  constructor
  · simp [oneSolLeg, hsell.1, hsell.2]
  · simp [solLegAmount, hsell.1]

theorem exact_foldl_creditLedger {F : Type} [Zero F] [Add F] (P : F → Prop) (value : F → Int)
    (bound : Nat) (hexact : ExactSums P value bound) (txs : List (Transaction F)) :
    ∀ m : TokenStats F, (∀ e ∈ m, P e.2.TotalBoughtSOL ∧ P e.2.TotalSoldSOL) →
      (∀ tx ∈ txs, oneSolLeg tx = true → P (solLegAmount tx)) →
      ledgerWeight value m
          + ((txs.filter oneSolLeg).map (fun tx => (value (solLegAmount tx)).natAbs)).sum
        ≤ bound →
      (∀ e ∈ txs.foldl creditLedger m, P e.2.TotalBoughtSOL ∧ P e.2.TotalSoldSOL) ∧
        ledgerValue value (txs.foldl creditLedger m) = ledgerValue value m +
          ((txs.filter oneSolLeg).map (fun tx => value (solLegAmount tx))).sum ∧
        ledgerWeight value (txs.foldl creditLedger m) ≤ ledgerWeight value m +
          ((txs.filter oneSolLeg).map (fun tx => (value (solLegAmount tx)).natAbs)).sum := by
  induction txs with
  | nil =>
    intro m hm _ _
    refine ⟨hm, ?_, ?_⟩ <;> simp
  | cons tx rest ih =>
    intro m hm hamounts hb
    have hrest : ∀ t ∈ rest, oneSolLeg t = true → P (solLegAmount t) :=
      fun t ht => hamounts t (List.mem_cons_of_mem _ ht)
    rw [List.foldl_cons]
    by_cases hbuy : tx.ParsedTranction.TokenIn.Symbol = "SOL" ∧
        tx.ParsedTranction.TokenOut.Symbol ≠ "SOL"
    · obtain ⟨hone, hamount⟩ := solLegAmount_buy tx hbuy
      rw [List.filter_cons, if_pos hone] at hb ⊢
      simp only [List.map_cons, List.sum_cons] at hb ⊢
      have hp := hamounts tx (List.mem_cons_self _ _) hone
      obtain ⟨h1, h2, h3⟩ := exact_creditBought P value bound hexact m
        tx.ParsedTranction.TokenOut.Symbol (solLegAmount tx) hm hp (by omega)
      rw [creditLedger_buy _ _ hbuy, ← hamount]
      obtain ⟨i1, i2, i3⟩ := ih _ h1 hrest (by omega)
      refine ⟨i1, ?_, ?_⟩
      · rw [i2, h2]
        omega
      · omega
    · by_cases hsell : tx.ParsedTranction.TokenIn.Symbol ≠ "SOL" ∧
          tx.ParsedTranction.TokenOut.Symbol = "SOL"
      · obtain ⟨hone, hamount⟩ := solLegAmount_sell tx hsell
        rw [List.filter_cons, if_pos hone] at hb ⊢
        simp only [List.map_cons, List.sum_cons] at hb ⊢
        have hp := hamounts tx (List.mem_cons_self _ _) hone
        obtain ⟨h1, h2, h3⟩ := exact_creditSold P value bound hexact m
          tx.ParsedTranction.TokenIn.Symbol (solLegAmount tx) hm hp (by omega)
        rw [creditLedger_sell _ _ hsell, ← hamount]
        obtain ⟨i1, i2, i3⟩ := ih _ h1 hrest (by omega)
        refine ⟨i1, ?_, ?_⟩
        · rw [i2, h2]
          omega
        · omega
      · have hone : ¬ oneSolLeg tx = true := by
          simp only [oneSolLeg, decide_eq_true_eq, not_or]
          exact ⟨hbuy, hsell⟩
        rw [List.filter_cons, if_neg hone] at hb ⊢
        rw [creditLedger_other _ _ hbuy hsell]
        exact ih m hm hrest hb

theorem foldl_accumulate_fees {F : Type} [Zero F] [Add F] (txs : List (Transaction F))
    (st : Statistics F) :
    (txs.foldl accumulate st).totalFee =
      (txs.map (fun tx => tx.Raw.Meta.Fee)).foldl (fun total amount => total + amount)
        st.totalFee := by
  induction txs generalizing st with
  | nil => rfl
  | cons tx rest ih =>
    rw [List.foldl_cons, ih]
    rfl

theorem halves_exact : ExactSums (fun x => x ∈ halves) (Float64.scaled 1) 6 :=
  ⟨by decide, by decide, by decide⟩

/-! ## Sums of integers in float64 -/

theorem bits_le (fuel : Nat) : ∀ (n k : Nat), n < 2 ^ k → Float64.bits fuel n ≤ k := by
  induction fuel with
  | zero => intro n k _; simp [Float64.bits]
  | succ fuel ih =>
    intro n k h
    unfold Float64.bits
    by_cases hn : n = 0
    · simp [hn]
    · rw [if_neg hn]
      cases k with
      | zero => simp at h; exact absurd h hn
      | succ k =>
        have : n / 2 < 2 ^ k := by
          rw [Nat.pow_succ] at h
          omega
        have := ih (n / 2) k this
        omega

theorem round_small (M E : Int) (hM : M.natAbs < 9007199254740992) (hE : E ≤ 53) :
    Float64.round M E = Float64.normalize 64 M E := by
  have hbits := bits_le M.natAbs M.natAbs 53 (by simpa using hM)
  have hk : Float64.bits M.natAbs M.natAbs - 53 = 0 := by omega
  unfold Float64.round
  simp only [hk, pow_zero, Nat.div_one, Nat.mod_one, Nat.cast_zero, add_zero]
  have hup : (decide (1 < 2 * 0) || (decide (2 * 0 = 1) && decide (M.natAbs % 2 = 1))) = false := by
    simp
  simp only [hup, Bool.false_eq_true, if_false]
  have hover : ¬ (1024 < (Float64.bits M.natAbs M.natAbs : Int) + E) := by omega
  rw [if_neg hover]
  congr 1
  split <;> omega

theorem normalize_fuel (f : Nat) : ∀ (f' : Nat) (m e : Int), m ≠ 0 →
    m.natAbs < 2 ^ f → m.natAbs < 2 ^ f' →
    Float64.normalize f m e = Float64.normalize f' m e := by
  induction f with
  | zero =>
    intro f' m e hm h _
    simp at h
    exact absurd h hm
  | succ f ih =>
    intro f' m e hm h h'
    cases f' with
    | zero =>
      simp at h'
      exact absurd h' hm
    | succ f' =>
      unfold Float64.normalize
      rw [if_neg hm, if_neg hm]
      by_cases heven : m % 2 = 0
      · rw [if_pos heven, if_pos heven]
        apply ih
        · omega
        · rw [Nat.pow_succ] at h
          omega
        · rw [Nat.pow_succ] at h'
          omega
      · rw [if_neg heven, if_neg heven]

theorem normalize_shift (j : Nat) : ∀ (f : Nat) (m e : Int), m ≠ 0 →
    Float64.normalize (f + j) (m * 2 ^ j) e = Float64.normalize f m (e + j) := by
  induction j with
  | zero => intro f m e _; simp
  | succ j ih =>
    intro f m e hm
    have hne : m * 2 ^ (j + 1) ≠ 0 := by positivity
    have heven : m * 2 ^ (j + 1) % 2 = 0 := by
      rw [pow_succ, ← mul_assoc]
      exact Int.mul_emod_left _ _
    have hdiv : m * 2 ^ (j + 1) / 2 = m * 2 ^ j := by
      rw [pow_succ, ← mul_assoc]
      exact Int.mul_ediv_cancel _ (by decide)
    rw [← Nat.add_assoc]
    conv_lhs => unfold Float64.normalize
    rw [if_neg hne, if_pos heven, hdiv, ih f m (e + 1) hm]
    congr 1
    push_cast
    ring

theorem scaled_normalize (f : Nat) : ∀ (m e : Int), 0 ≤ e →
    Float64.scaled 0 (Float64.normalize f m e) = m * 2 ^ e.toNat := by
  induction f with
  | zero => intro m e _; simp [Float64.normalize, Float64.scaled]
  | succ f ih =>
    intro m e he
    unfold Float64.normalize
    by_cases hm : m = 0
    · simp [hm, Float64.scaled]
    · rw [if_neg hm]
      by_cases heven : m % 2 = 0
      · rw [if_pos heven, ih _ _ (by omega)]
        have h1 : (e + 1).toNat = e.toNat + 1 := by omega
        rw [h1, pow_succ]
        have h2 : m = m / 2 * 2 := by omega
        conv_rhs => rw [h2]
        ring
      · rw [if_neg heven]
        simp [Float64.scaled]

theorem normalize_form (f : Nat) : ∀ (m e : Int), 0 ≤ e →
    ∃ m1 e1 : Int, Float64.normalize f m e = Float64.finite m1 e1 ∧ 0 ≤ e1 ∧
      m1 * 2 ^ e1.toNat = m * 2 ^ e.toNat ∧ (m = 0 → e = 0 → e1 = 0) := by
  induction f with
  | zero => intro m e he; exact ⟨m, e, rfl, he, rfl, fun _ h => h⟩
  | succ f ih =>
    intro m e he
    unfold Float64.normalize
    by_cases hm : m = 0
    · exact ⟨0, 0, by simp [hm], le_refl _, by simp [hm], fun _ _ => rfl⟩
    · rw [if_neg hm]
      by_cases heven : m % 2 = 0
      · rw [if_pos heven]
        obtain ⟨m1, e1, h1, h2, h3, -⟩ := ih (m / 2) (e + 1) (by omega)
        refine ⟨m1, e1, h1, h2, ?_, fun h => absurd h hm⟩
        rw [h3]
        have h4 : (e + 1).toNat = e.toNat + 1 := by omega
        rw [h4, pow_succ]
        have h5 : m = m / 2 * 2 := by omega
        conv_rhs => rw [h5]
        ring
      · rw [if_neg heven]
        exact ⟨m, e, rfl, he, rfl, fun h => absurd h hm⟩

theorem ofInt_small (n : Int) (h : n.natAbs < 9007199254740992) :
    Float64.ofInt n = Float64.normalize 64 n 0 :=
  round_small n 0 h (by decide)

theorem exponent_small (m e a : Int) (h : m * 2 ^ e.toNat = a)
    (hzero : a = 0 → e = 0) (ha : a.natAbs < 9007199254740992) : e ≤ 53 := by
  by_cases h0 : a = 0
  · rw [hzero h0]
    decide
  · have hm : m ≠ 0 := by
      rintro rfl
      simp at h
      exact h0 h.symm
    have habs : a.natAbs = m.natAbs * 2 ^ e.toNat := by
      rw [← h, Int.natAbs_mul, Int.natAbs_pow]
      rfl
    have hpos : 1 ≤ m.natAbs := Nat.one_le_iff_ne_zero.mpr (Int.natAbs_ne_zero.mpr hm)
    have hle : 2 ^ e.toNat ≤ a.natAbs := by
      rw [habs]
      exact Nat.le_mul_of_pos_left _ hpos
    have hlt : 2 ^ e.toNat < 2 ^ 53 := lt_of_le_of_lt hle (by simpa using ha)
    have := (Nat.pow_lt_pow_iff_right (by decide : 1 < 2)).mp hlt
    omega

theorem normalize_scale (M : Int) (j : Nat) (hj : j ≤ 53)
    (h : (M * 2 ^ j).natAbs < 9007199254740992) :
    Float64.normalize 64 M j = Float64.normalize 64 (M * 2 ^ j) 0 := by
  by_cases hM : M = 0
  · subst hM
    simp [Float64.normalize]
  · have hsplit : 64 = (64 - j) + j := by omega
    have habs : M.natAbs * 2 ^ j < 2 ^ (53 - j) * 2 ^ j := by
      rw [← Nat.pow_add, Nat.sub_add_cancel hj]
      rw [Int.natAbs_mul, Int.natAbs_pow] at h
      simpa using h
    have hlt : M.natAbs < 2 ^ (53 - j) := Nat.lt_of_mul_lt_mul_right habs
    have h1 : M.natAbs < 2 ^ (64 - j) :=
      lt_of_lt_of_le hlt (Nat.pow_le_pow_right (by decide) (by omega))
    have h2 : M.natAbs < 2 ^ 64 :=
      lt_of_lt_of_le hlt (Nat.pow_le_pow_right (by decide) (by omega))
    conv_rhs => rw [hsplit]
    rw [normalize_shift j (64 - j) M 0 hM, zero_add]
    exact normalize_fuel 64 (64 - j) M j hM h2 h1

theorem add_ofInt (a b : Int) (h : a.natAbs + b.natAbs < 9007199254740992) :
    Float64.add (Float64.ofInt a) (Float64.ofInt b) = Float64.ofInt (a + b) := by
  have hab : (a + b).natAbs < 9007199254740992 := by omega
  rw [ofInt_small a (by omega), ofInt_small b (by omega), ofInt_small (a + b) hab]
  obtain ⟨m1, e1, h1, he1, hv1, hz1⟩ := normalize_form 64 a 0 (le_refl _)
  obtain ⟨m2, e2, h2, he2, hv2, hz2⟩ := normalize_form 64 b 0 (le_refl _)
  simp only [Int.toNat_zero, pow_zero, mul_one] at hv1 hv2
  have hb1 := exponent_small m1 e1 a hv1 (fun h0 => hz1 h0 rfl) (by omega)
  have hb2 := exponent_small m2 e2 b hv2 (fun h0 => hz2 h0 rfl) (by omega)
  rw [h1, h2]
  unfold Float64.add
  simp only
  obtain ⟨j, hj⟩ : ∃ j : Nat, min e1 e2 = (j : Int) := ⟨(min e1 e2).toNat, by omega⟩
  have hj53 : j ≤ 53 := by omega
  have hsum : (m1 * 2 ^ (e1 - min e1 e2).toNat + m2 * 2 ^ (e2 - min e1 e2).toNat) * 2 ^ j
      = a + b := by
    have hp1 : e1.toNat = (e1 - min e1 e2).toNat + j := by omega
    have hp2 : e2.toNat = (e2 - min e1 e2).toNat + j := by omega
    rw [← hv1, ← hv2, hp1, hp2, pow_add, pow_add]
    ring
  generalize m1 * 2 ^ (e1 - min e1 e2).toNat + m2 * 2 ^ (e2 - min e1 e2).toNat = M at hsum
  have hMabs : M.natAbs < 9007199254740992 := by
    have h3 : (M * 2 ^ j).natAbs < 9007199254740992 := by rw [hsum]; exact hab
    rw [Int.natAbs_mul, Int.natAbs_pow] at h3
    have h4 : M.natAbs ≤ M.natAbs * (2 : Int).natAbs ^ j :=
      Nat.le_mul_of_pos_right _ (Nat.pow_pos (by decide))
    omega
  rw [round_small M (min e1 e2) hMabs (by omega), hj,
    normalize_scale M j hj53 (by rw [hsum]; exact hab), hsum]

theorem scaled_ofInt (n : Int) (h : n.natAbs < 9007199254740992) :
    Float64.scaled 0 (Float64.ofInt n) = n := by
  rw [ofInt_small n h]
  have := scaled_normalize 64 n 0 (le_refl _)
  simpa using this

theorem smallInteger_exact :
    ExactSums Float64.smallInteger (Float64.scaled 0) 9007199254740991 := by
  refine ⟨⟨⟨0, by decide, by decide⟩, by decide⟩, ?_, ?_⟩
  · rintro x ⟨a, ha, rfl⟩ y ⟨b, hb, rfl⟩ hbound
    rw [scaled_ofInt a ha, scaled_ofInt b hb] at hbound
    have hadd : Float64.ofInt a + Float64.ofInt b = Float64.ofInt (a + b) :=
      add_ofInt a b (by omega)
    rw [hadd, scaled_ofInt a ha, scaled_ofInt b hb, scaled_ofInt (a + b) (by omega)]
    exact ⟨⟨a + b, by omega, rfl⟩, rfl⟩
  · rintro x ⟨a, ha, rfl⟩ y ⟨b, hb, rfl⟩ hvalue
    rw [scaled_ofInt a ha, scaled_ofInt b hb] at hvalue
    rw [hvalue]

/-! ## C8: ledger closure -/

/-- C8 (as amended): when the float64 additions involved are exact (the
amounts of the SOL legs are values on which `+` is exact, and their magnitudes
add up to no more than the bound up to which it is), the sum of the bought
totals plus the sum of the sold totals over all ledger entries equals the sum,
over the swap records with exactly one SOL leg, of the amount of the SOL leg:
`in.amount` where the in-token is SOL, `out.amount` where the out-token is
SOL. -/
theorem ledger_closure {F : Type} [Zero F] [Add F] (P : F → Prop) (value : F → Int)
    (bound : Nat) (transactions : List (Transaction F))
    (hexact : ExactSums P value bound)
    (hamounts : ∀ tx ∈ transactions, oneSolLeg tx = true → P (solLegAmount tx))
    (hbound : ((transactions.filter oneSolLeg).map
      (fun tx => (value (solLegAmount tx)).natAbs)).sum ≤ bound) :
    sumInOrder ((PrintStatistics transactions).tokenStats.map (fun e => e.2.TotalBoughtSOL)) +
        sumInOrder ((PrintStatistics transactions).tokenStats.map (fun e => e.2.TotalSoldSOL)) =
      sumInOrder ((transactions.filter oneSolLeg).map solLegAmount) := by
  rw [PrintStatistics_tokenStats]
  obtain ⟨hin, hvalue, hweight⟩ := exact_foldl_creditLedger P value bound hexact transactions []
    (by simp) hamounts (by simpa [ledgerWeight] using hbound)
  generalize transactions.foldl creditLedger [] = ledger at hin hvalue hweight
  simp only [ledgerValue, ledgerWeight, List.map_nil, List.sum_nil, zero_add] at hvalue hweight
  rw [List.sum_map_add] at hvalue hweight
  obtain ⟨hpb, hvb⟩ := exact_sumInOrder P value bound hexact
    (ledger.map (fun e => e.2.TotalBoughtSOL))
    (by
      intro a ha
      obtain ⟨e, he, rfl⟩ := List.mem_map.mp ha
      exact (hin e he).1)
    (by
      rw [List.map_map]
      simp only [Function.comp_def]
      omega)
  obtain ⟨hps, hvs⟩ := exact_sumInOrder P value bound hexact
    (ledger.map (fun e => e.2.TotalSoldSOL))
    (by
      intro a ha
      obtain ⟨e, he, rfl⟩ := List.mem_map.mp ha
      exact (hin e he).2)
    (by
      rw [List.map_map]
      simp only [Function.comp_def]
      omega)
  rw [List.map_map] at hvb hvs
  simp only [Function.comp_def] at hvb hvs
  have hb1 := natAbs_sum_le (ledger.map (fun e => value e.2.TotalBoughtSOL))
  have hb2 := natAbs_sum_le (ledger.map (fun e => value e.2.TotalSoldSOL))
  rw [List.map_map] at hb1 hb2
  simp only [Function.comp_def] at hb1 hb2
  obtain ⟨hp, hv⟩ := hexact.add _ hpb _ hps (by rw [hvb, hvs]; omega)
  obtain ⟨hpr, hvr⟩ := exact_sumInOrder P value bound hexact
    ((transactions.filter oneSolLeg).map solLegAmount)
    (by
      intro a ha
      obtain ⟨tx, htx, rfl⟩ := List.mem_map.mp ha
      obtain ⟨hmem, hone⟩ := List.mem_filter.mp htx
      exact hamounts tx hmem hone)
    (by
      rw [List.map_map]
      simpa only [Function.comp_def] using hbound)
  rw [List.map_map] at hvr
  simp only [Function.comp_def] at hvr
  apply hexact.injective _ hp _ hpr
  rw [hv, hvb, hvs, hvr, hvalue]

/-- C8 (witness): in scenario S1 the amounts of the SOL legs, 1.0 and 1.5, are
multiples of 0.5 that add up to 2.5, where float64 addition is exact; the
bought and sold totals add up to 2.5, and so do the amounts of the SOL legs. -/
theorem ledger_closure_witness :
    sumInOrder ((scenarioS1.filter oneSolLeg).map solLegAmount) = .finite 5 (-1) ∧
      sumInOrder ((PrintStatistics scenarioS1).tokenStats.map (fun e => e.2.TotalBoughtSOL)) +
          sumInOrder ((PrintStatistics scenarioS1).tokenStats.map (fun e => e.2.TotalSoldSOL)) =
        sumInOrder ((scenarioS1.filter oneSolLeg).map solLegAmount) :=
  ⟨by decide,
    ledger_closure (fun x => x ∈ halves) (Float64.scaled 1) 6 scenarioS1
      halves_exact (by decide) (by decide)⟩

/-- C8 (counterexamples): first, in scenario S1 the bought and sold totals add
up to 2.5, while the `in.amount` of the two records with exactly one SOL leg
add up to 101. Second, for the swaps SOL 0.3 for AAA, BBB for SOL 0.2 and
SOL 0.1 for AAA the bought and sold totals add up to 0.6000000000000001, while
the amounts of the SOL legs add up to 0.6: the additions round. -/
theorem ledger_closure_fails :
    (sumInOrder ((PrintStatistics scenarioS1).tokenStats.map (fun e => e.2.TotalBoughtSOL)) +
        sumInOrder ((PrintStatistics scenarioS1).tokenStats.map (fun e => e.2.TotalSoldSOL))
        = .finite 5 (-1) ∧
      sumInOrder ((scenarioS1.filter oneSolLeg).map (fun tx => tx.ParsedTranction.TokenIn.Amount))
        = .finite 101 0 ∧
      sumInOrder ((PrintStatistics scenarioS1).tokenStats.map (fun e => e.2.TotalBoughtSOL)) +
        sumInOrder ((PrintStatistics scenarioS1).tokenStats.map (fun e => e.2.TotalSoldSOL))
        ≠ sumInOrder
          ((scenarioS1.filter oneSolLeg).map (fun tx => tx.ParsedTranction.TokenIn.Amount))) ∧
    (sumInOrder ((PrintStatistics roundingSwaps).tokenStats.map (fun e => e.2.TotalBoughtSOL)) +
        sumInOrder ((PrintStatistics roundingSwaps).tokenStats.map (fun e => e.2.TotalSoldSOL))
        = .finite 1351079888211149 (-51) ∧
      sumInOrder ((roundingSwaps.filter oneSolLeg).map solLegAmount)
        = .finite 5404319552844595 (-53) ∧
      sumInOrder ((PrintStatistics roundingSwaps).tokenStats.map (fun e => e.2.TotalBoughtSOL)) +
        sumInOrder ((PrintStatistics roundingSwaps).tokenStats.map (fun e => e.2.TotalSoldSOL))
        ≠ sumInOrder ((roundingSwaps.filter oneSolLeg).map solLegAmount)) := by
  refine ⟨⟨by decide, by decide, by decide⟩, by decide, by decide, by decide⟩

/-! ## C9: permutations -/

theorem wrapInt_add (a x : Int) : wrapInt (wrapInt a + x) = wrapInt (a + x) := by
  unfold wrapInt
  omega

theorem foldl_accumulate_totalTxs {F : Type} [Zero F] [Add F] (txs : List (Transaction F))
    (st : Statistics F) : (txs.foldl accumulate st).totalTxs = st.totalTxs := by
  induction txs generalizing st with
  | nil => rfl
  | cons tx rest ih => rw [List.foldl_cons, ih]; rfl

theorem foldl_accumulate_totalComputeUnits {F : Type} [Zero F] [Add F]
    (txs : List (Transaction F)) (st : Statistics F) (a : Int)
    (hst : st.totalComputeUnits = wrapInt a) :
    (txs.foldl accumulate st).totalComputeUnits =
      wrapInt (a + (txs.map (fun tx => tx.Raw.Meta.ComputeUnitsConsumed)).sum) := by
  induction txs generalizing st a with
  | nil => simpa using hst
  | cons tx rest ih =>
    rw [List.foldl_cons, ih (accumulate st tx) (a + tx.Raw.Meta.ComputeUnitsConsumed)]
    · simp [add_assoc]
    · show wrapInt (st.totalComputeUnits + tx.Raw.Meta.ComputeUnitsConsumed) = _
      rw [hst, wrapInt_add]

theorem isEmpty_of_perm {α : Type} {l₁ l₂ : List α} (h : l₁.Perm l₂) :
    l₁.isEmpty = l₂.isEmpty := by
  cases l₁ with
  | nil => rw [List.nil_perm.mp h]
  | cons a l =>
    cases l₂ with
    | nil => exact absurd (List.perm_nil.mp h) (by simp)
    | cons b l' => rfl

theorem exact_hzero {F : Type} [Zero F] [Add F] (P : F → Prop) (value : F → Int)
    (bound : Nat) (hexact : ExactSums P value bound) (txs : List (Transaction F))
    (hamounts : ∀ tx ∈ txs, oneSolLeg tx = true → P (solLegAmount tx))
    (hbound : ((txs.filter oneSolLeg).map
      (fun tx => (value (solLegAmount tx)).natAbs)).sum ≤ bound) :
    ∀ tx ∈ txs,
      (tx.ParsedTranction.TokenIn.Symbol = "SOL" ∧ tx.ParsedTranction.TokenOut.Symbol ≠ "SOL" →
        0 + tx.ParsedTranction.TokenIn.Amount = tx.ParsedTranction.TokenIn.Amount) ∧
      (tx.ParsedTranction.TokenIn.Symbol ≠ "SOL" ∧ tx.ParsedTranction.TokenOut.Symbol = "SOL" →
        0 + tx.ParsedTranction.TokenOut.Amount = tx.ParsedTranction.TokenOut.Amount) := by
  intro tx htx
  have hle : ∀ h : oneSolLeg tx = true, (value (solLegAmount tx)).natAbs ≤ bound := by
    intro h
    have := weight_mem_le (txs.filter oneSolLeg) (fun tx => (value (solLegAmount tx)).natAbs) tx
      (List.mem_filter.mpr ⟨htx, h⟩)
    simp only at this
    omega
  constructor
  · intro hbuy
    obtain ⟨hone, hamount⟩ := solLegAmount_buy tx hbuy
    rw [← hamount]
    exact exact_zero_add P value bound hexact _ (hamounts tx htx hone) (hle hone)
  · intro hsell
    obtain ⟨hone, hamount⟩ := solLegAmount_sell tx hsell
    rw [← hamount]
    exact exact_zero_add P value bound hexact _ (hamounts tx htx hone) (hle hone)

theorem exact_buys_perm {F : Type} [Zero F] [Add F] (P : F → Prop) (value : F → Int)
    (bound : Nat) (hexact : ExactSums P value bound) (xs ys : List (Transaction F))
    (hperm : xs.Perm ys)
    (hamounts : ∀ tx ∈ xs, oneSolLeg tx = true → P (solLegAmount tx))
    (hbound : ((xs.filter oneSolLeg).map
      (fun tx => (value (solLegAmount tx)).natAbs)).sum ≤ bound) (s : String) :
    sumInOrder ((buysOf s xs).map (fun tx => tx.ParsedTranction.TokenIn.Amount)) =
      sumInOrder ((buysOf s ys).map (fun tx => tx.ParsedTranction.TokenIn.Amount)) := by
  have hbuy : ∀ tx ∈ buysOf s xs, tx ∈ xs ∧ oneSolLeg tx = true ∧
      solLegAmount tx = tx.ParsedTranction.TokenIn.Amount := by
    intro tx htx
    obtain ⟨hmem, hp⟩ := List.mem_filter.mp htx
    simp only [decide_eq_true_eq] at hp
    have h := solLegAmount_buy tx ⟨hp.1, fun e => hp.2.2 (hp.2.1 ▸ e)⟩
    exact ⟨hmem, h.1, h.2⟩
  apply exact_sumInOrder_perm P value bound hexact _ _ ((hperm.filter _).map _)
  · intro a ha
    obtain ⟨tx, htx, rfl⟩ := List.mem_map.mp ha
    obtain ⟨hmem, hone, hamount⟩ := hbuy tx htx
    rw [← hamount]
    exact hamounts tx hmem hone
  · rw [List.map_map]
    refine le_trans ?_ hbound
    apply weight_filter_le
    intro tx htx hp
    simp only [decide_eq_true_eq] at hp
    have h := solLegAmount_buy tx ⟨hp.1, fun e => hp.2.2 (hp.2.1 ▸ e)⟩
    exact ⟨h.1, by simp [h.2]⟩

theorem exact_sells_perm {F : Type} [Zero F] [Add F] (P : F → Prop) (value : F → Int)
    (bound : Nat) (hexact : ExactSums P value bound) (xs ys : List (Transaction F))
    (hperm : xs.Perm ys)
    (hamounts : ∀ tx ∈ xs, oneSolLeg tx = true → P (solLegAmount tx))
    (hbound : ((xs.filter oneSolLeg).map
      (fun tx => (value (solLegAmount tx)).natAbs)).sum ≤ bound) (s : String) :
    sumInOrder ((sellsOf s xs).map (fun tx => tx.ParsedTranction.TokenOut.Amount)) =
      sumInOrder ((sellsOf s ys).map (fun tx => tx.ParsedTranction.TokenOut.Amount)) := by
  have hsell : ∀ tx ∈ sellsOf s xs, tx ∈ xs ∧ oneSolLeg tx = true ∧
      solLegAmount tx = tx.ParsedTranction.TokenOut.Amount := by
    intro tx htx
    obtain ⟨hmem, hp⟩ := List.mem_filter.mp htx
    simp only [decide_eq_true_eq] at hp
    have h := solLegAmount_sell tx ⟨fun e => hp.2.2 (hp.2.1 ▸ e), hp.1⟩
    exact ⟨hmem, h.1, h.2⟩
  apply exact_sumInOrder_perm P value bound hexact _ _ ((hperm.filter _).map _)
  · intro a ha
    obtain ⟨tx, htx, rfl⟩ := List.mem_map.mp ha
    obtain ⟨hmem, hone, hamount⟩ := hsell tx htx
    rw [← hamount]
    exact hamounts tx hmem hone
  · rw [List.map_map]
    refine le_trans ?_ hbound
    apply weight_filter_le
    intro tx htx hp
    simp only [decide_eq_true_eq] at hp
    have h := solLegAmount_sell tx ⟨fun e => hp.2.2 (hp.2.1 ▸ e), hp.1⟩
    exact ⟨h.1, by simp [h.2]⟩

/-- C9 (as amended): for every sequence of records and every permutation of
it, the aggregation yields the same `total_txs`, the same `total_compute_units`
and a ledger with the same symbols; when the float64 additions of the fees are
exact it yields the same `total_fee`, and when those of the amounts of the SOL
legs are exact it yields the same bought and sold totals per symbol (exact: the
values are ones on which `+` is exact, and their magnitudes add up to no more
than the bound up to which it is). -/
theorem aggregation_permutation :
    (∀ (G : Type) [Zero G] [Add G] (xs ys : List (Transaction G)), xs.Perm ys →
        (PrintStatistics xs).totalTxs = (PrintStatistics ys).totalTxs ∧
        (PrintStatistics xs).totalComputeUnits = (PrintStatistics ys).totalComputeUnits ∧
        ∀ s, (ledgerEntry (PrintStatistics xs).tokenStats s).isSome =
          (ledgerEntry (PrintStatistics ys).tokenStats s).isSome) ∧
      (∀ (F : Type) [Zero F] [Add F] (P : F → Prop) (value : F → Int) (bound : Nat)
          (xs ys : List (Transaction F)), ExactSums P value bound → xs.Perm ys →
        (∀ tx ∈ xs, P tx.Raw.Meta.Fee) →
        (xs.map (fun tx => (value tx.Raw.Meta.Fee).natAbs)).sum ≤ bound →
        (PrintStatistics xs).totalFee = (PrintStatistics ys).totalFee) ∧
      (∀ (F : Type) [Zero F] [Add F] (P : F → Prop) (value : F → Int) (bound : Nat)
          (xs ys : List (Transaction F)), ExactSums P value bound → xs.Perm ys →
        (∀ tx ∈ xs, oneSolLeg tx = true → P (solLegAmount tx)) →
        ((xs.filter oneSolLeg).map (fun tx => (value (solLegAmount tx)).natAbs)).sum ≤ bound →
        ∀ s, ledgerEntry (PrintStatistics xs).tokenStats s =
          ledgerEntry (PrintStatistics ys).tokenStats s) := by
  refine ⟨?_, ?_, ?_⟩
  · intro G _ _ xs ys hperm
    refine ⟨?_, ?_, ?_⟩
    · unfold PrintStatistics
      rw [foldl_accumulate_totalTxs, foldl_accumulate_totalTxs, hperm.length_eq]
    · unfold PrintStatistics
      rw [foldl_accumulate_totalComputeUnits xs _ 0 rfl,
        foldl_accumulate_totalComputeUnits ys _ 0 rfl,
        (hperm.map (fun tx => tx.Raw.Meta.ComputeUnitsConsumed)).sum_eq]
    · intro s
      rw [PrintStatistics_tokenStats, PrintStatistics_tokenStats, ledgerEntry_isSome_foldl,
        ledgerEntry_isSome_foldl]
      unfold buysOf sellsOf
      rw [isEmpty_of_perm (hperm.filter _), isEmpty_of_perm (hperm.filter _)]
  · intro F _ _ P value bound xs ys hexact hperm hfees hbound
    unfold PrintStatistics
    rw [foldl_accumulate_fees, foldl_accumulate_fees]
    apply exact_sumInOrder_perm P value bound hexact _ _ (hperm.map _)
    · intro a ha
      obtain ⟨tx, htx, rfl⟩ := List.mem_map.mp ha
      exact hfees tx htx
    · rw [List.map_map]
      exact hbound
  · intro F _ _ P value bound xs ys hexact hperm hamounts hbound s
    have hamounts2 : ∀ tx ∈ ys, oneSolLeg tx = true → P (solLegAmount tx) :=
      fun tx htx => hamounts tx (hperm.mem_iff.mpr htx)
    have hbound2 : ((ys.filter oneSolLeg).map
        (fun tx => (value (solLegAmount tx)).natAbs)).sum ≤ bound := by
      rw [← ((hperm.filter oneSolLeg).map
        (fun tx => (value (solLegAmount tx)).natAbs)).sum_eq]
      exact hbound
    rw [PrintStatistics_tokenStats, PrintStatistics_tokenStats,
      ledgerEntry_foldl xs (exact_hzero P value bound hexact xs hamounts hbound),
      ledgerEntry_foldl ys (exact_hzero P value bound hexact ys hamounts2 hbound2),
      exact_buys_perm P value bound hexact xs ys hperm hamounts hbound s,
      exact_sells_perm P value bound hexact xs ys hperm hamounts hbound s]
    unfold buysOf sellsOf
    rw [isEmpty_of_perm (hperm.filter _), isEmpty_of_perm (hperm.filter _)]

/-- C9 (witness): three swaps with the fees 5000, 10000 and 5000, the compute
units 1000, 2000 and 500 and the SOL amounts 1.0, 1.5 and 0.5, against the same
swaps in the opposite order: 3 records, compute units 3500, `total_fee` 20000
and the ledger entry FOO with bought 1.5 and sold 1.5 in both orders. -/
theorem aggregation_permutation_witness :
    exactSwaps.Perm exactSwapsReversed ∧
      ((PrintStatistics exactSwaps).totalTxs = 3 ∧
        (PrintStatistics exactSwaps).totalComputeUnits = 3500 ∧
        (PrintStatistics exactSwaps).totalFee = .finite 625 5 ∧
        ledgerEntry (PrintStatistics exactSwaps).tokenStats "FOO"
          = some ⟨.finite 3 (-1), .finite 3 (-1)⟩) ∧
      ((PrintStatistics exactSwaps).totalTxs = (PrintStatistics exactSwapsReversed).totalTxs ∧
        (PrintStatistics exactSwaps).totalComputeUnits
          = (PrintStatistics exactSwapsReversed).totalComputeUnits ∧
        ∀ s, (ledgerEntry (PrintStatistics exactSwaps).tokenStats s).isSome =
          (ledgerEntry (PrintStatistics exactSwapsReversed).tokenStats s).isSome) ∧
      (PrintStatistics exactSwaps).totalFee = (PrintStatistics exactSwapsReversed).totalFee ∧
      (∀ s, ledgerEntry (PrintStatistics exactSwaps).tokenStats s =
        ledgerEntry (PrintStatistics exactSwapsReversed).tokenStats s) :=
  ⟨by decide, ⟨by decide, by decide, by decide, by decide⟩,
    aggregation_permutation.1 Float64 exactSwaps exactSwapsReversed (by decide),
    aggregation_permutation.2.1 Float64 Float64.smallInteger (Float64.scaled 0)
      9007199254740991 exactSwaps exactSwapsReversed smallInteger_exact (by decide)
      (by
        intro tx htx
        simp only [exactSwaps, List.mem_cons, List.mem_singleton, List.not_mem_nil,
          or_false] at htx
        rcases htx with rfl | rfl | rfl
        · exact ⟨5000, by decide, by decide⟩
        · exact ⟨10000, by decide, by decide⟩
        · exact ⟨5000, by decide, by decide⟩)
      (by decide),
    aggregation_permutation.2.2 Float64 (fun x => x ∈ halves) (Float64.scaled 1) 6
      exactSwaps exactSwapsReversed halves_exact (by decide) (by decide) (by decide)⟩

/-- C9 (counterexample): three records with the fees 0.1, 0.2, 0.3 give
`total_fee` 0.6000000000000001 in this order and 0.6 in the opposite order. -/
theorem total_fee_depends_on_order :
    feesAscending.Perm feesDescending ∧
      (PrintStatistics feesAscending).totalFee = .finite 1351079888211149 (-51) ∧
      (PrintStatistics feesDescending).totalFee = .finite 5404319552844595 (-53) ∧
      (PrintStatistics feesAscending).totalFee ≠ (PrintStatistics feesDescending).totalFee := by
  refine ⟨by decide, by decide, by decide, by decide⟩

/-! ## C15, C18, C19: the normalizer -/

/-- C15: `ParseTransaction` is a total function: on every envelope it returns a
record, whose signature is the first element of `signatures` when that list is
non-empty and "N/A" when it is empty, whose memo is "N/A" when there are no
instructions, and whose in-token and out-token are the empty `Token` when there
are no actions. -/
theorem ParseTransaction_defaults {F : Type} [Zero F] [Float64Format F] (tx : Transaction F) :
    (∀ s rest, tx.Signatures = s :: rest → (ParseTransaction tx).ParsedTranction.Signature = s) ∧
      (tx.Signatures = [] → (ParseTransaction tx).ParsedTranction.Signature = "N/A") ∧
      (tx.Raw.Transaction.Message.Instructions = [] →
        (ParseTransaction tx).ParsedTranction.Memo = "N/A") ∧
      (tx.Actions = [] →
        (ParseTransaction tx).ParsedTranction.TokenIn = Token.empty F ∧
          (ParseTransaction tx).ParsedTranction.TokenOut = Token.empty F) := by
  refine ⟨?_, ?_, ?_, ?_⟩
  · intro s rest h
    simp [ParseTransaction, h]
  · intro h
    simp [ParseTransaction, h]
  · intro h
    simp [ParseTransaction, h, memoLoop]
  · intro h
    simp [ParseTransaction, h]

/-- C15 (witness): an envelope with an empty signatures list, no actions and no
instructions is normalized to the defaults, and one with signatures to its
first signature. -/
theorem ParseTransaction_defaults_witness :
    ((ParseTransaction (envelope [] 100 "Success" : Transaction Float64)).ParsedTranction.Signature
        = "N/A" ∧
      (ParseTransaction (envelope [] 100 "Success" : Transaction Float64)).ParsedTranction.Memo
        = "N/A" ∧
      ((ParseTransaction (envelope [] 100 "Success" : Transaction Float64)).ParsedTranction.TokenIn
          = Token.empty Float64 ∧
        (ParseTransaction (envelope [] 100 "Success" : Transaction Float64)).ParsedTranction.TokenOut
          = Token.empty Float64)) ∧
      (ParseTransaction
        (envelope ["first", "second"] 100 "Success" : Transaction Float64)).ParsedTranction.Signature
        = "first" :=
  ⟨⟨(ParseTransaction_defaults (envelope [] 100 "Success" : Transaction Float64)).2.1 rfl,
      (ParseTransaction_defaults (envelope [] 100 "Success" : Transaction Float64)).2.2.1 rfl,
      (ParseTransaction_defaults (envelope [] 100 "Success" : Transaction Float64)).2.2.2 rfl⟩,
    (ParseTransaction_defaults
      (envelope ["first", "second"] 100 "Success" : Transaction Float64)).1 "first" ["second"] rfl⟩

/-- C18: `ParseTransaction` is idempotent, and its result does not depend on the
`parsed_transaction` field of its input: replacing that field by any other
value gives the same result. -/
theorem ParseTransaction_idempotent {F : Type} [Zero F] [Float64Format F] (tx : Transaction F) :
    ParseTransaction (ParseTransaction tx) = ParseTransaction tx ∧
      ∀ parsed : ParsedTranction F,
        ParseTransaction { tx with ParsedTranction := parsed } = ParseTransaction tx :=
  ⟨rfl, fun _ => rfl⟩

/-- C19: `ParseTransaction` changes the parsed record only: every other field of
the returned transaction is the field of the input, and the status of the
parsed record is the status of the input. -/
theorem ParseTransaction_frame {F : Type} [Zero F] [Float64Format F] (tx : Transaction F) :
    (ParseTransaction tx).Timestamp = tx.Timestamp ∧
      (ParseTransaction tx).Fee = tx.Fee ∧
      (ParseTransaction tx).FeePayer = tx.FeePayer ∧
      (ParseTransaction tx).Signers = tx.Signers ∧
      (ParseTransaction tx).Signatures = tx.Signatures ∧
      (ParseTransaction tx).Protocol = tx.Protocol ∧
      (ParseTransaction tx).Type_ = tx.Type_ ∧
      (ParseTransaction tx).Status = tx.Status ∧
      (ParseTransaction tx).Actions = tx.Actions ∧
      (ParseTransaction tx).Events = tx.Events ∧
      (ParseTransaction tx).Raw = tx.Raw ∧
      (ParseTransaction tx).ParsedTranction.Status = tx.Status ∧
      ParseTransaction tx =
        { tx with ParsedTranction := (ParseTransaction tx).ParsedTranction } := by
  unfold ParseTransaction
  exact ⟨rfl, rfl, rfl, rfl, rfl, rfl, rfl, rfl, rfl, rfl, rfl, rfl, rfl⟩

/-! ## C16: cursor extraction -/

/-- C16 (the code at the failing inputs): reading `Signatures[0]` of an anchor
envelope without signatures panics in `getLatestTransactionSignature`, and
reading `Signatures[0]` of the last envelope of a batch panics in the pager loop
when that envelope has no signatures. -/
theorem cursor_extraction_panics :
    (Option.map (fun run => run.result)
        (FetchAndParseTransactions 5 unsignedAnchorTransport "url" "net" "acct" 500000000000))
      = some (.panic "index out of range [0] with length 0") ∧
    (Option.map (fun run => run.result)
        (FetchAndParseTransactions 5 unsignedBatchTransport "url" "net" "acct" 500000000000))
      = some (.panic "index out of range [0] with length 0") := by
  refine ⟨by decide, by decide⟩

/-! ## C11: cursors -/

theorem pagerLoop_cursors {F : Type} [Zero F] [Float64Format F] (transport : Transport F)
    (apiURL network account : String) (startTime endTime : time.Time) :
    ∀ (fuel apiCalls : Nat) (cursor : String) (acc : List (Transaction F))
      (calls : List (Request × HttpResult F)) (run : Run F),
      pagerLoop transport apiURL network account startTime endTime fuel apiCalls cursor acc calls
        = some run →
      ∃ more : List (Request × HttpResult F), run.calls = calls ++ more ∧
        more.map (fun call => call.1.before_tx_signature) =
          some cursor ::
            (more.dropLast.filterMap (fun call => (batchOf call.2).getLast?)).map
              (fun tx => tx.Signatures.head?) := by
  intro fuel
  induction fuel with
  | zero => intro _ _ _ _ _ h; simp [pagerLoop] at h
  | succ fuel ih =>
    intro apiCalls cursor acc calls run h
    unfold pagerLoop at h
    simp only at h
    split at h
    · simp at h; subst h; exact ⟨[(_, _)], rfl, by simp⟩
    · rename_i StatusCode Body hans
      split at h
      · simp at h; subst h; exact ⟨[(_, _)], rfl, by simp⟩
      · split at h
        · simp at h; subst h; exact ⟨[(_, _)], rfl, by simp⟩
        · rename_i data
          split at h
          · simp at h; subst h; exact ⟨[(_, _)], rfl, by simp⟩
          · split at h
            · split at h
              · rename_i signature rest hsig
                obtain ⟨more, hc, hm⟩ := ih _ _ _ _ _ h
                have hne : more ≠ [] := by
                  intro e
                  rw [e] at hm
                  simp at hm
                cases hl : data.Result.getLast? with
                | none => rw [hl] at hsig; simp at hsig
                | some last =>
                  rw [hl] at hsig
                  simp only [Option.map_some', Option.getD_some] at hsig
                  refine ⟨(_, _) :: more, by simpa using hc, ?_⟩
                  rw [List.dropLast_cons_of_ne_nil hne, List.map_cons, hm]
                  simp [hans, batchOf, hl, hsig]
              · simp at h; subst h; exact ⟨[(_, _)], rfl, by simp⟩
            · simp at h; subst h; exact ⟨[(_, _)], rfl, by simp⟩

theorem FetchAndParseTransactions_calls {F : Type} [Zero F] [Float64Format F] (fuel : Nat)
    (transport : Transport F) (apiURL network account : String) (timeDelta : Int)
    (signature : String) (blockTime : Int) (run : Run F)
    (hanchor : (getLatestTransactionSignature transport apiURL network account).1
      = .ok (signature, blockTime))
    (hrun : FetchAndParseTransactions fuel transport apiURL network account timeDelta = some run) :
    ∃ inner : Run F,
      pagerLoop transport apiURL network account
        (if timeDelta = 0 then time.Time.zero else (time.Unix blockTime 0).Add (-timeDelta))
        (time.Unix blockTime 0) fuel 0 signature []
        [(⟨apiURL, network, account, 1, none⟩, transport 0 ⟨apiURL, network, account, 1, none⟩)]
        = some inner ∧
      run.calls = inner.calls ∧
      ∀ acc, inner.result = .ok acc → run.result = .ok acc.reverse := by
  unfold FetchAndParseTransactions at hrun
  have hcalls := getLatestTransactionSignature_calls transport apiURL network account
  generalize getLatestTransactionSignature transport apiURL network account = g at hrun hanchor hcalls
  obtain ⟨out, calls⟩ := g
  simp only at hanchor hcalls
  subst hanchor
  subst hcalls
  simp only at hrun
  split at hrun
  · simp at hrun
  · rename_i inner hinner
    refine ⟨inner, hinner, ?_, ?_⟩
    · split at hrun <;> (simp at hrun; subst hrun; rfl)
    · intro acc hacc
      rw [hacc] at hrun
      simp at hrun
      subst hrun
      rfl

theorem getLast_sublist_flatten {F : Type} (calls : List (Request × HttpResult F)) :
    (calls.filterMap (fun call => (batchOf call.2).getLast?)).Sublist
      (calls.map (fun call => batchOf call.2)).flatten := by
  induction calls with
  | nil => simp
  | cons call rest ih =>
    rw [List.filterMap_cons, List.map_cons, List.flatten_cons]
    cases hl : (batchOf call.2).getLast? with
    | none => exact ih.trans (List.sublist_append_right _ _)
    | some last =>
      have hmem : last ∈ batchOf call.2 := List.mem_of_getLast?_eq_some hl
      have h1 : [last].Sublist (batchOf call.2) := List.singleton_sublist.mpr hmem
      exact h1.append ih

/-- C11 (as amended): in every finished run, the cursor values passed to the
transport are the anchor's first signature and then, for every batch received
except that of the final call, the first signature of its last envelope. When
the batches received are newest-first and not newer than the anchor, the block
times of these envelopes are non-increasing from the anchor's on: each cursor
belongs to a transaction that is as old as or older than the one of the cursor
before. -/
theorem cursor_chain {F : Type} [Zero F] [Float64Format F] (fuel : Nat)
    (transport : Transport F) (apiURL network account : String) (timeDelta : Int)
    (signature : String) (blockTime : Int) (run : Run F)
    (hanchor : (getLatestTransactionSignature transport apiURL network account).1
      = .ok (signature, blockTime))
    (hrun : FetchAndParseTransactions fuel transport apiURL network account timeDelta = some run) :
    cursorsUsed run =
        some signature :: (cursorEnvelopes run).map (fun tx => tx.Signatures.head?) ∧
      ((blockTime :: (fetchedBatches run).flatten.map (fun tx => tx.Raw.BlockTime)).Pairwise
          (fun a b => b ≤ a) →
        (blockTime :: (cursorEnvelopes run).map (fun tx => tx.Raw.BlockTime)).Pairwise
          (fun a b => b ≤ a)) := by
  obtain ⟨inner, hloop, hcalls, -⟩ :=
    FetchAndParseTransactions_calls fuel transport apiURL network account timeDelta signature
      blockTime run hanchor hrun
  obtain ⟨more, hc, hm⟩ := pagerLoop_cursors _ _ _ _ _ _ _ _ _ _ _ _ hloop
  have htail : run.calls.tail = more := by rw [hcalls, hc]; rfl
  constructor
  · unfold cursorsUsed cursorEnvelopes
    rw [htail, hm]
  · intro hsorted
    unfold cursorEnvelopes
    unfold fetchedBatches at hsorted
    rw [htail] at hsorted ⊢
    refine hsorted.sublist (List.Sublist.cons₂ _ (List.Sublist.map _ ?_))
    exact ((List.dropLast_sublist more).filterMap _).trans (getLast_sublist_flatten more)

/-- C11 (witness): the amended property at scenario S2 run without a lower
bound (`Δ = 0`): the cursors are the anchor's signature and the signature of
the last envelope of the batch. -/
theorem cursor_chain_witness :
    ∃ run : Run Float64,
      FetchAndParseTransactions 5 scenarioS2 "url" "net" "acct" 0 = some run ∧
      cursorsUsed run = [some "s1000", some "s300"] ∧
      (((1000 : Int) :: (fetchedBatches run).flatten.map (fun tx => tx.Raw.BlockTime)).Pairwise
          (fun a b => b ≤ a) ∧
        ((1000 : Int) :: (cursorEnvelopes run).map (fun tx => tx.Raw.BlockTime)).Pairwise
          (fun a b => b ≤ a)) :=
  ⟨_, rfl, by decide, by decide,
    (cursor_chain 5 scenarioS2 "url" "net" "acct" 0 "s1000" 1000 _ (by decide) rfl).2
      (by decide)⟩

/-- C11 (counterexample): a server that answers two successive paged calls with
the same batch makes the pager pass the cursor "s900" twice, and two batches
ending in the same second give two successive cursors whose transactions have
the same block time; in both runs the pager goes on fetching. -/
theorem cursor_repeats :
    (Option.map cursorsUsed
        (FetchAndParseTransactions 5 repeatingTransport "url" "net" "acct" 500000000000))
      = some [some "s1000", some "s900", some "s900"] ∧
    (Option.map cursorsUsed
        (FetchAndParseTransactions 5 sameSecondTransport "url" "net" "acct" 500000000000))
      = some [some "s1000", some "b", some "d"] ∧
    (Option.map (fun run => (cursorEnvelopes run).map (fun tx => tx.Raw.BlockTime))
        (FetchAndParseTransactions 5 sameSecondTransport "url" "net" "acct" 500000000000))
      = some [900, 900] := by
  refine ⟨by decide, by decide, by decide⟩

/-! ## C12: unbounded window -/

theorem processBatch_unbounded {F : Type} [Zero F] [Float64Format F] (endTime : time.Time)
    (batch acc : List (Transaction F)) :
    processBatch time.Time.zero endTime batch acc =
      (true, acc ++ (batch.filter
        (fun tx => !(time.Unix tx.Raw.BlockTime 0).After endTime)).map ParseTransaction) := by
  induction batch generalizing acc with
  | nil => simp [processBatch]
  | cons tx rest ih =>
    unfold processBatch
    have hz : (!time.Time.zero.IsZero && (time.Unix tx.Raw.BlockTime 0).Before time.Time.zero)
        = false := by
      simp [time.Time.IsZero, time.Time.zero]
    simp only [hz, Bool.false_eq_true, if_false]
    by_cases h2 : (time.Unix tx.Raw.BlockTime 0).After endTime = true
    · rw [if_pos h2, ih]
      simp [List.filter, h2]
    · rw [if_neg h2, ih]
      simp [List.filter, h2]

theorem pagerLoop_unbounded {F : Type} [Zero F] [Float64Format F] (transport : Transport F)
    (apiURL network account : String) (endTime : time.Time) :
    ∀ (batches : List (List (Transaction F))) (fuel apiCalls : Nat) (cursor : String)
      (acc : List (Transaction F)) (calls : List (Request × HttpResult F)),
      batches.length < fuel →
      (∀ (i : Nat) (h : i < batches.length) (req : Request), ∃ success message,
        transport (apiCalls + 1 + i) req = .response 200 (.value ⟨success, message, batches[i]⟩)) →
      (∀ req : Request, ∃ success message,
        transport (apiCalls + 1 + batches.length) req
          = .response 200 (.value ⟨success, message, []⟩)) →
      (∀ batch ∈ batches, ∃ last, batch.getLast? = some last ∧ last.Signatures ≠ []) →
      ∃ run : Run F,
        pagerLoop transport apiURL network account time.Time.zero endTime fuel apiCalls cursor
          acc calls = some run ∧
        run.result = .ok (acc ++ (batches.flatten.filter
          (fun tx => !(time.Unix tx.Raw.BlockTime 0).After endTime)).map ParseTransaction) ∧
        ∃ more, run.calls = calls ++ more ∧
          more.map (fun call => batchOf call.2) = batches ++ [[]] := by
  intro batches
  induction batches with
  | nil =>
    intro fuel apiCalls cursor acc calls hfuel _ hend _
    obtain ⟨fuel, rfl⟩ : ∃ k, fuel = k + 1 := ⟨fuel - 1, by simp at hfuel; omega⟩
    obtain ⟨success, message, hans⟩ := hend ⟨apiURL, network, account, 100, some cursor⟩
    simp only [List.length_nil, Nat.add_zero] at hans
    refine ⟨⟨.ok acc, calls ++ [(⟨apiURL, network, account, 100, some cursor⟩,
      .response 200 (.value ⟨success, message, []⟩))]⟩, ?_, ?_, ?_⟩
    · unfold pagerLoop
      simp only [hans]
      rfl
    · simp
    · exact ⟨[(_, _)], rfl, by simp [batchOf]⟩
  | cons batch rest ih =>
    intro fuel apiCalls cursor acc calls hfuel hstream hend hsig
    obtain ⟨fuel, rfl⟩ : ∃ k, fuel = k + 1 := ⟨fuel - 1, by simp at hfuel; omega⟩
    obtain ⟨success, message, hans⟩ :=
      hstream 0 (by simp) ⟨apiURL, network, account, 100, some cursor⟩
    simp only [Nat.add_zero, List.getElem_cons_zero] at hans
    obtain ⟨last, hlast, hne⟩ := hsig batch (List.mem_cons_self _ _)
    obtain ⟨signature, sigs, hsigs⟩ : ∃ s r, last.Signatures = s :: r := by
      cases hs : last.Signatures with
      | nil => exact absurd hs hne
      | cons s r => exact ⟨s, r, rfl⟩
    have hlen : ¬ batch.length = 0 := by
      intro e
      rw [List.length_eq_zero.mp e] at hlast
      simp at hlast
    obtain ⟨run, hrun, hres, more, hcalls, hmore⟩ :=
      ih fuel (apiCalls + 1) signature
        (acc ++ (batch.filter
          (fun tx => !(time.Unix tx.Raw.BlockTime 0).After endTime)).map ParseTransaction)
        (calls ++ [(⟨apiURL, network, account, 100, some cursor⟩,
          .response 200 (.value ⟨success, message, batch⟩))])
        (by simp at hfuel; omega)
        (by
          intro i h req
          obtain ⟨s, m, hh⟩ := hstream (i + 1) (by simp; omega) req
          refine ⟨s, m, ?_⟩
          have e : apiCalls + 1 + 1 + i = apiCalls + 1 + (i + 1) := by omega
          rw [e, hh]
          simp)
        (by
          intro req
          obtain ⟨s, m, hh⟩ := hend req
          refine ⟨s, m, ?_⟩
          have e : apiCalls + 1 + 1 + rest.length = apiCalls + 1 + (batch :: rest).length := by
            simp; omega
          rw [e, hh])
        (fun b hb => hsig b (List.mem_cons_of_mem _ hb))
    refine ⟨run, ?_, ?_, ?_⟩
    · rw [← hrun]
      conv_lhs => unfold pagerLoop
      simp only [hans, processBatch_unbounded, hlast]
      simp [hlen, Nat.pos_of_ne_zero hlen, hsigs]
    · rw [hres]
      simp [List.filter_append]
    · refine ⟨(_, _) :: more, by simpa using hcalls, ?_⟩
      rw [List.map_cons, hmore]
      simp [batchOf]

theorem filter_not_after {F : Type} (blockTime : Int) (txs : List (Transaction F))
    (hblockTime : time.unixInRange blockTime)
    (hrange : ∀ tx ∈ txs, time.unixInRange tx.Raw.BlockTime) :
    txs.filter (fun tx => !(time.Unix tx.Raw.BlockTime 0).After (time.Unix blockTime 0)) =
      txs.filter (fun tx => decide (tx.Raw.BlockTime ≤ blockTime)) := by
  apply List.filter_congr
  intro tx htx
  rw [After_inRange _ _ (hrange tx htx) hblockTime]
  by_cases h : tx.Raw.BlockTime ≤ blockTime
  · simp [h]
  · simp [h]
    omega

/-- C12 (as amended): for `Δ = 0` and every stream of `n` non-empty batches
followed by an empty batch, in which the last envelope of each batch has a
signature and the block times of the anchor and of every transaction are ones
that `time.Unix` does not wrap around (at most `9223371974719179007`), the
fetch with enough fuel terminates on the empty batch after exactly `n + 1`
paged calls and returns, in the reverse of the order received, every
transaction of the `n` batches whose block time is not after the anchor's:
none is dropped for being too old, and all are returned when none is newer
than the anchor. -/
theorem unbounded_window {F : Type} [Zero F] [Float64Format F] (fuel : Nat)
    (transport : Transport F) (apiURL network account : String)
    (signature : String) (blockTime : Int) (batches : List (List (Transaction F)))
    (hanchor : (getLatestTransactionSignature transport apiURL network account).1
      = .ok (signature, blockTime))
    (hblockTime : time.unixInRange blockTime)
    (hrange : ∀ tx ∈ batches.flatten, time.unixInRange tx.Raw.BlockTime)
    (hfuel : batches.length < fuel)
    (hstream : ∀ (i : Nat) (h : i < batches.length) (req : Request), ∃ success message,
      transport (i + 1) req = .response 200 (.value ⟨success, message, batches[i]⟩))
    (hend : ∀ req : Request, ∃ success message,
      transport (batches.length + 1) req = .response 200 (.value ⟨success, message, []⟩))
    (hsig : ∀ batch ∈ batches, ∃ last, batch.getLast? = some last ∧ last.Signatures ≠ []) :
    ∃ run : Run F,
      FetchAndParseTransactions fuel transport apiURL network account 0 = some run ∧
      fetchedBatches run = batches ++ [[]] ∧
      run.calls.length = batches.length + 2 ∧
      run.result = .ok
        ((batches.flatten.filter
          (fun tx => decide (tx.Raw.BlockTime ≤ blockTime))).map ParseTransaction).reverse ∧
      ((∀ tx ∈ batches.flatten, tx.Raw.BlockTime ≤ blockTime) →
        run.result = .ok (batches.flatten.map ParseTransaction).reverse) := by
  obtain ⟨inner, hloop, hres, more, hcalls, hmore⟩ :=
    pagerLoop_unbounded transport apiURL network account (time.Unix blockTime 0) batches fuel 0
      signature []
      [(⟨apiURL, network, account, 1, none⟩, transport 0 ⟨apiURL, network, account, 1, none⟩)]
      hfuel
      (by
        intro i h req
        obtain ⟨s, m, hh⟩ := hstream i h req
        exact ⟨s, m, by rw [← hh]; congr 1; omega⟩)
      (by
        intro req
        obtain ⟨s, m, hh⟩ := hend req
        exact ⟨s, m, by rw [← hh]; congr 1; omega⟩)
      hsig
  have hresult : ∀ r : Run F,
      FetchAndParseTransactions fuel transport apiURL network account 0 = some r →
        r.calls = inner.calls ∧ r.result = .ok
          ((batches.flatten.filter
            (fun tx => decide (tx.Raw.BlockTime ≤ blockTime))).map ParseTransaction).reverse := by
    intro r hr
    obtain ⟨inner1, hloop1, hc1, hok1⟩ :=
      FetchAndParseTransactions_calls fuel transport apiURL network account 0 signature
        blockTime r hanchor hr
    simp only [if_true] at hloop1
    rw [hloop] at hloop1
    cases hloop1
    refine ⟨hc1, ?_⟩
    rw [hok1 _ hres, filter_not_after _ _ hblockTime hrange]
    simp
  have hsome : ∃ r : Run F,
      FetchAndParseTransactions fuel transport apiURL network account 0 = some r := by
    unfold FetchAndParseTransactions
    have hcalls0 := getLatestTransactionSignature_calls transport apiURL network account
    generalize getLatestTransactionSignature transport apiURL network account = g
      at hanchor hcalls0
    obtain ⟨out, calls⟩ := g
    simp only at hanchor hcalls0
    subst hanchor
    subst hcalls0
    simp only [if_true, hloop, hres]
    exact ⟨_, rfl⟩
  obtain ⟨run, hrun⟩ := hsome
  obtain ⟨hc, hr⟩ := hresult run hrun
  refine ⟨run, hrun, ?_, ?_, hr, ?_⟩
  · unfold fetchedBatches
    rw [hc, hcalls]
    simpa using hmore
  · have hlen := congrArg List.length hmore
    rw [hc, hcalls]
    simp at hlen ⊢
    omega
  · intro hall
    rw [hr]
    congr 3
    apply List.filter_eq_self.mpr
    intro tx htx
    simpa using hall tx htx

theorem batchOfHundred_blockTime (newest : Int) :
    ∀ tx ∈ batchOfHundred newest, newest - 99 ≤ tx.Raw.BlockTime ∧ tx.Raw.BlockTime ≤ newest := by
  intro tx htx
  unfold batchOfHundred at htx
  obtain ⟨i, hi, rfl⟩ := List.mem_map.mp htx
  have hi1 := List.mem_range.mp hi
  simp only [envelope]
  omega

/-- C12 (witness): scenario S6, three batches of 100 envelopes and then an empty
batch, gives four paged calls and all 300 transactions, oldest first. -/
theorem unbounded_window_witness :
    ∃ run : Run Float64,
      FetchAndParseTransactions 5 scenarioS6 "url" "net" "acct" 0 = some run ∧
      fetchedBatches run
        = [batchOfHundred 999, batchOfHundred 899, batchOfHundred 799] ++ [[]] ∧
      run.calls.length = 3 + 2 ∧
      run.result = .ok
        ([batchOfHundred 999, batchOfHundred 899, batchOfHundred 799].flatten.map
          ParseTransaction).reverse ∧
      (([batchOfHundred 999, batchOfHundred 899, batchOfHundred 799].flatten.map
          ParseTransaction).reverse : List (Transaction Float64)).length = 300 := by
  have hbounds : ∀ tx ∈ [batchOfHundred 999, batchOfHundred 899, batchOfHundred 799].flatten,
      0 ≤ tx.Raw.BlockTime ∧ tx.Raw.BlockTime ≤ 1000 := by
    intro tx htx
    simp only [List.flatten_cons, List.flatten_nil, List.append_nil, List.mem_append] at htx
    rcases htx with h | h | h
    · have := batchOfHundred_blockTime 999 tx h
      omega
    · have := batchOfHundred_blockTime 899 tx h
      omega
    · have := batchOfHundred_blockTime 799 tx h
      omega
  obtain ⟨run, h1, h2, h3, -, h5⟩ :=
    unbounded_window 5 scenarioS6 "url" "net" "acct" "s1000" 1000
      [batchOfHundred 999, batchOfHundred 899, batchOfHundred 799]
      (by decide) (by decide)
      (by
        intro tx htx
        have := hbounds tx htx
        unfold time.unixInRange
        omega)
      (by decide)
      (by
        intro i h req
        have hi : i < 3 := h
        interval_cases i
        · exact ⟨true, "", rfl⟩
        · exact ⟨true, "", rfl⟩
        · exact ⟨true, "", rfl⟩)
      (fun _ => ⟨true, "", rfl⟩)
      (by
        intro batch hb
        simp only [List.mem_cons, List.mem_singleton, List.not_mem_nil, or_false] at hb
        rcases hb with rfl | rfl | rfl
        · exact ⟨envelope ["s900"] 900 "Success", by decide, by decide⟩
        · exact ⟨envelope ["s800"] 800 "Success", by decide, by decide⟩
        · exact ⟨envelope ["s700"] 700 "Success", by decide, by decide⟩)
  refine ⟨run, h1, h2, h3, h5 ?_, ?_⟩
  · intro tx htx
    exact (hbounds tx htx).2
  · rw [List.length_reverse, List.length_map]
    simp only [List.flatten_cons, List.flatten_nil, List.length_append, batchOfHundred,
      List.length_map, List.length_range, List.length_nil]

/-- C12 (counterexamples): with `Δ = 0` and a stream of one non-empty batch
followed by an empty batch. First, with the anchor at block time 1000 and a
transaction at block time 1001, the fetch returns no transaction: the one of
the batch is skipped as newer than the anchor. Second, with the anchor at block
time 1000 and a transaction at block time `9223372036854775807`, the fetch
returns the transaction although it is after the anchor: `time.Unix` wraps its
instant around. Third, with the anchor at block time `9223372036854775807` and
a transaction at block time 1000, the fetch returns no transaction: the
anchor's instant wraps around and the transaction is skipped as newer. -/
theorem unbounded_window_drops :
    ((getLatestTransactionSignature newerTransport "url" "net" "acct").1
        = .ok ("s1000", 1000) ∧
      (Option.map (fun run => fetchedBatches run)
          (FetchAndParseTransactions 5 newerTransport "url" "net" "acct" 0))
        = some [[envelope ["s1001"] 1001 "Success"], []] ∧
      (Option.map (fun run => run.result)
          (FetchAndParseTransactions 5 newerTransport "url" "net" "acct" 0))
        = some (.ok [])) ∧
    ((getLatestTransactionSignature wrappedNewerTransport "url" "net" "acct").1
        = .ok ("s1000", 1000) ∧
      (Option.map (fun run => fetchedBatches run)
          (FetchAndParseTransactions 5 wrappedNewerTransport "url" "net" "acct" 0))
        = some [[envelope ["newest"] 9223372036854775807 "Success"], []] ∧
      (Option.map (fun run => run.result)
          (FetchAndParseTransactions 5 wrappedNewerTransport "url" "net" "acct" 0))
        = some (.ok [ParseTransaction (envelope ["newest"] 9223372036854775807 "Success")]) ∧
      ¬ ((9223372036854775807 : Int) ≤ 1000)) ∧
    ((getLatestTransactionSignature wrappedAnchorTransport "url" "net" "acct").1
        = .ok ("anchor", 9223372036854775807) ∧
      (Option.map (fun run => fetchedBatches run)
          (FetchAndParseTransactions 5 wrappedAnchorTransport "url" "net" "acct" 0))
        = some [[envelope ["s1000"] 1000 "Success"], []] ∧
      (Option.map (fun run => run.result)
          (FetchAndParseTransactions 5 wrappedAnchorTransport "url" "net" "acct" 0))
        = some (.ok []) ∧
      (1000 : Int) ≤ 9223372036854775807) := by
  refine ⟨⟨by decide, by decide, by decide⟩, ⟨by decide, by decide, by decide, by decide⟩,
    ⟨by decide, by decide, by decide, by decide⟩⟩

/-! ## C14: counts of a memo type -/

theorem foldl_countRecord {F : Type} (memoType : String) (records : List (Transaction F))
    (counts : MemoCounts) :
    records.foldl (countRecord memoType) counts =
      ⟨counts.total + ((records.filter (inBucket memoType)).length : Int),
        counts.success + (((records.filter (inBucket memoType)).filter
          (fun record => decide (record.Status = "Success"))).length : Int),
        counts.fail + (((records.filter (inBucket memoType)).filter
          (fun record => decide (record.Status = "Fail"))).length : Int)⟩ := by
  induction records generalizing counts with
  | nil => simp
  | cons record rest ih =>
    rw [List.foldl_cons, ih]
    by_cases hb : inBucket memoType record = true
    · have hstep : countRecord memoType counts record = tally record.Status counts := by
        unfold inBucket at hb
        simp only [decide_eq_true_eq] at hb
        unfold countRecord
        simp only
        rcases hb with h | ⟨h1, h2⟩ | ⟨h1, h2, h3⟩
        · simp [h]
        · subst h1
          simp [h2]
        · simp [h1, h2, h3]
      rw [hstep, List.filter_cons, if_pos hb]
      by_cases hs : record.Status = "Success"
      · have hf : ¬ record.Status = "Fail" := by rw [hs]; decide
        simp [tally, hs, List.filter_cons]
        omega
      · by_cases hf : record.Status = "Fail"
        · simp [tally, hs, hf, List.filter_cons]
          omega
        · simp [tally, hs, hf, List.filter_cons]
          omega
    · have hstep : countRecord memoType counts record = counts := by
        unfold inBucket at hb
        simp only [decide_eq_true_eq, not_or, not_and] at hb
        obtain ⟨h1, h2, h3⟩ := hb
        unfold countRecord
        simp only
        rw [if_neg h1]
        by_cases hn : memoType = "N/A"
        · rw [if_pos hn, if_neg (not_or.mpr (h2 hn))]
        · rw [if_neg hn, if_neg (h3 h1 hn)]
      rw [hstep, List.filter_cons, if_neg hb]

theorem length_by_status {F : Type} (bucket : List (Transaction F)) :
    bucket.length =
      (bucket.filter (fun record => decide (record.Status = "Success"))).length +
        (bucket.filter (fun record => decide (record.Status = "Fail"))).length +
        (bucket.filter (fun record =>
          decide (record.Status ≠ "Success" ∧ record.Status ≠ "Fail"))).length := by
  induction bucket with
  | nil => rfl
  | cons record rest ih =>
    rw [List.filter_cons, List.filter_cons, List.filter_cons, List.length_cons]
    by_cases hs : record.Status = "Success"
    · have hf : ¬ record.Status = "Fail" := by rw [hs]; decide
      have hn : ¬ (record.Status ≠ "Success" ∧ record.Status ≠ "Fail") := fun h => h.1 hs
      rw [if_pos (decide_eq_true hs), if_neg (by simpa using hf), if_neg (by simpa using hn),
        List.length_cons]
      omega
    · by_cases hf : record.Status = "Fail"
      · have hn : ¬ (record.Status ≠ "Success" ∧ record.Status ≠ "Fail") := fun h => h.2 hf
        rw [if_neg (by simpa using hs), if_pos (decide_eq_true hf), if_neg (by simpa using hn),
          List.length_cons]
        omega
      · have hn : record.Status ≠ "Success" ∧ record.Status ≠ "Fail" := ⟨hs, hf⟩
        rw [if_neg (by simpa using hs), if_neg (by simpa using hf), if_pos (decide_eq_true hn),
          List.length_cons]
        omega

/-- C14: for every list of records and every memo type, the row of
`AnalyzeMemoType` reports the counts `total`, `success` and `fail` of the bucket
of the memo type: the number of its records, of those with status "Success"
and of those with status "Fail". They satisfy `total = success + fail + other`,
where `other` is the number of records of the bucket whose status is neither,
so that `success + fail ≤ total`. -/
theorem memo_type_counts {F : Type} (records : List (Transaction F)) (memoType : String) :
    (countMemoType records memoType).total =
        ((records.filter (inBucket memoType)).length : Int) ∧
      (countMemoType records memoType).success =
        (((records.filter (inBucket memoType)).filter
          (fun record => decide (record.Status = "Success"))).length : Int) ∧
      (countMemoType records memoType).fail =
        (((records.filter (inBucket memoType)).filter
          (fun record => decide (record.Status = "Fail"))).length : Int) ∧
      (countMemoType records memoType).total =
        (countMemoType records memoType).success + (countMemoType records memoType).fail +
          (((records.filter (inBucket memoType)).filter (fun record =>
            decide (record.Status ≠ "Success" ∧ record.Status ≠ "Fail"))).length : Int) ∧
      (countMemoType records memoType).success + (countMemoType records memoType).fail ≤
        (countMemoType records memoType).total ∧
      (AnalyzeMemoType records memoType).drop 1 =
        [toString (countMemoType records memoType).total,
          toString (countMemoType records memoType).success,
          toString (countMemoType records memoType).fail,
          formatRate (countMemoType records memoType).success
            (countMemoType records memoType).total,
          formatRate (countMemoType records memoType).fail
            (countMemoType records memoType).total] := by
  have h := foldl_countRecord memoType records ⟨0, 0, 0⟩
  have hl := length_by_status (records.filter (inBucket memoType))
  have ht : (countMemoType records memoType).total =
      ((records.filter (inBucket memoType)).length : Int) := by
    unfold countMemoType
    rw [h]
    simp
  have hs : (countMemoType records memoType).success =
      (((records.filter (inBucket memoType)).filter
        (fun record => decide (record.Status = "Success"))).length : Int) := by
    unfold countMemoType
    rw [h]
    simp
  have hf : (countMemoType records memoType).fail =
      (((records.filter (inBucket memoType)).filter
        (fun record => decide (record.Status = "Fail"))).length : Int) := by
    unfold countMemoType
    rw [h]
    simp
  refine ⟨ht, hs, hf, ?_, ?_, rfl⟩
  · rw [ht, hs, hf]
    omega
  · rw [ht, hs, hf]
    omega

/-! ## C13: order of the memo rows -/

/-- C13 (the code at the failing input): for two records with the memos
"jito RPC" and "alpha", the row "jito RPC" has no "(jito)" suffix and the row
"alpha (jito)" has it, and `GenerateStats` puts the suffixed row first: both
display names contain "jito", so `less` compares them as plain strings. -/
theorem suffixed_row_before_unsuffixed :
    displayName "jito RPC" = "jito RPC" ∧
      displayName "alpha" = "alpha (jito)" ∧
      less "alpha (jito)" "jito RPC" = true ∧
      (GenerateStats jitoNamedRecords).map (fun row => row.headD "")
        = ["TOTAL", "N/A", "alpha (jito)", "jito RPC"] := by
  refine ⟨by decide, by decide, by decide, by decide⟩

/-! ## C17: totals of the rows -/

/-- C17 (the code at the failing input): for two records with the memos "TOTAL"
and "x", the row of the memo type "TOTAL" counts both records, as the TOTAL row
does, so the totals of the rows after the TOTAL row add up to 0 + 2 + 1 = 3,
not to the 2 of the TOTAL row; likewise 0 + 1 + 0 for success and 0 + 1 + 1 for
fail against 1 and 1. -/
theorem total_named_memo_counts_all :
    memoTypesOf totalNamedRecords = ["TOTAL", "x"] ∧
      (GenerateStats totalNamedRecords).map (fun row => row.take 4)
        = [["TOTAL", "2", "1", "1"], ["N/A", "0", "0", "0"], ["TOTAL", "2", "1", "1"],
            ["x (jito)", "1", "0", "1"]] ∧
      (countMemoType totalNamedRecords "TOTAL").total ≠
        (countMemoType totalNamedRecords "N/A").total +
          ((memoTypesOf totalNamedRecords).map
            (fun memoType => (countMemoType totalNamedRecords memoType).total)).sum := by
  refine ⟨by decide, by decide, by decide⟩

/-! ## The rows of `GenerateStats` when no memo reads "TOTAL" -/

theorem sum_indicator_of_nodup (s : List String) (hs : s.Nodup) (a : String) :
    (s.map (fun m => if a = m then 1 else 0)).sum = if a ∈ s then 1 else 0 := by
  induction s with
  | nil => simp
  | cons b rest ih =>
    have hb : b ∉ rest := (List.nodup_cons.mp hs).1
    rw [List.map_cons, List.sum_cons, ih (List.nodup_cons.mp hs).2]
    by_cases hab : a = b
    · subst hab
      simp [hb]
    · have hne : ¬ b = a := fun e => hab e.symm
      simp [hab, hne]

theorem sum_bucket_lengths {F : Type} (memo : Transaction F → String) (s : List String)
    (hs : s.Nodup) (records : List (Transaction F)) :
    (s.map (fun m => (records.filter (fun r => decide (memo r = m))).length)).sum =
      (records.filter (fun r => decide (memo r ∈ s))).length := by
  induction records with
  | nil => simp
  | cons r rest ih =>
    have hsplit : ∀ m : String,
        ((r :: rest).filter (fun r => decide (memo r = m))).length =
          (rest.filter (fun r => decide (memo r = m))).length + (if memo r = m then 1 else 0) := by
      intro m
      by_cases h : memo r = m
      · simp [List.filter_cons, h]
      · simp [List.filter_cons, h]
    simp only [hsplit]
    rw [List.sum_map_add, ih, sum_indicator_of_nodup s hs (memo r)]
    by_cases h : memo r ∈ s
    · simp [List.filter_cons, h]
    · simp [List.filter_cons, h]

theorem length_filter_split {α : Type} (q : α → Bool) (l : List α) :
    l.length = (l.filter q).length + (l.filter (fun a => !q a)).length := by
  induction l with
  | nil => rfl
  | cons a rest ih =>
    by_cases h : q a = true
    · simp [List.filter_cons, h]
      omega
    · simp [List.filter_cons, h]
      omega

theorem mem_memoTypesOf {F : Type} (records : List (Transaction F)) (m : String) :
    m ∈ memoTypesOf records ↔
      (∃ r ∈ records, TrimSpace r.ParsedTranction.Memo = m) ∧ m ≠ "" ∧ m ≠ "N/A" := by
  unfold memoTypesOf
  rw [List.mem_insertionSort, List.mem_dedup, List.mem_filter, List.mem_map]
  simp

theorem inBucket_of_memoType {F : Type} (records : List (Transaction F))
    (hno : ∀ r ∈ records, TrimSpace r.ParsedTranction.Memo ≠ "TOTAL")
    (m : String) (hm : m ∈ memoTypesOf records) (r : Transaction F) :
    inBucket m r = decide (TrimSpace r.ParsedTranction.Memo = m) := by
  obtain ⟨⟨r0, hr0, hmemo⟩, -, hna⟩ := (mem_memoTypesOf records m).mp hm
  have htotal : m ≠ "TOTAL" := fun e => hno r0 hr0 (hmemo.trans e)
  unfold inBucket
  simp [htotal, hna]

theorem bucket_partition {F : Type} (records : List (Transaction F))
    (hno : ∀ r ∈ records, TrimSpace r.ParsedTranction.Memo ≠ "TOTAL")
    (p : Transaction F → Bool) :
    ((records.filter (inBucket "TOTAL")).filter p).length =
      ((records.filter (inBucket "N/A")).filter p).length +
        ((memoTypesOf records).map
          (fun m => ((records.filter (inBucket m)).filter p).length)).sum := by
  have hswap : ∀ m : String, (records.filter (inBucket m)).filter p =
      (records.filter p).filter (inBucket m) := by
    intro m
    rw [List.filter_filter, List.filter_filter]
    apply List.filter_congr
    intro r _
    exact Bool.and_comm _ _
  simp only [hswap]
  have htotal : (records.filter p).filter (inBucket "TOTAL") = records.filter p := by
    apply List.filter_eq_self.mpr
    intro r _
    simp [inBucket]
  rw [htotal]
  have hsum : ((memoTypesOf records).map
        (fun m => ((records.filter p).filter (inBucket m)).length)).sum =
      ((records.filter p).filter (fun r => !inBucket "N/A" r)).length := by
    have hcongr : (memoTypesOf records).map
          (fun m => ((records.filter p).filter (inBucket m)).length) =
        (memoTypesOf records).map (fun m => ((records.filter p).filter
          (fun r => decide (TrimSpace r.ParsedTranction.Memo = m))).length) := by
      apply List.map_congr_left
      intro m hm
      congr 1
      apply List.filter_congr
      intro r _
      exact inBucket_of_memoType records hno m hm r
    rw [hcongr]
    have hperm : (memoTypesOf records).Perm
        (((records.map (fun record => TrimSpace record.ParsedTranction.Memo)).filter
          (fun memo => decide (memo ≠ "" ∧ memo ≠ "N/A"))).dedup) :=
      List.perm_insertionSort _ _
    rw [(hperm.map _).sum_eq,
      sum_bucket_lengths (fun r => TrimSpace r.ParsedTranction.Memo) _ (List.nodup_dedup _)]
    congr 1
    apply List.filter_congr
    intro r hr
    have hrec : r ∈ records := (List.mem_filter.mp hr).1
    have hiff : TrimSpace r.ParsedTranction.Memo ∈
          ((records.map (fun record => TrimSpace record.ParsedTranction.Memo)).filter
            (fun memo => decide (memo ≠ "" ∧ memo ≠ "N/A"))).dedup ↔
        (TrimSpace r.ParsedTranction.Memo ≠ "" ∧ TrimSpace r.ParsedTranction.Memo ≠ "N/A") := by
      rw [← hperm.mem_iff, mem_memoTypesOf]
      exact ⟨fun h => h.2, fun h => ⟨⟨r, hrec, rfl⟩, h⟩⟩
    have hna : inBucket "N/A" r = decide (TrimSpace r.ParsedTranction.Memo = "" ∨
        TrimSpace r.ParsedTranction.Memo = "N/A") := by
      unfold inBucket
      simp
    have hdec : decide (TrimSpace r.ParsedTranction.Memo ∈
          ((records.map (fun record => TrimSpace record.ParsedTranction.Memo)).filter
            (fun memo => decide (memo ≠ "" ∧ memo ≠ "N/A"))).dedup) =
        decide (TrimSpace r.ParsedTranction.Memo ≠ "" ∧
          TrimSpace r.ParsedTranction.Memo ≠ "N/A") :=
      decide_eq_decide.mpr hiff
    rw [hna, hdec]
    by_cases h1 : TrimSpace r.ParsedTranction.Memo = ""
    · simp [h1]
    · by_cases h2 : TrimSpace r.ParsedTranction.Memo = "N/A"
      · simp [h2]
      · simp [h1, h2]
  rw [hsum]
  exact length_filter_split (inBucket "N/A") (records.filter p)

/-- For records none of whose trimmed memos reads "TOTAL", every record is
counted in exactly one bucket besides TOTAL: the total, success and fail counts
of the TOTAL bucket are those of the N/A bucket plus the sums of those of the
memo types of `GenerateStats`. -/
theorem memo_rows_add_up {F : Type} (records : List (Transaction F))
    (hno : ∀ r ∈ records, TrimSpace r.ParsedTranction.Memo ≠ "TOTAL") :
    (countMemoType records "TOTAL").total =
        (countMemoType records "N/A").total +
          ((memoTypesOf records).map (fun m => (countMemoType records m).total)).sum ∧
      (countMemoType records "TOTAL").success =
        (countMemoType records "N/A").success +
          ((memoTypesOf records).map (fun m => (countMemoType records m).success)).sum ∧
      (countMemoType records "TOTAL").fail =
        (countMemoType records "N/A").fail +
          ((memoTypesOf records).map (fun m => (countMemoType records m).fail)).sum := by
  have hcount : ∀ m : String, countMemoType records m =
      ⟨((records.filter (inBucket m)).length : Int),
        (((records.filter (inBucket m)).filter
          (fun record => decide (record.Status = "Success"))).length : Int),
        (((records.filter (inBucket m)).filter
          (fun record => decide (record.Status = "Fail"))).length : Int)⟩ := by
    intro m
    unfold countMemoType
    rw [foldl_countRecord]
    simp
  have hcast : ∀ (f : String → Nat) (l : List String),
      (l.map (fun m => ((f m : Nat) : Int))).sum = (((l.map f).sum : Nat) : Int) := by
    intro f l
    induction l with
    | nil => simp
    | cons a rest ih => simp [ih]
  have h1 := bucket_partition records hno (fun _ => true)
  have h2 := bucket_partition records hno (fun record => decide (record.Status = "Success"))
  have h3 := bucket_partition records hno (fun record => decide (record.Status = "Fail"))
  simp only [List.filter_true] at h1
  simp only [hcount]
  refine ⟨?_, ?_, ?_⟩
  · rw [hcast (fun m => (records.filter (inBucket m)).length)]
    exact_mod_cast h1
  · rw [hcast (fun m => ((records.filter (inBucket m)).filter
      (fun record => decide (record.Status = "Success"))).length)]
    exact_mod_cast h2
  · rw [hcast (fun m => ((records.filter (inBucket m)).filter
      (fun record => decide (record.Status = "Fail"))).length)]
    exact_mod_cast h3

end analyze
